import Mathlib

/-!
# Data frames (`data-frame/data-frame.go`)

A shallow embedding of the frame operations of package `df` and the properties
proved about them.

Conventions of the embedding.

* A Go call returning `(*T, error)` is a value of `Except Err T`.  `Err.error msg`
  is an error value returned by the function, `Err.panic` is a run-time panic
  (index or slice bound out of range).
* Go `int` is `Int`; no operation here comes near the 64-bit bounds.
* A Go slice is a `List`; `nil` and the empty slice are both `[]`.
* A Go `map` is an association list in first-insertion order (`mapGet`,
  `mapSet`).  The order in which `range` visits a map is not fixed by the
  language: the functions that range over a map take the visiting order as the
  argument `visit`, and the theorems hold for every `visit` that returns a
  permutation of the entries.
* `newCol` and `column.append` are defined in another file of the package; the
  operations that call them take them as the arguments `newCol` and `colAppend`.
-/

namespace df

/-! ## Data model -/

/-- Failure of a call: an error value returned to the caller, or a run-time panic. -/
inductive Err where
  | error (msg : String)
  | panic
  deriving DecidableEq, Repr

/-- The `cell` interface: a cell is what its methods return.  `ToFloat` is left
out (floating point); no function of this file calls it. -/
structure cell where
  ToInteger : Option Int
  String : String
  deriving DecidableEq, Repr

/-- The `column` struct (declared in the column file of the package). -/
structure column where
  cells : List cell
  colType : String
  colName : String
  numChars : Int
  deriving DecidableEq, Repr

/-- The `DataFrame` struct. -/
structure DataFrame where
  columns : List column
  colNames : List String
  colTypes : List String
  nCols : Int
  nRows : Int
  deriving DecidableEq, Repr

/-- The `C` struct: a column name and its elements, as passed to `New`. -/
structure C where
  Colname : String
  Elements : List cell
  deriving DecidableEq, Repr

/-- The `u` struct: whether a row signature is unique, and the rows where it appears. -/
structure u where
  unique : Bool
  appears : List Int
  deriving DecidableEq, Repr

/-- The dynamic type of the `subset interface{}` argument: a range `R{From, To}`,
an `[]int`, a `[]string`, or anything else. -/
inductive Subset where
  | R (From To : Int)
  | ints (nums : List Int)
  | strings (names : List String)
  | other
  deriving DecidableEq, Repr

/-! ## Go primitives -/

/-- Go `xs[i]`: panics unless `0 ≤ i < len(xs)`. -/
def index {α : Type} (xs : List α) (i : Int) : Except Err α :=
  if i < 0 then .error .panic
  else
    match xs.get? i.toNat with
    | some x => .ok x
    | none => .error .panic

/-- Go `int` on a 64-bit platform: the values from `-2^63` to `2^63 - 1`. -/
def IsInt (x : Int) : Prop := -2 ^ 63 ≤ x ∧ x < 2 ^ 63

instance (x : Int) : Decidable (IsInt x) := by
  unfold IsInt; infer_instance

/-- Go `int` arithmetic: a result outside the range of `int` wraps around modulo
`2^64`. -/
def wrapInt (x : Int) : Int := (x + 2 ^ 63) % 2 ^ 64 - 2 ^ 63

/-- Go `xs[lo:hi]`: panics unless `0 ≤ lo ≤ hi ≤ len(xs)` (Go allows `hi` up to
the capacity; the length is used here). -/
def slice {α : Type} (xs : List α) (lo hi : Int) : Except Err (List α) :=
  if lo < 0 ∨ hi < lo ∨ (xs.length : Int) < hi then .error .panic
  else .ok ((xs.drop lo.toNat).take (hi.toNat - lo.toNat))

/-- Go `v, ok := m[k]`. -/
def mapGet {κ ν : Type} [DecidableEq κ] : List (κ × ν) → κ → Option ν
  | [], _ => none
  | (k', v) :: rest, k => if k' = k then some v else mapGet rest k

/-- Go `m[k] = v`. -/
def mapSet {κ ν : Type} [DecidableEq κ] : List (κ × ν) → κ → ν → List (κ × ν)
  | [], k, v => [(k, v)]
  | (k', v') :: rest, k, v =>
    if k' = k then (k, v) :: rest else (k', v') :: mapSet rest k v

/-! ## `Dim`, `columnIndex`, `colIndex` -/

/-- `Dim`: the number of rows, then the number of columns. -/
def Dim (df : DataFrame) : List Int := [df.nRows, df.nCols]

/-- The loop of `columnIndex` and of `colIndex`, at position `k` of the names. -/
def findName (colName : String) : List String → Int → Option Int
  | [], _ => none
  | v :: rest, k => if v = colName then some k else findName colName rest (k + 1)

/-- `columnIndex`: the first index of `colName` among the column names. -/
def columnIndex (df : DataFrame) (colName : String) : Except Err Int :=
  match findName colName df.colNames 0 with
  | some k => .ok k
  | none => .error (.error "Index out of range")

/-- `colIndex`: as `columnIndex`, with its own error message. -/
def colIndex (df : DataFrame) (colname : String) : Except Err Int :=
  match findName colname df.colNames 0 with
  | some k => .ok k
  | none => .error (.error "Can't find the given column")

/-! ## `SubsetRows` -/

/-- Range case of `SubsetRows`: the loop rebuilding every column from its slice. -/
def SubsetRows.rangeLoop (newCol : String → List cell → Except Err column)
    (From To : Int) : List column → Except Err (List column)
  | [] => .ok []
  | v :: rest =>
    match slice v.cells From To with
    | .error e => .error e
    | .ok cs =>
      match newCol v.colName cs with
      | .error e => .error e
      | .ok col =>
        match SubsetRows.rangeLoop newCol From To rest with
        | .error e => .error e
        | .ok cols => .ok (col :: cols)

/-- Index case of `SubsetRows`: the check of every row number. -/
def SubsetRows.check (nRows : Int) : List Int → Except Err Unit
  | [] => .ok ()
  | v :: rest =>
    if v ≥ nRows ∨ v < 0 then .error (.error "Subset out of range")
    else SubsetRows.check nRows rest

/-- Index case of `SubsetRows`: the inner loop appending `v.cells[i]` to `acc`. -/
def SubsetRows.pick (cells : List cell) : List cell → List Int → Except Err (List cell)
  | acc, [] => .ok acc
  | acc, i :: rest =>
    match index cells i with
    | .error e => .error e
    | .ok c => SubsetRows.pick cells (acc ++ [c]) rest

/-- Index case of `SubsetRows`: the loop over the columns. -/
def SubsetRows.indexLoop (newCol : String → List cell → Except Err column)
    (rowNums : List Int) : List column → Except Err (List column)
  | [] => .ok []
  | v :: rest =>
    match newCol v.colName [] with
    | .error e => .error e
    | .ok col =>
      match SubsetRows.pick v.cells col.cells rowNums with
      | .error e => .error e
      | .ok cs =>
        match SubsetRows.indexLoop newCol rowNums rest with
        | .error e => .error e
        | .ok cols => .ok ({ col with cells := cs } :: cols)

/-- `SubsetRows`. -/
def SubsetRows (newCol : String → List cell → Except Err column)
    (df : DataFrame) (subset : Subset) : Except Err DataFrame :=
  match subset with
  | .R From To =>
    if From > To then .error (.error "Bad subset: Start greater than Beginning")
    else if From = To then .error (.error "Empty subset")
    else if To > df.nRows ∨ To < 0 ∨ From < 0 then .error (.error "Subset out of range")
    else
      match SubsetRows.rangeLoop newCol From To df.columns with
      | .error e => .error e
      | .ok cols =>
        .ok { columns := cols, nCols := df.nCols, colNames := df.colNames,
              colTypes := df.colTypes, nRows := To - From }
  | .ints rowNums =>
    if rowNums.length = 0 then .error (.error "Empty subset")
    else
      match SubsetRows.check df.nRows rowNums with
      | .error e => .error e
      | .ok _ =>
        match SubsetRows.indexLoop newCol rowNums df.columns with
        | .error e => .error e
        | .ok cols =>
          .ok { columns := cols, nCols := df.nCols, colNames := df.colNames,
                colTypes := df.colTypes, nRows := rowNums.length }
  | _ => .error (.error "Unknown subsetting option")

/-! ## Row signatures and the deduplication views -/

/-- The inner loop of `uniqueRowsMap`: the signature of row `i`, appended to `str`. -/
def rowSignature (i : Int) : String → List column → Except Err String
  | str, [] => .ok str
  | str, v :: rest =>
    match index v.cells i with
    | .error e => .error e
    | .ok c => rowSignature i (str ++ v.colType ++ c.String) rest

/-- The body of the outer loop of `uniqueRowsMap` once the signature is known. -/
def uniqueRowsMap.record (uniqueRows : List (String × u)) (str : String) (i : Int) :
    List (String × u) :=
  match mapGet uniqueRows str with
  | some a => mapSet uniqueRows str { unique := false, appears := a.appears ++ [i] }
  | none => mapSet uniqueRows str { unique := true, appears := [i] }

/-- The outer loop of `uniqueRowsMap`, over the rows still to visit. -/
def uniqueRowsMap.loop (df : DataFrame) :
    List (String × u) → List Nat → Except Err (List (String × u))
  | uniqueRows, [] => .ok uniqueRows
  | uniqueRows, i :: rest =>
    match rowSignature (i : Int) "" df.columns with
    | .error e => .error e
    | .ok str => uniqueRowsMap.loop df (uniqueRowsMap.record uniqueRows str i) rest

/-- `uniqueRowsMap`. -/
def uniqueRowsMap (df : DataFrame) : Except Err (List (String × u)) :=
  uniqueRowsMap.loop df [] (List.range df.nRows.toNat)

/-- The loop of `Unique` over the visited entries: `v.appears[0]` of the unique ones. -/
def Unique.appears : List (String × u) → Except Err (List Int)
  | [] => .ok []
  | (_, v) :: rest =>
    if v.unique then
      match index v.appears 0 with
      | .error e => .error e
      | .ok a =>
        match Unique.appears rest with
        | .error e => .error e
        | .ok as => .ok (a :: as)
    else Unique.appears rest

/-- The loop of `RemoveUnique`: every appearance of the entries that are not unique. -/
def RemoveUnique.appears : List (String × u) → List Int
  | [] => []
  | (_, v) :: rest =>
    if !v.unique then v.appears ++ RemoveUnique.appears rest
    else RemoveUnique.appears rest

/-- The loop of `RemoveDuplicated`: `v.appears[0]` of every entry. -/
def RemoveDuplicated.appears : List (String × u) → Except Err (List Int)
  | [] => .ok []
  | (_, v) :: rest =>
    match index v.appears 0 with
    | .error e => .error e
    | .ok a =>
      match RemoveDuplicated.appears rest with
      | .error e => .error e
      | .ok as => .ok (a :: as)

/-- The loop of `Duplicated`: `v.appears[0]` of the entries that are not unique. -/
def Duplicated.appears : List (String × u) → Except Err (List Int)
  | [] => .ok []
  | (_, v) :: rest =>
    if !v.unique then
      match index v.appears 0 with
      | .error e => .error e
      | .ok a =>
        match Duplicated.appears rest with
        | .error e => .error e
        | .ok as => .ok (a :: as)
    else Duplicated.appears rest

/-- The row indices `Unique` passes to `SubsetRows`. -/
def Unique.selection (visit : List (String × u) → List (String × u)) (df : DataFrame) :
    Except Err (List Int) :=
  match uniqueRowsMap df with
  | .error e => .error e
  | .ok uniqueRows => Unique.appears (visit uniqueRows)

/-- The row indices `RemoveUnique` passes to `SubsetRows`. -/
def RemoveUnique.selection (visit : List (String × u) → List (String × u)) (df : DataFrame) :
    Except Err (List Int) :=
  match uniqueRowsMap df with
  | .error e => .error e
  | .ok uniqueRows => .ok (RemoveUnique.appears (visit uniqueRows))

/-- The row indices `RemoveDuplicated` passes to `SubsetRows`. -/
def RemoveDuplicated.selection (visit : List (String × u) → List (String × u))
    (df : DataFrame) : Except Err (List Int) :=
  match uniqueRowsMap df with
  | .error e => .error e
  | .ok uniqueRows => RemoveDuplicated.appears (visit uniqueRows)

/-- The row indices `Duplicated` passes to `SubsetRows`. -/
def Duplicated.selection (visit : List (String × u) → List (String × u)) (df : DataFrame) :
    Except Err (List Int) :=
  match uniqueRowsMap df with
  | .error e => .error e
  | .ok uniqueRows => Duplicated.appears (visit uniqueRows)

/-- `Unique`. -/
def Unique (newCol : String → List cell → Except Err column)
    (visit : List (String × u) → List (String × u)) (df : DataFrame) : Except Err DataFrame :=
  match Unique.selection visit df with
  | .error e => .error e
  | .ok appears => SubsetRows newCol df (.ints appears)

/-- `RemoveUnique`. -/
def RemoveUnique (newCol : String → List cell → Except Err column)
    (visit : List (String × u) → List (String × u)) (df : DataFrame) : Except Err DataFrame :=
  match RemoveUnique.selection visit df with
  | .error e => .error e
  | .ok appears => SubsetRows newCol df (.ints appears)

/-- `RemoveDuplicated`. -/
def RemoveDuplicated (newCol : String → List cell → Except Err column)
    (visit : List (String × u) → List (String × u)) (df : DataFrame) : Except Err DataFrame :=
  match RemoveDuplicated.selection visit df with
  | .error e => .error e
  | .ok appears => SubsetRows newCol df (.ints appears)

/-- `Duplicated`. -/
def Duplicated (newCol : String → List cell → Except Err column)
    (visit : List (String × u) → List (String × u)) (df : DataFrame) : Except Err DataFrame :=
  match Duplicated.selection visit df with
  | .error e => .error e
  | .ok appears => SubsetRows newCol df (.ints appears)

/-! ## `SubsetColumns` -/

/-- Index case of `SubsetColumns`: the check of every column number, with the map
of the numbers seen so far. -/
def SubsetColumns.check (nCols : Int) : List (Int × Bool) → List Int → Except Err Unit
  | _, [] => .ok ()
  | colNumsMap, v :: rest =>
    if v ≥ nCols ∨ v < 0 then .error (.error "Subset out of range")
    else
      match mapGet colNumsMap v with
      | none => SubsetColumns.check nCols (mapSet colNumsMap v true) rest
      | some _ => .error (.error "Duplicated column numbers")

/-- Index case of `SubsetColumns`: the loop appending the selected columns to `newDf`. -/
def SubsetColumns.selectNums (df : DataFrame) : DataFrame → List Int → Except Err DataFrame
  | newDf, [] => .ok newDf
  | newDf, v :: rest =>
    match index df.columns v with
    | .error e => .error e
    | .ok col =>
      match index df.colNames v with
      | .error e => .error e
      | .ok name =>
        match index df.colTypes v with
        | .error e => .error e
        | .ok type =>
          SubsetColumns.selectNums df
            { newDf with columns := newDf.columns ++ [col],
                         colNames := newDf.colNames ++ [name],
                         colTypes := newDf.colTypes ++ [type] } rest

/-- Name case of `SubsetColumns`: the loop collecting `dupedColnames`. -/
def SubsetColumns.duped : List (String × Bool) → List String → List String → List String
  | _, dupedColnames, [] => dupedColnames
  | colnamesMap, dupedColnames, v :: rest =>
    if v ≠ "" then
      match mapGet colnamesMap v with
      | none => SubsetColumns.duped (mapSet colnamesMap v true) dupedColnames rest
      | some _ => SubsetColumns.duped colnamesMap (dupedColnames ++ [v]) rest
    else SubsetColumns.duped colnamesMap dupedColnames rest

/-- Name case of `SubsetColumns`: the loop appending the selected columns to `newDf`. -/
def SubsetColumns.selectNames (df : DataFrame) : DataFrame → List String → Except Err DataFrame
  | newDf, [] => .ok newDf
  | newDf, v :: rest =>
    match columnIndex df v with
    | .error e => .error e
    | .ok i =>
      match index df.columns i with
      | .error e => .error e
      | .ok col =>
        match colIndex df v with
        | .error e => .error e
        | .ok colindex =>
          match index df.colTypes colindex with
          | .error e => .error e
          | .ok type =>
            SubsetColumns.selectNames df
              { newDf with colNames := newDf.colNames ++ [v],
                           colTypes := newDf.colTypes ++ [type],
                           columns := newDf.columns ++ [col] } rest

/-- `SubsetColumns`.  Every successful case ends with `nCols = len(newDf.colNames)`. -/
def SubsetColumns (df : DataFrame) (subset : Subset) : Except Err DataFrame :=
  let newDf : DataFrame :=
    { columns := [], nRows := df.nRows, colNames := [], colTypes := [], nCols := 0 }
  match subset with
  | .R From To =>
    if From > To then .error (.error "Bad subset: Start greater than Beginning")
    else if From = To then .error (.error "Empty subset")
    else if To > df.nCols ∨ To < 0 ∨ From < 0 then .error (.error "Subset out of range")
    else
      match slice df.colNames From To with
      | .error e => .error e
      | .ok names =>
        match slice df.colTypes From To with
        | .error e => .error e
        | .ok types =>
          match slice df.columns From To with
          | .error e => .error e
          | .ok cols =>
            .ok { newDf with colNames := names, colTypes := types, columns := cols,
                             nCols := names.length }
  | .ints colNums =>
    if colNums.length = 0 then .error (.error "Empty subset")
    else
      match SubsetColumns.check df.nCols [] colNums with
      | .error e => .error e
      | .ok _ =>
        match SubsetColumns.selectNums df newDf colNums with
        | .error e => .error e
        | .ok d => .ok { d with nCols := d.colNames.length }
  | .strings columns =>
    if columns.length = 0 then .error (.error "Empty subset")
    else
      let dupedColnames := SubsetColumns.duped [] [] columns
      if dupedColnames.length ≠ 0 then
        .error (.error ("Duplicated column names:[" ++ " ".intercalate dupedColnames ++ "]"))
      else
        match SubsetColumns.selectNames df newDf columns with
        | .error e => .error e
        | .ok d => .ok { d with nCols := d.colNames.length }
  | .other => .error (.error "Unknown subsetting option")

/-! ## `Rbind` and `Cbind` -/

/-- First loop of `Rbind`: `colNameTypeMap[v] = dfA.colTypes[k]` for every name of `dfA`. -/
def Rbind.typeMap (dfA : DataFrame) :
    List (String × String) → Int → List String → Except Err (List (String × String))
  | colNameTypeMap, _, [] => .ok colNameTypeMap
  | colNameTypeMap, k, v :: rest =>
    match index dfA.colTypes k with
    | .error e => .error e
    | .ok t => Rbind.typeMap dfA (mapSet colNameTypeMap v t) (k + 1) rest

/-- Second loop of `Rbind`: every name of `dfB` is in the map, with the type of `dfB`. -/
def Rbind.check (dfB : DataFrame) (colNameTypeMap : List (String × String)) :
    Int → List String → Except Err Unit
  | _, [] => .ok ()
  | k, v :: rest =>
    match mapGet colNameTypeMap v with
    | some dfType =>
      match index dfB.colTypes k with
      | .error e => .error e
      | .ok t =>
        if dfType ≠ t then .error (.error "Mismatching column types")
        else Rbind.check dfB colNameTypeMap (k + 1) rest
    | none => .error (.error "Mismatching column names")

/-- Third loop of `Rbind`: every column of `dfA`, by name, with the cells of the
column of `dfB` of that name appended. -/
def Rbind.bind (colAppend : column → List cell → Except Err column) (dfA dfB : DataFrame) :
    List String → Except Err (List column)
  | [] => .ok []
  | v :: rest =>
    match colIndex dfA v with
    | .error e => .error e
    | .ok i =>
      match colIndex dfB v with
      | .error e => .error e
      | .ok j =>
        match index dfA.columns i with
        | .error e => .error e
        | .ok col =>
          match index dfB.columns j with
          | .error e => .error e
          | .ok colB =>
            match colAppend col colB.cells with
            | .error e => .error e
            | .ok col' =>
              match Rbind.bind colAppend dfA dfB rest with
              | .error e => .error e
              | .ok cols => .ok (col' :: cols)

/-- `Rbind`. -/
def Rbind (colAppend : column → List cell → Except Err column) (dfA dfB : DataFrame) :
    Except Err DataFrame :=
  if dfA.nCols ≠ dfB.nCols then .error (.error "Different number of columns")
  else
    match Rbind.typeMap dfA [] 0 dfA.colNames with
    | .error e => .error e
    | .ok colNameTypeMap =>
      match Rbind.check dfB colNameTypeMap 0 dfB.colNames with
      | .error e => .error e
      | .ok _ =>
        match Rbind.bind colAppend dfA dfB dfA.colNames with
        | .error e => .error e
        | .ok cols =>
          .ok { dfA with columns := cols, nRows := wrapInt (dfA.nRows + dfB.nRows) }

/-- First loop of `Cbind`: the map holding every column name of `dfA`. -/
def Cbind.nameMap : List (String × Bool) → List String → List (String × Bool)
  | colNameMap, [] => colNameMap
  | colNameMap, v :: rest => Cbind.nameMap (mapSet colNameMap v true) rest

/-- Second loop of `Cbind`: no name of `dfB` is in the map. -/
def Cbind.check (colNameMap : List (String × Bool)) : List String → Except Err Unit
  | [] => .ok ()
  | v :: rest =>
    match mapGet colNameMap v with
    | some _ => .error (.error "Conflicting column names")
    | none => Cbind.check colNameMap rest

/-- `Cbind`. -/
def Cbind (dfA dfB : DataFrame) : Except Err DataFrame :=
  if dfA.nRows ≠ dfB.nRows then .error (.error "Different number of rows")
  else
    match Cbind.check (Cbind.nameMap [] dfA.colNames) dfB.colNames with
    | .error e => .error e
    | .ok _ =>
      .ok { dfA with colNames := dfA.colNames ++ dfB.colNames,
                     colTypes := dfA.colTypes ++ dfB.colTypes,
                     nCols := (dfA.colNames ++ dfB.colNames).length,
                     columns := dfA.columns ++ dfB.columns }

/-! ## `New` -/

/-- The loop of `New` at position `k`, with the values of `colLength`, `colNames`,
`colTypes` and `cols` so far; after the last group the frame is assembled. -/
def New.loop (newCol : String → List cell → Except Err column) :
    Int → Int → List String → List String → List column → List C → Except Err DataFrame
  | _, colLength, colNames, colTypes, cols, [] =>
    .ok { colNames := colNames, colTypes := colTypes, columns := cols,
          nRows := colLength, nCols := colNames.length }
  | k, colLength, colNames, colTypes, cols, val :: rest =>
    match newCol val.Colname val.Elements with
    | .error e => .error e
    | .ok col =>
      if k = 0 then
        New.loop newCol (k + 1) col.cells.length (colNames ++ [col.colName])
          (colTypes ++ [col.colType]) (cols ++ [col]) rest
      else if colLength ≠ col.cells.length then
        .error (.error "columns don't have the same dimensions")
      else
        New.loop newCol (k + 1) colLength (colNames ++ [col.colName])
          (colTypes ++ [col.colType]) (cols ++ [col]) rest

/-- `New`. -/
def New (newCol : String → List cell → Except Err column) (colConst : List C) :
    Except Err DataFrame :=
  if colConst.length = 0 then .error (.error "Can't create empty DataFrame")
  else New.loop newCol 0 0 [] [] [] colConst

/-! ## Stand-ins for `newCol` and `column.append`, and the frame invariants -/

/-- Modelled from the spec: `newCol` is declared in the column file of the package,
outside `data-frame.go`.  Following §4.2 it fails on an empty name
and otherwise returns a column holding the given cells under the given name, with
the display width of the widest rendering.  The inference of the type tag from the
cells is left as the argument `infer`.  It is used only where a concrete `newCol`
is needed to evaluate an operation. -/
def newColModel (infer : List cell → String) (colName : String) (elements : List cell) :
    Except Err column :=
  if colName = "" then .error (.error "Empty column name")
  else
    .ok { cells := elements, colType := infer elements, colName := colName,
          numChars := ((elements.map (fun c => c.String.length)).foldl max colName.length : Nat) }

/-- Modelled from the spec: `column.append` is declared in the column file of the
package, outside `data-frame.go`.  Following §4.5 (the rows of the
right operand come after those of the left) it returns the column with the given
cells appended, and the display width widened to the widest rendering.  It is used
only where a concrete `append` is needed to evaluate `Rbind`. -/
def appendModel (col : column) (elements : List cell) : Except Err column :=
  .ok { col with cells := col.cells ++ elements,
                 numChars := (elements.map (fun c => (c.String.length : Int))).foldl max col.numChars }

/-- Every column has exactly `nRows` cells. -/
def RowsWellFormed (f : DataFrame) : Prop :=
  ∀ c ∈ f.columns, (c.cells.length : Int) = f.nRows

/-- The shape invariant of a frame: `nCols` counts the columns, the names and the
types, and every column has exactly `nRows` cells. -/
def WellFormed (f : DataFrame) : Prop :=
  f.nCols = f.columns.length ∧ f.nCols = f.colNames.length ∧
    f.nCols = f.colTypes.length ∧ RowsWellFormed f

instance (f : DataFrame) : Decidable (RowsWellFormed f) := by
  unfold RowsWellFormed; infer_instance

instance (f : DataFrame) : Decidable (WellFormed f) := by
  unfold WellFormed; infer_instance

/-! ## The row selections in the words of the spec, and the grouping invariant -/

/-- The rendered string of the cell of column `c` at row `i` (empty past the end). -/
def rendered (c : column) (i : Nat) : String :=
  match c.cells[i]? with
  | some x => x.String
  | none => ""

/-- The row signature in the words of the spec: the concatenation over the columns,
in column order, of the column type tag followed by the rendered string of the cell. -/
def specSignature (f : DataFrame) (i : Nat) : String :=
  (f.columns.map (fun c => c.colType ++ rendered c i)).foldr (fun s t => s ++ t) ""

/-- The number of rows of `f` whose signature is that of row `i`. -/
def occurrences (f : DataFrame) (i : Nat) : Nat :=
  (List.range f.nRows.toNat).countP (fun j => specSignature f j = specSignature f i)

/-- Row `i` is the smallest index carrying its signature. -/
def isFirst (f : DataFrame) (i : Nat) : Bool :=
  (List.range i).all (fun j => specSignature f j ≠ specSignature f i)

/-- The outer loop of `uniqueRowsMap` over rows whose signatures are given by `g`. -/
def groupRows (g : Nat → String) (m : List (String × u)) (l : List Nat) : List (String × u) :=
  l.foldl (fun m i => uniqueRowsMap.record m (g i) i) m

/-- The map `m` groups the rows `l` by the signature `g`: its keys are distinct, every
entry lists the rows of its signature in order, is marked unique exactly when there
is one, and every row has an entry. -/
def Grouped (g : Nat → String) (l : List Nat) (m : List (String × u)) : Prop :=
  (m.map Prod.fst).Nodup ∧
  (∀ p ∈ m, p.2.appears = (l.filter (fun i => g i = p.1)).map (fun i : Nat => (i : Int)) ∧
      p.2.appears ≠ [] ∧ (p.2.unique = true ↔ p.2.appears.length = 1)) ∧
  (∀ i ∈ l, g i ∈ m.map Prod.fst)

/-- The first row listed by a map entry (`v.appears[0]`). -/
def firstRow (p : String × u) : Int := p.2.appears.headD 0

/-- The row indices `0 ≤ i < nRows` of `f` that satisfy `q`, in increasing order. -/
def rowsWhere (f : DataFrame) (q : Nat → Bool) : List Int :=
  ((List.range f.nRows.toNat).filter q).map (fun i : Nat => (i : Int))

/-- Position `i` is the first one where `names` holds `v`. -/
def firstAt (names : List String) (v : String) (i : Nat) : Prop :=
  names[i]? = some v ∧ ∀ j, j < i → names[j]? ≠ some v

/-! ## Example frames -/

/-- The frame of the scenario of §8: `n:Int = [1,2,2,3]`, `s:String = [a,b,b,c]`. -/
def scenario : DataFrame :=
  { columns :=
      [ { cells := [⟨some 1, "1"⟩, ⟨some 2, "2"⟩, ⟨some 2, "2"⟩, ⟨some 3, "3"⟩],
          colType := "Int", colName := "n", numChars := 1 },
        { cells := [⟨none, "a"⟩, ⟨none, "b"⟩, ⟨none, "b"⟩, ⟨none, "c"⟩],
          colType := "String", colName := "s", numChars := 1 } ],
    colNames := ["n", "s"], colTypes := ["Int", "String"], nCols := 2, nRows := 4 }

/-- A one-column frame whose column is named by the empty string. -/
def blankNamed : DataFrame :=
  { columns := [{ cells := [⟨some 1, "1"⟩], colType := "Int", colName := "", numChars := 1 }],
    colNames := [""], colTypes := ["Int"], nCols := 1, nRows := 1 }

/-- A frame with the columns of the scenario in the other order and two rows. -/
def swapped : DataFrame :=
  { columns :=
      [ { cells := [⟨none, "d"⟩, ⟨none, "e"⟩], colType := "String", colName := "s", numChars := 1 },
        { cells := [⟨some 4, "4"⟩, ⟨some 5, "5"⟩], colType := "Int", colName := "n", numChars := 1 } ],
    colNames := ["s", "n"], colTypes := ["String", "Int"], nCols := 2, nRows := 2 }

/-- A one-column frame with four rows and a column name of its own. -/
def extra : DataFrame :=
  { columns := [{ cells := [⟨none, "w"⟩, ⟨none, "x"⟩, ⟨none, "y"⟩, ⟨none, "z"⟩],
                  colType := "String", colName := "t", numChars := 1 }],
    colNames := ["t"], colTypes := ["String"], nCols := 1, nRows := 4 }


/-- The signatures of the rows `0, ..., nRows - 1` of `f`, in row order. -/
def signatures (f : DataFrame) : List String :=
  (List.range f.nRows.toNat).map (specSignature f)

/-- The sum, over the signatures occurring more than once in `f`, of the number of
occurrences minus one. -/
def repeatedExcess (f : DataFrame) : Nat :=
  (((signatures f).dedup.filter (fun s => decide (2 ≤ (signatures f).count s))).map
    (fun s => (signatures f).count s - 1)).sum


/-- The call `res` fails only with the empty-subset error, fails exactly when `cond`
holds, and returns no frame without rows. -/
def FailsExactlyWhen (res : Except Err DataFrame) (cond : Prop) : Prop :=
  (∀ e, res = .error e → e = .error "Empty subset") ∧
  ((∃ e, res = .error e) ↔ cond) ∧
  ∀ r, res = .ok r → 0 < r.nRows


/-- A frame of two `String` columns and two rows that differ in both cells:
`("x", "yStringz")` and `("xStringy", "z")`. -/
def colliding : DataFrame :=
  { columns :=
      [ { cells := [⟨none, "x"⟩, ⟨none, "xStringy"⟩], colType := "String", colName := "a",
          numChars := 8 },
        { cells := [⟨none, "yStringz"⟩, ⟨none, "z"⟩], colType := "String", colName := "b",
          numChars := 8 } ],
    colNames := ["a", "b"], colTypes := ["String", "String"], nCols := 2, nRows := 2 }


/-- `Subset`: the columns of the subset, then the rows. -/
def DataFrame.Subset (newCol : String → List cell → Except Err column) (df : DataFrame)
    (subsetCols subsetRows : Subset) : Except Err DataFrame :=
  match SubsetColumns df subsetCols with
  | .error e => .error e
  | .ok dfA =>
    match SubsetRows newCol dfA subsetRows with
    | .error e => .error e
    | .ok dfB => .ok dfB

/-- The other order of the two selections: `SubsetRows`, then `SubsetColumns` of the
result. -/
def rowsThenColumns (newCol : String → List cell → Except Err column) (df : DataFrame)
    (subsetCols subsetRows : Subset) : Except Err DataFrame :=
  match SubsetRows newCol df subsetRows with
  | .error e => .error e
  | .ok dfA => SubsetColumns dfA subsetCols

/-- The elements `lo, ..., hi - 1` of `xs`. -/
def between {α : Type} (xs : List α) (lo hi : Int) : List α :=
  (xs.drop lo.toNat).take (hi.toNat - lo.toNat)


/-- A frame without columns and with four rows. -/
def noColumns : DataFrame :=
  { columns := [], colNames := [], colTypes := [], nCols := 0, nRows := 4 }


/-- A frame with two columns of the same name and of different types, and one row. -/
def twiceNamed : DataFrame :=
  { columns :=
      [ { cells := [⟨some 1, "1"⟩], colType := "Int", colName := "a", numChars := 1 },
        { cells := [⟨none, "x"⟩], colType := "String", colName := "a", numChars := 1 } ],
    colNames := ["a", "a"], colTypes := ["Int", "String"], nCols := 2, nRows := 1 }

/-- The frame of the names and types of `twiceNamed`, without rows. -/
def twiceNamedEmpty : DataFrame :=
  { columns :=
      [ { cells := [], colType := "Int", colName := "a", numChars := 1 },
        { cells := [], colType := "String", colName := "a", numChars := 1 } ],
    colNames := ["a", "a"], colTypes := ["Int", "String"], nCols := 2, nRows := 0 }


/-- The frame invariant: `nCols` counts the columns, the names and the types, every
column has exactly `nRows` cells, and the column names are pairwise distinct. -/
def FrameInv (f : DataFrame) : Prop :=
  WellFormed f ∧ f.colNames.Nodup

instance (f : DataFrame) : Decidable (FrameInv f) := by
  unfold FrameInv; infer_instance

/-! ## `LoadData` -/

/-- First loop of `LoadData` over the header: every non-blank name goes into the map
of names, and a non-blank name that is already in it is an error. -/
def LoadData.check : List (String × Bool) → List String → Except Err (List (String × Bool))
  | colnamesMap, [] => .ok colnamesMap
  | colnamesMap, v :: rest =>
    if v ≠ "" then
      match mapGet colnamesMap v with
      | none => LoadData.check (mapSet colnamesMap v true) rest
      | some _ => .error (.error ("Duplicated column names: " ++ v))
    else LoadData.check colnamesMap rest

/-- The inner `for` loop of `LoadData` at a blank header cell: it tries the names
`V<auxCounter>`, `V<auxCounter + 1>`, ... and stops at the first one that is not in
the map, returning the name and the advanced counter.  The Go loop has no bound; here
`rounds` bounds the number of names tried, and `none` is a loop that has not stopped
within the bound. -/
def LoadData.newColname : Nat → List (String × Bool) → Nat → Option (String × Nat)
  | 0, _, _ => none
  | rounds + 1, colnamesMap, auxCounter =>
    let newColname := "V" ++ toString auxCounter
    match mapGet colnamesMap newColname with
    | none => some (newColname, auxCounter + 1)
    | some _ => LoadData.newColname rounds colnamesMap (auxCounter + 1)

/-- Second loop of `LoadData` over the header: every blank cell is replaced by the
name the inner loop finds, which is added to the map; the other cells stay. -/
def LoadData.fill (rounds : Nat) :
    List (String × Bool) → Nat → List String → Option (List String)
  | _, _, [] => some []
  | colnamesMap, auxCounter, v :: rest =>
    if v = "" then
      match LoadData.newColname rounds colnamesMap auxCounter with
      | none => none
      | some (newColname, auxCounter') =>
        match LoadData.fill rounds (mapSet colnamesMap newColname true) auxCounter' rest with
        | none => none
        | some colnames => some (newColname :: colnames)
    else
      match LoadData.fill rounds colnamesMap auxCounter rest with
      | none => none
      | some colnames => some (v :: colnames)

/-- The two header loops of `LoadData`: the column names after the check and the
filling of the blank cells. -/
def LoadData.colnames (rounds : Nat) (header : List String) :
    Option (Except Err (List String)) :=
  match LoadData.check [] header with
  | .error e => some (.error e)
  | .ok colnamesMap =>
    match LoadData.fill rounds colnamesMap 0 header with
    | none => none
    | some colnames => some (.ok colnames)

/-- The loop `for i := 1; i < nRows+1; i++` of `LoadData` for column `j`, at row `i`
with `n` rows left: it collects `records[i][j]`. -/
def LoadData.colstrarr (records : List (List String)) (j : Int) :
    Nat → Int → Except Err (List String)
  | 0, _ => .ok []
  | n + 1, i =>
    match index records i with
    | .error e => .error e
    | .ok row =>
      match index row j with
      | .error e => .error e
      | .ok s =>
        match LoadData.colstrarr records j n (i + 1) with
        | .error e => .error e
        | .ok ss => .ok (s :: ss)

/-- The loop `for j := 0; j < nCols; j++` of `LoadData`, at column `j` with the names
of the columns still to build. -/
def LoadData.cols (newCol : String → List cell → Except Err column)
    (Strings : List String → List cell) (records : List (List String)) (nRows : Int) :
    Int → List String → Except Err (List column)
  | _, [] => .ok []
  | j, colname :: rest =>
    match LoadData.colstrarr records j nRows.toNat 1 with
    | .error e => .error e
    | .ok colstrarr =>
      match newCol colname (Strings colstrarr) with
      | .error e => .error e
      | .ok col =>
        match LoadData.cols newCol Strings records nRows (j + 1) rest with
        | .error e => .error e
        | .ok cols => .ok (col :: cols)

/-- `LoadData`: the result is the new value of the target frame, assigned only when no
error is returned.  `newCol` and `Strings` are declared in the column file of the
package and are parameters; `rounds` bounds the inner loop of the placeholder names
and `none` is a call whose loop has not stopped within the bound. -/
def LoadData (newCol : String → List cell → Except Err column)
    (Strings : List String → List cell) (rounds : Nat) (records : List (List String)) :
    Option (Except Err DataFrame) :=
  let nRows : Int := (records.length : Int) - 1
  if nRows ≤ 0 then some (.error (.error "Empty dataframe"))
  else
    match index records 0 with
    | .error e => some (.error e)
    | .ok header =>
      let nCols : Int := header.length
      match LoadData.colnames rounds header with
      | none => none
      | some (.error e) => some (.error e)
      | some (.ok colnames) =>
        match LoadData.cols newCol Strings records nRows 0 colnames with
        | .error e => some (.error e)
        | .ok cols =>
          some (.ok { nRows := nRows, nCols := nCols, colNames := colnames,
                      colTypes := cols.map (fun col => col.colType), columns := cols })

/-- Modelled from the spec: `Strings` is declared in the column file of the package,
outside `data-frame.go`.  Following §4.3 (every field is loaded as a string) it turns
each string into a cell that renders as that string.  It is used only where a
concrete `Strings` is needed to evaluate `LoadData`. -/
def stringsModel (ss : List String) : List cell :=
  ss.map (fun s => { ToInteger := none, String := s })

/-- The header with its blank cells replaced, from left to right, by the names `V`
followed by the numbers of `ns` in decimal. -/
def withPlaceholders : List String → List Nat → List String
  | [], _ => []
  | v :: rest, ns =>
    if v = "" then
      match ns with
      | [] => v :: withPlaceholders rest []
      | n :: more => ("V" ++ toString n) :: withPlaceholders rest more
    else v :: withPlaceholders rest ns

/-- A record matrix with blank header cells and a header cell that uses a
placeholder name. -/
def blankHeader : List (List String) :=
  [["", "V0", "", "x"], ["1", "2", "3", "4"], ["5", "6", "7", "8"]]

/-! ## `LoadAndParse` -/

/-- Go `xs[i] = x`: panics unless `0 ≤ i < len(xs)`. -/
def assign {α : Type} (xs : List α) (i : Int) (x : α) : Except Err (List α) :=
  if i < 0 ∨ (xs.length : Int) ≤ i then .error .panic
  else .ok (xs.set i.toNat x)

/-- The `types` argument of `LoadAndParse`, an `interface{}`: a `[]string`, a `T`
(the entries of the map), or a value of another type. -/
inductive Types where
  | strings (types : List String)
  | T (types : List (String × String))
  | other
  deriving DecidableEq, Repr

/-- The loop of the `[]string` case of `LoadAndParse`, at position `k` of the columns
the `range` was started on: the frame is the current value of the target, returned
with the error when the loop stops early. -/
def LoadAndParse.strings (parseColumn : column → String → Except Err column)
    (types : List String) : DataFrame → Int → List column → DataFrame × Except Err Unit
  | df, _, [] => (df, .ok ())
  | df, k, v :: rest =>
    match index types k with
    | .error e => (df, .error e)
    | .ok t =>
      match parseColumn v t with
      | .error e => (df, .error e)
      | .ok col =>
        match assign df.colTypes k col.colType with
        | .error e => (df, .error e)
        | .ok colTypes =>
          match assign df.columns k col with
          | .error e => ({ df with colTypes := colTypes }, .error e)
          | .ok columns =>
            LoadAndParse.strings parseColumn types
              { df with colTypes := colTypes, columns := columns } (k + 1) rest

/-- The loop of the `T` case of `LoadAndParse` over the entries of the map in the
order they are visited. -/
def LoadAndParse.T (parseColumn : column → String → Except Err column) :
    DataFrame → List (String × String) → DataFrame × Except Err Unit
  | df, [] => (df, .ok ())
  | df, (k, v) :: rest =>
    match columnIndex df k with
    | .error e => (df, .error e)
    | .ok i =>
      match index df.columns i with
      | .error e => (df, .error e)
      | .ok c =>
        match parseColumn c v with
        | .error e => (df, .error e)
        | .ok col =>
          match colIndex df k with
          | .error _ => (df, .error .panic)
          | .ok colIndex =>
            match assign df.colTypes colIndex col.colType with
            | .error e => (df, .error e)
            | .ok colTypes =>
              match assign df.columns i col with
              | .error e => ({ df with colTypes := colTypes }, .error e)
              | .ok columns =>
                LoadAndParse.T parseColumn { df with colTypes := colTypes, columns := columns }
                  rest

/-- `LoadAndParse` on the target `df`: the value of the target after the call and the
returned error.  `LoadData` assigns the loaded frame to the target when it returns no
error; the loops then work on the target.  `parseColumn` is declared in the column file
of the package and is a parameter; `visit` is the order in which `range` visits the
map. -/
def LoadAndParse (newCol : String → List cell → Except Err column)
    (Strings : List String → List cell) (parseColumn : column → String → Except Err column)
    (visit : List (String × String) → List (String × String)) (rounds : Nat)
    (df : DataFrame) (records : List (List String)) (types : Types) :
    Option (DataFrame × Except Err Unit) :=
  match LoadData newCol Strings rounds records with
  | none => none
  | some (.error e) => some (df, .error e)
  | some (.ok newDf) =>
    match types with
    | .strings types =>
      if newDf.nCols ≠ types.length then
        some (newDf, .error (.error "Number of columns different from number of types"))
      else some (LoadAndParse.strings parseColumn types newDf 0 newDf.columns)
    | .T types => some (LoadAndParse.T parseColumn newDf (visit types))
    | .other => some (newDf, .ok ())

/-- Modelled from the spec: `parseColumn` is declared in the column file of the
package, outside `data-frame.go`.  Following §4.3 it re-interprets the cells of the
column as the target type and fails when a cell cannot be represented in it;
`parses t s` says whether the string `s` can be represented in the type `t`.  It is
used only where a concrete `parseColumn` is needed to evaluate `LoadAndParse`. -/
def parseColumnModel (parses : String → String → Bool) (col : column) (t : String) :
    Except Err column :=
  if col.cells.all (fun c => parses t c.String) then .ok { col with colType := t }
  else .error (.error ("Can't parse column " ++ col.colName ++ " as " ++ t))

/-- A stand-in for the representable strings: every string is a `String`, and the
strings of decimal digits are `Int`s. -/
def parsesModel (t s : String) : Bool :=
  t = "String" ∨ (t = "Int" ∧ s ≠ "" ∧ s.data.all Char.isDigit)

/-- A record matrix with two columns, the second of which holds a cell that is not a
number. -/
def mixedRecords : List (List String) := [["a", "b"], ["1", "x"]]

/-! ## Frames and calls of the counterexamples -/

/-- The frame `LoadData` returns from the records `[[], []]`, an empty header and one
data row: no columns and one row. -/
def emptyHeader : DataFrame :=
  { columns := [], colNames := [], colTypes := [], nCols := 0, nRows := 1 }

/-- The call `df = Rbind(df, df)` made `n` times in a row. -/
def Rbind.repeated (colAppend : column → List cell → Except Err column) :
    Nat → DataFrame → Except Err DataFrame
  | 0, df => .ok df
  | n + 1, df =>
    match Rbind colAppend df df with
    | .error e => .error e
    | .ok r => Rbind.repeated colAppend n r

/-- A frame of two `Int` columns, `a = [1, 12]` and `b = [23, 3]`: its two rows render
to the same digits. -/
def sameDigits : DataFrame :=
  { columns :=
      [ { cells := [⟨some 1, "1"⟩, ⟨some 12, "12"⟩], colType := "Int", colName := "a",
          numChars := 2 },
        { cells := [⟨some 23, "23"⟩, ⟨some 3, "3"⟩], colType := "Int", colName := "b",
          numChars := 2 } ],
    colNames := ["a", "b"], colTypes := ["Int", "Int"], nCols := 2, nRows := 2 }

/-! ## Slices in memory: `SubsetColumns` by a range and `Cbind` on shared arrays -/

/-- A Go slice value: the position of its backing array in the memory, the offset of
its first element in that array, its length and its capacity. -/
structure sliceRef where
  array : Nat
  off : Nat
  len : Nat
  cap : Nat
  deriving DecidableEq, Repr

/-- The zero value of `column`, which fills the unused capacity of a new array. -/
instance : Inhabited column :=
  ⟨{ cells := [], colType := "", colName := "", numChars := 0 }⟩

/-- The elements a slice value holds in the memory `mem`. -/
def sliceRef.elems {α : Type} (mem : List (List α)) (s : sliceRef) : List α :=
  ((mem.getD s.array []).drop s.off).take s.len

/-- A slice value points into the memory `mem`: its array is there, its length is
within its capacity, and its capacity within the array. -/
def sliceRef.Valid {α : Type} (mem : List (List α)) (s : sliceRef) : Prop :=
  s.array < mem.length ∧ s.len ≤ s.cap ∧ s.off + s.cap ≤ (mem.getD s.array []).length

instance {α : Type} (mem : List (List α)) (s : sliceRef) : Decidable (s.Valid mem) := by
  unfold sliceRef.Valid; infer_instance

/-- Go `s[lo:hi]` on a slice value: the result points into the same array and its
capacity reaches to the end of the capacity of `s`; panics unless
`0 ≤ lo ≤ hi ≤ cap(s)`. -/
def sliceRef.reslice (s : sliceRef) (lo hi : Int) : Except Err sliceRef :=
  if lo < 0 ∨ hi < lo ∨ (s.cap : Int) < hi then .error .panic
  else
    .ok { array := s.array, off := s.off + lo.toNat, len := hi.toNat - lo.toNat,
          cap := s.cap - lo.toNat }

/-- Go `append(s, xs...)`: when the capacity of `s` suffices the elements are written
into the array of `s` right after its last element; otherwise a new array is
allocated that holds the elements of `s`, then `xs`, then `grow n` unused places,
`n` being the new length.  The result is the memory and the returned slice value. -/
def goAppend {α : Type} [Inhabited α] (grow : Nat → Nat) (mem : List (List α))
    (s : sliceRef) (xs : List α) : List (List α) × sliceRef :=
  if s.len + xs.length ≤ s.cap then
    let arr := mem.getD s.array []
    (mem.set s.array
        (arr.take (s.off + s.len) ++ xs ++ arr.drop (s.off + s.len + xs.length)),
      { s with len := s.len + xs.length })
  else
    let n := s.len + xs.length
    (mem ++ [s.elems mem ++ xs ++ List.replicate (grow n) default],
      { array := mem.length, off := 0, len := n, cap := n + grow n })

/-- The memory: the arrays of columns, of column names and of column types.  The
three kinds are kept apart: no function of the package makes a slice of names point
into an array of types. -/
structure memory where
  columns : List (List column)
  colNames : List (List String)
  colTypes : List (List String)
  deriving DecidableEq, Repr

/-- A `DataFrame` value as the program holds it: three slice values and two counts. -/
structure frameRef where
  columns : sliceRef
  colNames : sliceRef
  colTypes : sliceRef
  nCols : Int
  nRows : Int
  deriving DecidableEq, Repr

/-- The frame a `DataFrame` value denotes in the memory `mem`. -/
def frameRef.value (mem : memory) (f : frameRef) : DataFrame :=
  { columns := f.columns.elems mem.columns, colNames := f.colNames.elems mem.colNames,
    colTypes := f.colTypes.elems mem.colTypes, nCols := f.nCols, nRows := f.nRows }

/-- The three slices of a frame point into the memory. -/
def frameRef.Valid (mem : memory) (f : frameRef) : Prop :=
  f.columns.Valid mem.columns ∧ f.colNames.Valid mem.colNames ∧
    f.colTypes.Valid mem.colTypes

instance (mem : memory) (f : frameRef) : Decidable (f.Valid mem) := by
  unfold frameRef.Valid; infer_instance

/-- No `append` to a slice of `A` can write into what `B` holds: slice by slice, `A`
has no spare capacity or `B` points into another array. -/
def Separate (A B : frameRef) : Prop :=
  (A.columns.cap = A.columns.len ∨ B.columns.array ≠ A.columns.array) ∧
  (A.colNames.cap = A.colNames.len ∨ B.colNames.array ≠ A.colNames.array) ∧
  (A.colTypes.cap = A.colTypes.len ∨ B.colTypes.array ≠ A.colTypes.array)

instance (A B : frameRef) : Decidable (Separate A B) := by
  unfold Separate; infer_instance

/-- The case `R` of `SubsetColumns` on a frame in memory: the three slices of the
result are slices of the arrays of `df`. -/
def SubsetColumns.rangeInMemory (df : frameRef) (From To : Int) : Except Err frameRef :=
  if From > To then .error (.error "Bad subset: Start greater than Beginning")
  else if From = To then .error (.error "Empty subset")
  else if To > df.nCols ∨ To < 0 ∨ From < 0 then .error (.error "Subset out of range")
  else
    match df.colNames.reslice From To with
    | .error e => .error e
    | .ok colNames =>
      match df.colTypes.reslice From To with
      | .error e => .error e
      | .ok colTypes =>
        match df.columns.reslice From To with
        | .error e => .error e
        | .ok columns =>
          .ok { columns := columns, nRows := df.nRows, colNames := colNames,
                colTypes := colTypes, nCols := To - From }

/-- `Cbind` on frames in memory: the three `append`s write into the arrays of `dfA`
when its slices have the capacity.  The result is the memory after the call and the
returned frame. -/
def Cbind.inMemory (grow : Nat → Nat) (mem : memory) (dfA dfB : frameRef) :
    Except Err (memory × frameRef) :=
  if dfA.nRows ≠ dfB.nRows then .error (.error "Different number of rows")
  else
    match Cbind.check (Cbind.nameMap [] (dfA.colNames.elems mem.colNames))
        (dfB.colNames.elems mem.colNames) with
    | .error e => .error e
    | .ok _ =>
      let names := goAppend grow mem.colNames dfA.colNames (dfB.colNames.elems mem.colNames)
      let types := goAppend grow mem.colTypes dfA.colTypes (dfB.colTypes.elems mem.colTypes)
      let cols := goAppend grow mem.columns dfA.columns (dfB.columns.elems mem.columns)
      .ok ({ columns := cols.1, colNames := names.1, colTypes := types.1 },
           { columns := cols.2, colNames := names.2, colTypes := types.2,
             nCols := names.2.len, nRows := dfA.nRows })

/-- A memory holding one array of four columns, one of their names and one of their
types. -/
def fourColumns : memory :=
  { columns := [[ { cells := [⟨none, "1"⟩], colType := "String", colName := "x", numChars := 1 },
                  { cells := [⟨none, "2"⟩], colType := "String", colName := "y", numChars := 1 },
                  { cells := [⟨none, "3"⟩], colType := "String", colName := "z", numChars := 1 },
                  { cells := [⟨none, "4"⟩], colType := "String", colName := "w", numChars := 1 } ]],
    colNames := [["x", "y", "z", "w"]],
    colTypes := [["String", "String", "String", "String"]] }

/-- The frame of four columns and one row whose slices are the whole arrays of
`fourColumns`. -/
def parent : frameRef :=
  { columns := { array := 0, off := 0, len := 4, cap := 4 },
    colNames := { array := 0, off := 0, len := 4, cap := 4 },
    colTypes := { array := 0, off := 0, len := 4, cap := 4 }, nCols := 4, nRows := 1 }

/-- The columns `2, 3` of `parent`, as `SubsetColumns` by the range `R{2, 4}` returns
them: slices of the arrays of `parent` without spare capacity. -/
def lastTwo : frameRef :=
  { columns := { array := 0, off := 2, len := 2, cap := 2 },
    colNames := { array := 0, off := 2, len := 2, cap := 2 },
    colTypes := { array := 0, off := 2, len := 2, cap := 2 }, nCols := 2, nRows := 1 }

/-- The column `0` of `parent`, as `SubsetColumns` by the range `R{0, 1}` returns it:
slices of the arrays of `parent` whose capacity reaches to the end of the arrays. -/
def firstOne : frameRef :=
  { columns := { array := 0, off := 0, len := 1, cap := 4 },
    colNames := { array := 0, off := 0, len := 1, cap := 4 },
    colTypes := { array := 0, off := 0, len := 1, cap := 4 }, nCols := 1, nRows := 1 }

/-! # Theorems -/

/-! ## Go primitives -/

theorem wrapInt_of_isInt (x : Int) (h : IsInt x) : wrapInt x = x := by
  unfold IsInt at h
  unfold wrapInt
  norm_num at h ⊢
  omega

theorem index_of_lt {α : Type} (xs : List α) (i : Int) (h0 : 0 ≤ i) (h1 : i < xs.length) :
    ∃ x, index xs i = .ok x ∧ xs[i.toNat]? = some x := by
  have hlt : i.toNat < xs.length := by omega
  refine ⟨xs[i.toNat], ?_, ?_⟩
  · unfold index
    rw [if_neg (by omega)]
    simp [List.get?_eq_getElem?, List.getElem?_eq_getElem hlt]
  · exact List.getElem?_eq_getElem hlt

theorem index_ok_iff {α : Type} (xs : List α) (i : Int) (x : α) :
    index xs i = .ok x ↔ 0 ≤ i ∧ xs[i.toNat]? = some x := by
  unfold index
  by_cases h : i < 0
  · simp [h]
  · simp only [h, if_false, List.get?_eq_getElem?]
    cases hx : xs[i.toNat]? with
    | none => simp
    | some y => simp; omega

theorem forall2_getElem {α β : Type} {R : α → β → Prop} {l₁ : List α} {l₂ : List β}
    (h : List.Forall₂ R l₁ l₂) (i : Nat) (a : α) (ha : l₁[i]? = some a) :
    ∃ b, l₂[i]? = some b ∧ R a b := by
  induction h generalizing i with
  | nil => simp at ha
  | cons hab _ ih =>
    cases i with
    | zero =>
      simp only [List.getElem?_cons_zero, Option.some.injEq] at ha
      subst ha
      exact ⟨_, by simp, hab⟩
    | succ k =>
      simp only [List.getElem?_cons_succ] at ha ⊢
      exact ih k ha

section GoMap
variable {κ ν : Type} [DecidableEq κ]

theorem mapGet_eq_none_iff (m : List (κ × ν)) (k : κ) :
    mapGet m k = none ↔ k ∉ m.map Prod.fst := by
  induction m with
  | nil => simp [mapGet]
  | cons p rest ih =>
    obtain ⟨k', v'⟩ := p
    unfold mapGet
    by_cases h : k' = k
    · simp [h]
    · simp only [h, if_false, ih, List.map_cons, List.mem_cons, not_or]
      exact ⟨fun hr => ⟨fun hk => h hk.symm, hr⟩, fun hr => hr.2⟩

theorem mem_of_mapGet_eq_some (m : List (κ × ν)) (k : κ) (v : ν) (h : mapGet m k = some v) :
    (k, v) ∈ m := by
  induction m with
  | nil => simp [mapGet] at h
  | cons p rest ih =>
    obtain ⟨k', v'⟩ := p
    unfold mapGet at h
    by_cases hk : k' = k
    · simp only [hk, if_true, Option.some.injEq] at h
      simp [hk, h]
    · simp only [hk, if_false] at h
      exact List.mem_cons_of_mem _ (ih h)

theorem mapGet_eq_some_of_mem (m : List (κ × ν)) (hnd : (m.map Prod.fst).Nodup) (k : κ) (v : ν)
    (h : (k, v) ∈ m) : mapGet m k = some v := by
  induction m with
  | nil => simp at h
  | cons p rest ih =>
    obtain ⟨k', v'⟩ := p
    simp only [List.map_cons, List.nodup_cons] at hnd
    unfold mapGet
    rcases List.mem_cons.mp h with heq | hmem
    · simp only [Prod.mk.injEq] at heq
      simp [heq.1, heq.2]
    · have hne : k' ≠ k := by
        intro hk
        apply hnd.1
        rw [hk]
        exact List.mem_map.mpr ⟨(k, v), hmem, rfl⟩
      simp only [hne, if_false]
      exact ih hnd.2 hmem

theorem mapSet_of_not_mem (m : List (κ × ν)) (k : κ) (v : ν) (h : k ∉ m.map Prod.fst) :
    mapSet m k v = m ++ [(k, v)] := by
  induction m with
  | nil => simp [mapSet]
  | cons p rest ih =>
    obtain ⟨k', v'⟩ := p
    simp only [List.map_cons, List.mem_cons, not_or] at h
    unfold mapSet
    have hne : k' ≠ k := fun hk => h.1 hk.symm
    simp only [hne, if_false, List.cons_append, ih h.2]

theorem mapSet_keys_of_mem (m : List (κ × ν)) (k : κ) (v : ν) (h : k ∈ m.map Prod.fst) :
    (mapSet m k v).map Prod.fst = m.map Prod.fst := by
  induction m with
  | nil => simp at h
  | cons p rest ih =>
    obtain ⟨k', v'⟩ := p
    unfold mapSet
    by_cases hk : k' = k
    · simp [hk]
    · simp only [hk, if_false, List.map_cons, List.cons.injEq, true_and]
      apply ih
      simp only [List.map_cons, List.mem_cons] at h
      rcases h with h | h
      · exact absurd h.symm hk
      · exact h

theorem mapSet_keys_nodup (m : List (κ × ν)) (k : κ) (v : ν) (hnd : (m.map Prod.fst).Nodup) :
    ((mapSet m k v).map Prod.fst).Nodup := by
  by_cases h : k ∈ m.map Prod.fst
  · rw [mapSet_keys_of_mem m k v h]; exact hnd
  · rw [mapSet_of_not_mem m k v h]
    simp only [List.map_append, List.map_cons, List.map_nil]
    exact List.Nodup.append hnd (List.nodup_singleton k) (by simpa using h)

theorem mem_mapSet (m : List (κ × ν)) (hnd : (m.map Prod.fst).Nodup) (k : κ) (v : ν)
    (p : κ × ν) : p ∈ mapSet m k v ↔ p = (k, v) ∨ (p.1 ≠ k ∧ p ∈ m) := by
  induction m with
  | nil => simp [mapSet]
  | cons q rest ih =>
    obtain ⟨k', v'⟩ := q
    simp only [List.map_cons, List.nodup_cons] at hnd
    unfold mapSet
    by_cases hk : k' = k
    · subst hk
      simp only [if_true, List.mem_cons]
      constructor
      · rintro (h | h)
        · exact Or.inl h
        · right
          refine ⟨?_, Or.inr h⟩
          intro hp
          apply hnd.1
          rw [← hp]
          exact List.mem_map.mpr ⟨p, h, rfl⟩
      · rintro (h | ⟨hne, h | h⟩)
        · exact Or.inl h
        · exact absurd (by rw [h]) hne
        · exact Or.inr h
    · simp only [hk, if_false, List.mem_cons, ih hnd.2]
      constructor
      · rintro (h | h | ⟨hne, h⟩)
        · exact Or.inr ⟨by rw [h]; exact hk, Or.inl h⟩
        · exact Or.inl h
        · exact Or.inr ⟨hne, Or.inr h⟩
      · rintro (h | ⟨hne, h | h⟩)
        · exact Or.inr (Or.inl h)
        · exact Or.inl h
        · exact Or.inr (Or.inr ⟨hne, h⟩)

end GoMap

/-! ## `SubsetRows` by row numbers -/

theorem SubsetRows_check_eq (n : Int) (l : List Int) :
    SubsetRows.check n l =
      if ∀ v ∈ l, 0 ≤ v ∧ v < n then .ok () else .error (.error "Subset out of range") := by
  induction l with
  | nil => simp [SubsetRows.check]
  | cons v rest ih =>
    unfold SubsetRows.check
    by_cases hv : v ≥ n ∨ v < 0
    · rw [if_pos hv, if_neg]
      intro h
      have := h v (by simp)
      omega
    · rw [if_neg hv, ih]
      by_cases hr : ∀ w ∈ rest, 0 ≤ w ∧ w < n
      · rw [if_pos hr, if_pos]
        intro w hw
        rcases List.mem_cons.mp hw with rfl | hw
        · omega
        · exact hr w hw
      · rw [if_neg hr, if_neg]
        intro h
        exact hr (fun w hw => h w (List.mem_cons_of_mem _ hw))

theorem SubsetRows_pick_ok (cells : List cell) (l : List Int) :
    ∀ acc : List cell, (∀ v ∈ l, 0 ≤ v ∧ v < (cells.length : Int)) →
      ∃ cs, SubsetRows.pick cells acc l = .ok (acc ++ cs) ∧
        List.Forall₂ (fun v c => index cells v = .ok c) l cs := by
  induction l with
  | nil => intro acc _; exact ⟨[], by simp [SubsetRows.pick], List.Forall₂.nil⟩
  | cons v rest ih =>
    intro acc h
    obtain ⟨c, hc, _⟩ := index_of_lt cells v (h v (by simp)).1 (h v (by simp)).2
    obtain ⟨cs, hcs, hall⟩ := ih (acc ++ [c]) (fun w hw => h w (by simp [hw]))
    refine ⟨c :: cs, ?_, List.Forall₂.cons hc hall⟩
    unfold SubsetRows.pick
    rw [hc]
    simpa using hcs

theorem SubsetRows_indexLoop_ok (newCol : String → List cell → Except Err column)
    (rowNums : List Int) (n : Int) (cols : List column)
    (hwf : ∀ c ∈ cols, (c.cells.length : Int) = n)
    (hnew : ∀ c ∈ cols, ∃ col, newCol c.colName [] = .ok col ∧ col.cells = [])
    (hr : ∀ v ∈ rowNums, 0 ≤ v ∧ v < n) :
    ∃ out, SubsetRows.indexLoop newCol rowNums cols = .ok out ∧
      List.Forall₂
        (fun cf cr => List.Forall₂ (fun v c => index cf.cells v = .ok c) rowNums cr.cells)
        cols out := by
  induction cols with
  | nil => exact ⟨[], by simp [SubsetRows.indexLoop], List.Forall₂.nil⟩
  | cons v rest ih =>
    obtain ⟨col, hcol, hempty⟩ := hnew v (by simp)
    obtain ⟨cs, hcs, hall⟩ := SubsetRows_pick_ok v.cells rowNums col.cells
      (fun w hw => by rw [hwf v (by simp)]; exact hr w hw)
    obtain ⟨out, hout, hrest⟩ := ih (fun c hc => hwf c (by simp [hc]))
      (fun c hc => hnew c (by simp [hc]))
    refine ⟨{ col with cells := col.cells ++ cs } :: out, ?_, List.Forall₂.cons ?_ hrest⟩
    · unfold SubsetRows.indexLoop
      simp only [hcol, hcs, hout]
    · simpa [hempty] using hall

/-- C2: on a frame whose columns all have `nRows` cells, and with a `newCol` that
builds an empty column from no elements for every column name of the frame,
`SubsetRows` by row numbers returns an error exactly when the list is empty or holds
a number below 0 or not below `nRows` (repeated numbers are accepted), and never
panics; on success the result has `len(rowNums)` rows, the `nCols`, `colNames` and
`colTypes` of the frame, as many columns, and cell `i` of column `j` is cell
`rowNums[i]` of column `j` of the frame. -/
theorem SubsetRows_ints (newCol : String → List cell → Except Err column)
    (f : DataFrame) (rowNums : List Int)
    (hwf : RowsWellFormed f)
    (hnew : ∀ c ∈ f.columns, ∃ col, newCol c.colName [] = .ok col ∧ col.cells = []) :
    ((∃ msg, SubsetRows newCol f (.ints rowNums) = .error (.error msg)) ↔
        (rowNums = [] ∨ ∃ v ∈ rowNums, v < 0 ∨ v ≥ f.nRows)) ∧
    SubsetRows newCol f (.ints rowNums) ≠ .error .panic ∧
    ∀ r, SubsetRows newCol f (.ints rowNums) = .ok r →
      r.nRows = rowNums.length ∧ r.nCols = f.nCols ∧ r.colNames = f.colNames ∧
      r.colTypes = f.colTypes ∧ r.columns.length = f.columns.length ∧
      ∀ (j i : Nat) (cf : column) (v : Int), f.columns[j]? = some cf → rowNums[i]? = some v →
        ∃ cr c, r.columns[j]? = some cr ∧ cr.cells.length = rowNums.length ∧
          index cf.cells v = .ok c ∧ index cr.cells i = .ok c := by
  unfold SubsetRows
  by_cases h0 : rowNums.length = 0
  · have h0' : rowNums = [] := List.length_eq_zero.mp h0
    simp [h0']
  · have h0' : rowNums ≠ [] := fun h => h0 (by simp [h])
    simp only [h0, if_false, SubsetRows_check_eq]
    by_cases hr : ∀ v ∈ rowNums, 0 ≤ v ∧ v < f.nRows
    · obtain ⟨out, hout, hall⟩ := SubsetRows_indexLoop_ok newCol rowNums f.nRows f.columns hwf hnew hr
      simp only [if_pos hr, hout]
      refine ⟨?_, by simp, ?_⟩
      · constructor
        · rintro ⟨msg, hmsg⟩
          simp at hmsg
        · rintro (h | ⟨v, hv, hbad⟩)
          · exact absurd h h0'
          · have := hr v hv
            omega
      · intro r hr'
        simp only [Except.ok.injEq] at hr'
        subst hr'
        refine ⟨rfl, rfl, rfl, rfl, hall.length_eq.symm, ?_⟩
        intro j i cf v hj hi
        obtain ⟨cr, hcr, hcells⟩ := forall2_getElem hall j cf hj
        obtain ⟨c, hc, hvc⟩ := forall2_getElem hcells i v hi
        refine ⟨cr, c, hcr, hcells.length_eq.symm, hvc, ?_⟩
        rw [index_ok_iff]
        exact ⟨by omega, by simpa using hc⟩
    · simp only [if_neg hr]
      refine ⟨?_, by simp, by simp⟩
      constructor
      · intro _
        right
        by_contra hcon
        apply hr
        intro v hv
        by_contra hv'
        exact hcon ⟨v, hv, by omega⟩
      · intro _
        exact ⟨_, rfl⟩

/-- C2, at the scenario frame with the row numbers `[1, 1, 0]`. -/
theorem SubsetRows_ints_witness :
    RowsWellFormed scenario ∧
    (∀ c ∈ scenario.columns,
      ∃ col, newColModel (fun _ => "") c.colName [] = .ok col ∧ col.cells = []) ∧
    ((∃ msg, SubsetRows (newColModel (fun _ => "")) scenario (.ints [1, 1, 0])
        = .error (.error msg)) ↔
      (([1, 1, 0] : List Int) = [] ∨ ∃ v ∈ ([1, 1, 0] : List Int), v < 0 ∨ v ≥ scenario.nRows)) ∧
    SubsetRows (newColModel (fun _ => "")) scenario (.ints [1, 1, 0]) ≠ .error .panic :=
  have hnew : ∀ c ∈ scenario.columns,
      ∃ col, newColModel (fun _ => "") c.colName [] = .ok col ∧ col.cells = [] := by
    intro c hc
    simp only [scenario, List.mem_cons, List.mem_singleton, List.not_mem_nil, or_false] at hc
    rcases hc with rfl | rfl <;> exact ⟨_, rfl, rfl⟩
  have h := SubsetRows_ints (newColModel (fun _ => "")) scenario [1, 1, 0] (by decide) hnew
  ⟨by decide, hnew, h.1, h.2.1⟩

/-! ## Row signatures and the deduplication views -/

theorem grouped_nil (g : Nat → String) : Grouped g [] [] := by
  refine ⟨by simp, ?_, ?_⟩ <;> simp

theorem grouped_step (g : Nat → String) (l : List Nat) (m : List (String × u)) (i : Nat)
    (h : Grouped g l m) : Grouped g (l ++ [i]) (uniqueRowsMap.record m (g i) i) := by
  obtain ⟨hnd, hent, hcov⟩ := h
  unfold uniqueRowsMap.record
  cases hget : mapGet m (g i) with
  | none =>
    have hnot : g i ∉ m.map Prod.fst := (mapGet_eq_none_iff m (g i)).mp hget
    have hnone : ∀ j ∈ l, g j ≠ g i := fun j hj hji => hnot (hji ▸ hcov j hj)
    simp only
    refine ⟨mapSet_keys_nodup m _ _ hnd, ?_, ?_⟩
    · intro p hp
      rcases (mem_mapSet m hnd _ _ p).mp hp with rfl | ⟨hne, hpm⟩
      · simp only [List.filter_append, List.map_append]
        have : l.filter (fun j => decide (g j = g i)) = [] := by
          simp only [List.filter_eq_nil_iff, decide_eq_true_eq]
          exact hnone
        simp [this]
      · obtain ⟨h1, h2, h3⟩ := hent p hpm
        refine ⟨?_, h2, h3⟩
        rw [h1]
        have hne' : ¬ g i = p.1 := fun hh => hne hh.symm
        simp [List.filter_append, List.filter_cons, hne']
    · intro j hj
      rw [mapSet_of_not_mem m _ _ hnot]
      simp only [List.map_append, List.map_cons, List.map_nil, List.mem_append,
        List.mem_singleton]
      rcases List.mem_append.mp hj with hj | hj
      · exact Or.inl (hcov j hj)
      · simp only [List.mem_singleton] at hj
        exact Or.inr (by rw [hj])
  | some a =>
    have hmem : (g i, a) ∈ m := mem_of_mapGet_eq_some m _ _ hget
    have hkey : g i ∈ m.map Prod.fst := List.mem_map.mpr ⟨_, hmem, rfl⟩
    obtain ⟨ha1, ha2, _⟩ := hent _ hmem
    simp only
    refine ⟨mapSet_keys_nodup m _ _ hnd, ?_, ?_⟩
    · intro p hp
      rcases (mem_mapSet m hnd _ _ p).mp hp with rfl | ⟨hne, hpm⟩
      · simp only at ha1
        refine ⟨?_, by simp, ?_⟩
        · simp [List.filter_append, ha1]
        · have : 0 < a.appears.length := List.length_pos.mpr ha2
          simp only [List.length_append, List.length_singleton]
          constructor
          · intro hf; exact absurd hf (by simp)
          · intro hl; omega
      · obtain ⟨h1, h2, h3⟩ := hent p hpm
        refine ⟨?_, h2, h3⟩
        rw [h1]
        have hne' : ¬ g i = p.1 := fun hh => hne hh.symm
        simp [List.filter_append, List.filter_cons, hne']
    · intro j hj
      rw [mapSet_keys_of_mem m _ _ hkey]
      rcases List.mem_append.mp hj with hj | hj
      · exact hcov j hj
      · simp only [List.mem_singleton] at hj
        rw [hj]; exact hkey

theorem grouped_groupRows (g : Nat → String) (l : List Nat) :
    ∀ (p : List Nat) (m : List (String × u)), Grouped g p m →
      Grouped g (p ++ l) (groupRows g m l) := by
  induction l with
  | nil => intro p m h; simpa [groupRows] using h
  | cons i rest ih =>
    intro p m h
    have := ih (p ++ [i]) _ (grouped_step g p m i h)
    simpa [groupRows] using this

theorem index_zero_of_ne_nil (l : List Int) (h : l ≠ []) : index l 0 = .ok (l.headD 0) := by
  cases l with
  | nil => exact absurd rfl h
  | cons a rest => simp [index]

theorem Unique_appears_eq (es : List (String × u)) (h : ∀ p ∈ es, p.2.appears ≠ []) :
    Unique.appears es = .ok ((es.filter (fun p => p.2.unique)).map firstRow) := by
  induction es with
  | nil => simp [Unique.appears]
  | cons p rest ih =>
    obtain ⟨s, e⟩ := p
    have hrest := ih (fun q hq => h q (List.mem_cons_of_mem _ hq))
    have he : e.appears ≠ [] := h (s, e) (by simp)
    unfold Unique.appears
    by_cases hu : e.unique = true
    · simp [hu, index_zero_of_ne_nil _ he, hrest, firstRow]
    · simp [hu, hrest]

theorem RemoveDuplicated_appears_eq (es : List (String × u)) (h : ∀ p ∈ es, p.2.appears ≠ []) :
    RemoveDuplicated.appears es = .ok (es.map firstRow) := by
  induction es with
  | nil => simp [RemoveDuplicated.appears]
  | cons p rest ih =>
    obtain ⟨s, e⟩ := p
    have hrest := ih (fun q hq => h q (List.mem_cons_of_mem _ hq))
    have he : e.appears ≠ [] := h (s, e) (by simp)
    unfold RemoveDuplicated.appears
    simp [index_zero_of_ne_nil _ he, hrest, firstRow]

theorem Duplicated_appears_eq (es : List (String × u)) (h : ∀ p ∈ es, p.2.appears ≠ []) :
    Duplicated.appears es = .ok ((es.filter (fun p => !p.2.unique)).map firstRow) := by
  induction es with
  | nil => simp [Duplicated.appears]
  | cons p rest ih =>
    obtain ⟨s, e⟩ := p
    have hrest := ih (fun q hq => h q (List.mem_cons_of_mem _ hq))
    have he : e.appears ≠ [] := h (s, e) (by simp)
    unfold Duplicated.appears
    by_cases hu : e.unique = true
    · simp [hu, hrest]
    · simp [hu, index_zero_of_ne_nil _ he, hrest, firstRow]

theorem RemoveUnique_mem_appears (es : List (String × u)) (x : Int) :
    x ∈ RemoveUnique.appears es ↔ ∃ p ∈ es, p.2.unique = false ∧ x ∈ p.2.appears := by
  induction es with
  | nil => simp [RemoveUnique.appears]
  | cons p rest ih =>
    obtain ⟨s, e⟩ := p
    unfold RemoveUnique.appears
    by_cases hu : e.unique = true
    · simp [hu, ih]
    · simp only [Bool.not_eq_true] at hu
      simp [hu, ih]

theorem RemoveUnique_nodup_appears (es : List (String × u))
    (h1 : ∀ p ∈ es, p.2.appears.Nodup)
    (h2 : es.Pairwise (fun p q => ∀ x, x ∈ p.2.appears → x ∉ q.2.appears)) :
    (RemoveUnique.appears es).Nodup := by
  induction es with
  | nil => simp [RemoveUnique.appears]
  | cons p rest ih =>
    obtain ⟨s, e⟩ := p
    have hrest := ih (fun q hq => h1 q (List.mem_cons_of_mem _ hq)) (List.Pairwise.of_cons h2)
    unfold RemoveUnique.appears
    by_cases hu : e.unique = true
    · simpa [hu] using hrest
    · simp only [Bool.not_eq_true] at hu
      simp only [hu, Bool.not_false, if_true]
      refine List.Nodup.append (h1 (s, e) (by simp)) hrest ?_
      intro x hx hx'
      obtain ⟨q, hq, _, hxq⟩ := (RemoveUnique_mem_appears rest x).mp hx'
      exact (List.rel_of_pairwise_cons h2 hq) x hx hxq

theorem rowSignature_ok (i : Nat) (cols : List column) :
    ∀ str : String, (∀ c ∈ cols, i < c.cells.length) →
      rowSignature (i : Int) str cols =
        .ok (str ++ (cols.map (fun c => c.colType ++ rendered c i)).foldr (fun s t => s ++ t) "") := by
  induction cols with
  | nil => intro str _; simp [rowSignature]
  | cons v rest ih =>
    intro str h
    have hv : i < v.cells.length := h v (by simp)
    obtain ⟨c, hc, hget⟩ := index_of_lt v.cells (i : Int) (by omega) (by omega)
    simp only [Int.toNat_ofNat] at hget
    unfold rowSignature
    rw [hc]
    simp only
    rw [ih _ (fun c hc => h c (List.mem_cons_of_mem _ hc))]
    simp [rendered, hget, String.append_assoc]

theorem rowSignature_eq_signature (f : DataFrame) (hwf : RowsWellFormed f) (i : Nat)
    (hi : i < f.nRows.toNat) : rowSignature (i : Int) "" f.columns = .ok (specSignature f i) := by
  rw [rowSignature_ok i f.columns "" (fun c hc => by have := hwf c hc; omega)]
  simp [specSignature]

theorem uniqueRowsMap_loop_eq (f : DataFrame) (hwf : RowsWellFormed f) (l : List Nat) :
    ∀ m : List (String × u), (∀ i ∈ l, i < f.nRows.toNat) →
      uniqueRowsMap.loop f m l = .ok (groupRows (specSignature f) m l) := by
  induction l with
  | nil => intro m _; simp [uniqueRowsMap.loop, groupRows]
  | cons i rest ih =>
    intro m h
    unfold uniqueRowsMap.loop
    rw [rowSignature_eq_signature f hwf i (h i (by simp))]
    simp only
    rw [ih _ (fun j hj => h j (List.mem_cons_of_mem _ hj))]
    simp [groupRows]

theorem uniqueRowsMap_grouped (f : DataFrame) (hwf : RowsWellFormed f) :
    ∃ m, uniqueRowsMap f = .ok m ∧ Grouped (specSignature f) (List.range f.nRows.toNat) m := by
  refine ⟨groupRows (specSignature f) [] (List.range f.nRows.toNat), ?_, ?_⟩
  · unfold uniqueRowsMap
    exact uniqueRowsMap_loop_eq f hwf _ [] (fun i hi => List.mem_range.mp hi)
  · simpa using grouped_groupRows (specSignature f) (List.range f.nRows.toNat) [] [] (grouped_nil _)

theorem Grouped.perm {g : Nat → String} {l : List Nat} {m m' : List (String × u)}
    (h : Grouped g l m) (hp : m'.Perm m) : Grouped g l m' := by
  obtain ⟨h1, h2, h3⟩ := h
  refine ⟨(hp.map Prod.fst).nodup_iff.mpr h1, fun p hp' => h2 p (hp.mem_iff.mp hp'), ?_⟩
  intro i hi
  exact (hp.map Prod.fst).mem_iff.mpr (h3 i hi)

theorem Grouped.entry_eq {g : Nat → String} {l : List Nat} {m : List (String × u)}
    (h : Grouped g l m) {p q : String × u} (hp : p ∈ m) (hq : q ∈ m) (hk : p.1 = q.1) :
    p = q := by
  have h1 := (h.2.1 p hp).1
  have h2 := (h.2.1 q hq).1
  have h3 := (h.2.1 p hp).2.2
  have h4 := (h.2.1 q hq).2.2
  obtain ⟨s, e⟩ := p
  obtain ⟨s', e'⟩ := q
  simp only at hk h1 h2 h3 h4
  subst hk
  have ha : e.appears = e'.appears := by rw [h1, h2]
  have hu : e.unique = e'.unique := by
    rw [Bool.eq_iff_iff, h3, h4, ha]
  cases e; cases e'
  simp_all

theorem head_filter_range (n : Nat) (q : Nat → Bool) (i0 : Nat) (rest : List Nat)
    (h : (List.range n).filter q = i0 :: rest) :
    i0 < n ∧ q i0 = true ∧ ∀ j, j < i0 → q j = false := by
  have hmem : i0 ∈ (List.range n).filter q := by rw [h]; simp
  obtain ⟨hin, hq⟩ := List.mem_filter.mp hmem
  refine ⟨List.mem_range.mp hin, hq, ?_⟩
  intro j hj
  by_contra hqj
  simp only [Bool.not_eq_false] at hqj
  have hjn : j < n := lt_trans hj (List.mem_range.mp hin)
  have hjmem : j ∈ (List.range n).filter q := List.mem_filter.mpr ⟨List.mem_range.mpr hjn, hqj⟩
  have hsorted : ((List.range n).filter q).Pairwise (fun a b => a < b) :=
    List.Pairwise.filter _ (List.pairwise_lt_range n)
  rw [h] at hsorted hjmem
  rcases List.mem_cons.mp hjmem with hj' | hj'
  · omega
  · have := List.rel_of_pairwise_cons hsorted hj'
    omega

theorem Grouped.firstRow_spec {g : Nat → String} {n : Nat} {m : List (String × u)}
    (h : Grouped g (List.range n) m) {p : String × u} (hp : p ∈ m) :
    ∃ i, i < n ∧ firstRow p = (i : Int) ∧ g i = p.1 ∧ ∀ j, j < i → g j ≠ g i := by
  obtain ⟨happ, hne, _⟩ := h.2.1 p hp
  cases hfil : (List.range n).filter (fun i => decide (g i = p.1)) with
  | nil => rw [hfil] at happ; exact absurd happ hne
  | cons i0 rest =>
    obtain ⟨h1, h2, h3⟩ := head_filter_range n _ i0 rest hfil
    simp only [decide_eq_true_eq] at h2
    refine ⟨i0, h1, ?_, h2, ?_⟩
    · simp [firstRow, happ, hfil]
    · intro j hj hgj
      have := h3 j hj
      simp only [decide_eq_false_iff_not] at this
      exact this (hgj.trans h2)

theorem Grouped.entry_of_row {g : Nat → String} {n : Nat} {m : List (String × u)}
    (h : Grouped g (List.range n) m) {i : Nat} (hi : i < n) :
    ∃ p ∈ m, p.1 = g i ∧
      p.2.appears = ((List.range n).filter (fun j => g j = g i)).map (fun j : Nat => (j : Int)) := by
  obtain ⟨p, hp, hpk⟩ := List.mem_map.mp (h.2.2 i (List.mem_range.mpr hi))
  refine ⟨p, hp, hpk, ?_⟩
  rw [(h.2.1 p hp).1, hpk]

theorem Grouped.unique_iff {g : Nat → String} {n : Nat} {m : List (String × u)}
    (h : Grouped g (List.range n) m) {p : String × u} (hp : p ∈ m) :
    (p.2.unique = true ↔ ((List.range n).filter (fun j => g j = p.1)).length = 1) ∧
      1 ≤ ((List.range n).filter (fun j => g j = p.1)).length := by
  obtain ⟨happ, hne, hu⟩ := h.2.1 p hp
  have hlen : p.2.appears.length = ((List.range n).filter (fun j => g j = p.1)).length := by
    rw [happ, List.length_map]
  refine ⟨by rw [hu, hlen], ?_⟩
  rw [← hlen]
  exact List.length_pos.mpr hne

theorem first_unique (g : Nat → String) (a b : Nat) (hab : g a = g b)
    (ha : ∀ j, j < a → g j ≠ g a) (hb : ∀ j, j < b → g j ≠ g b) : a = b := by
  rcases Nat.lt_trichotomy a b with h | h | h
  · exact absurd hab (hb a h)
  · exact h
  · exact absurd hab.symm (ha b h)

theorem eq_of_mem_length_one {α : Type} (l : List α) (hl : l.length = 1) (a b : α)
    (ha : a ∈ l) (hb : b ∈ l) : a = b := by
  match l, hl with
  | [x], _ =>
    simp only [List.mem_singleton] at ha hb
    rw [ha, hb]

theorem Grouped.mem_firstRows {g : Nat → String} {n : Nat} {m : List (String × u)}
    (h : Grouped g (List.range n) m) (x : Int) :
    x ∈ m.map firstRow ↔ ∃ i, i < n ∧ x = (i : Int) ∧ ∀ j, j < i → g j ≠ g i := by
  constructor
  · intro hx
    obtain ⟨p, hp, hpx⟩ := List.mem_map.mp hx
    obtain ⟨i, hi, hfi, _, hfirst⟩ := h.firstRow_spec hp
    exact ⟨i, hi, by rw [← hpx, hfi], hfirst⟩
  · rintro ⟨i, hi, rfl, hfirst⟩
    obtain ⟨p, hp, hpk, _⟩ := h.entry_of_row hi
    obtain ⟨i0, _, hfi, hgi, hfirst0⟩ := h.firstRow_spec hp
    have : i0 = i := first_unique g i0 i (hgi.trans hpk) hfirst0 hfirst
    exact List.mem_map.mpr ⟨p, hp, by rw [hfi, this]⟩

theorem Grouped.mem_uniqueRows {g : Nat → String} {n : Nat} {m : List (String × u)}
    (h : Grouped g (List.range n) m) (x : Int) :
    x ∈ (m.filter (fun p => p.2.unique)).map firstRow ↔
      ∃ i, i < n ∧ x = (i : Int) ∧ ((List.range n).filter (fun j => g j = g i)).length = 1 := by
  constructor
  · intro hx
    obtain ⟨p, hp, hpx⟩ := List.mem_map.mp hx
    obtain ⟨hp, hu⟩ := List.mem_filter.mp hp
    obtain ⟨i, hi, hfi, hgi, _⟩ := h.firstRow_spec hp
    refine ⟨i, hi, by rw [← hpx, hfi], ?_⟩
    rw [hgi]
    exact (h.unique_iff hp).1.mp hu
  · rintro ⟨i, hi, rfl, hone⟩
    obtain ⟨p, hp, hpk, _⟩ := h.entry_of_row hi
    obtain ⟨i0, hi0, hfi, hgi, _⟩ := h.firstRow_spec hp
    have hu : p.2.unique = true := (h.unique_iff hp).1.mpr (by rw [hpk]; exact hone)
    have : i0 = i := by
      apply eq_of_mem_length_one _ hone
      · exact List.mem_filter.mpr ⟨List.mem_range.mpr hi0, by simp [hgi, hpk]⟩
      · exact List.mem_filter.mpr ⟨List.mem_range.mpr hi, by simp⟩
    exact List.mem_map.mpr ⟨p, List.mem_filter.mpr ⟨hp, hu⟩, by rw [hfi, this]⟩

theorem Grouped.mem_duplicatedRows {g : Nat → String} {n : Nat} {m : List (String × u)}
    (h : Grouped g (List.range n) m) (x : Int) :
    x ∈ (m.filter (fun p => !p.2.unique)).map firstRow ↔
      ∃ i, i < n ∧ x = (i : Int) ∧
        2 ≤ ((List.range n).filter (fun j => g j = g i)).length ∧ ∀ j, j < i → g j ≠ g i := by
  constructor
  · intro hx
    obtain ⟨p, hp, hpx⟩ := List.mem_map.mp hx
    obtain ⟨hp, hu⟩ := List.mem_filter.mp hp
    obtain ⟨i, hi, hfi, hgi, hfirst⟩ := h.firstRow_spec hp
    refine ⟨i, hi, by rw [← hpx, hfi], ?_, hfirst⟩
    rw [hgi]
    have h1 := (h.unique_iff hp).1
    have h2 := (h.unique_iff hp).2
    have hne : ¬ ((List.range n).filter (fun j => g j = p.1)).length = 1 := by
      intro hl
      have := h1.mpr hl
      simp [this] at hu
    omega
  · rintro ⟨i, hi, rfl, htwo, hfirst⟩
    obtain ⟨p, hp, hpk, _⟩ := h.entry_of_row hi
    obtain ⟨i0, _, hfi, hgi, hfirst0⟩ := h.firstRow_spec hp
    have hu : (!p.2.unique) = true := by
      cases hpu : p.2.unique with
      | false => rfl
      | true =>
        have := (h.unique_iff hp).1.mp hpu
        rw [hpk] at this
        omega
    have : i0 = i := first_unique g i0 i (hgi.trans hpk) hfirst0 hfirst
    exact List.mem_map.mpr ⟨p, List.mem_filter.mpr ⟨hp, hu⟩, by rw [hfi, this]⟩

theorem Grouped.mem_removeUnique {g : Nat → String} {n : Nat} {m : List (String × u)}
    (h : Grouped g (List.range n) m) (x : Int) :
    x ∈ RemoveUnique.appears m ↔
      ∃ i, i < n ∧ x = (i : Int) ∧ 2 ≤ ((List.range n).filter (fun j => g j = g i)).length := by
  rw [RemoveUnique_mem_appears]
  constructor
  · rintro ⟨p, hp, hu, hx⟩
    rw [(h.2.1 p hp).1] at hx
    obtain ⟨i, hi, rfl⟩ := List.mem_map.mp hx
    obtain ⟨hin, hgi⟩ := List.mem_filter.mp hi
    simp only [decide_eq_true_eq] at hgi
    refine ⟨i, List.mem_range.mp hin, rfl, ?_⟩
    rw [hgi]
    have h1 := (h.unique_iff hp).1
    have h2 := (h.unique_iff hp).2
    have hne : ¬ ((List.range n).filter (fun j => g j = p.1)).length = 1 := by
      intro hl
      have := h1.mpr hl
      simp [this] at hu
    omega
  · rintro ⟨i, hi, rfl, htwo⟩
    obtain ⟨p, hp, hpk, happ⟩ := h.entry_of_row hi
    refine ⟨p, hp, ?_, ?_⟩
    · cases hpu : p.2.unique with
      | false => rfl
      | true =>
        have := (h.unique_iff hp).1.mp hpu
        rw [hpk] at this
        omega
    · rw [happ]
      exact List.mem_map.mpr ⟨i, List.mem_filter.mpr ⟨List.mem_range.mpr hi, by simp⟩, rfl⟩

theorem Grouped.nodup_firstRows {g : Nat → String} {n : Nat} {m : List (String × u)}
    (h : Grouped g (List.range n) m) : (m.map firstRow).Nodup := by
  apply List.Nodup.map_on
  · intro p hp q hq hpq
    obtain ⟨i, _, hfi, hgi, _⟩ := h.firstRow_spec hp
    obtain ⟨j, _, hfj, hgj, _⟩ := h.firstRow_spec hq
    have hij : i = j := by
      have : (i : Int) = (j : Int) := by rw [← hfi, ← hfj, hpq]
      exact_mod_cast this
    exact h.entry_eq hp hq (by rw [← hgi, ← hgj, hij])
  · exact List.Nodup.of_map _ h.1

theorem Grouped.nodup_removeUnique {g : Nat → String} {n : Nat} {m : List (String × u)}
    (h : Grouped g (List.range n) m) : (RemoveUnique.appears m).Nodup := by
  apply RemoveUnique_nodup_appears
  · intro p hp
    rw [(h.2.1 p hp).1]
    exact List.Nodup.map (fun a b hab => by exact_mod_cast hab)
      (List.Nodup.filter _ (List.nodup_range n))
  · have hk : m.Pairwise (fun p q => p.1 ≠ q.1) := by
      have := h.1
      rw [List.Nodup, List.pairwise_map] at this
      exact this
    refine List.Pairwise.imp_of_mem ?_ hk
    intro p q hp hq hne x hxp hxq
    rw [(h.2.1 p hp).1] at hxp
    rw [(h.2.1 q hq).1] at hxq
    obtain ⟨i, hi, rfl⟩ := List.mem_map.mp hxp
    obtain ⟨j, hj, hji⟩ := List.mem_map.mp hxq
    have hij : j = i := by exact_mod_cast hji
    subst hij
    have h1 := (List.mem_filter.mp hi).2
    have h2 := (List.mem_filter.mp hj).2
    simp only [decide_eq_true_eq] at h1 h2
    exact hne (h1.symm.trans h2)

theorem mem_rowsWhere (f : DataFrame) (q : Nat → Bool) (x : Int) :
    x ∈ rowsWhere f q ↔ ∃ i, i < f.nRows.toNat ∧ x = (i : Int) ∧ q i = true := by
  unfold rowsWhere
  simp only [List.mem_map, List.mem_filter, List.mem_range]
  constructor
  · rintro ⟨i, ⟨hi, hq⟩, rfl⟩; exact ⟨i, hi, rfl, hq⟩
  · rintro ⟨i, hi, rfl, hq⟩; exact ⟨i, ⟨hi, hq⟩, rfl⟩

theorem nodup_rowsWhere (f : DataFrame) (q : Nat → Bool) : (rowsWhere f q).Nodup :=
  List.Nodup.map (fun a b hab => by exact_mod_cast hab)
    (List.Nodup.filter _ (List.nodup_range _))

theorem occurrences_eq (f : DataFrame) (i : Nat) :
    occurrences f i =
      ((List.range f.nRows.toNat).filter (fun j => specSignature f j = specSignature f i)).length := by
  unfold occurrences
  rw [List.countP_eq_length_filter]

theorem isFirst_iff (f : DataFrame) (i : Nat) :
    isFirst f i = true ↔ ∀ j, j < i → specSignature f j ≠ specSignature f i := by
  simp [isFirst, List.all_eq_true]

/-- C1: on a frame whose columns all have `nRows` cells, the row signature computed by
the code is the concatenation, in column order, of type tag and rendered cell, and
whatever the order in which the map is visited, `Unique` selects (as a multiset) the
rows whose signature occurs once, `Duplicated` the smallest row of every signature
occurring at least twice, `RemoveUnique` every row whose signature occurs at least
twice, and `RemoveDuplicated` the smallest row of every signature; each view is
`SubsetRows` of its selection. -/
theorem dedup_views_select (newCol : String → List cell → Except Err column)
    (visit : List (String × u) → List (String × u)) (f : DataFrame)
    (hwf : RowsWellFormed f) (hvisit : ∀ m, (visit m).Perm m) :
    (∀ i : Nat, i < f.nRows.toNat → rowSignature (i : Int) "" f.columns = .ok (specSignature f i)) ∧
    (∃ sel, Unique.selection visit f = .ok sel ∧
        Unique newCol visit f = SubsetRows newCol f (.ints sel) ∧
        sel.Perm (rowsWhere f (fun i => decide (occurrences f i = 1)))) ∧
    (∃ sel, Duplicated.selection visit f = .ok sel ∧
        Duplicated newCol visit f = SubsetRows newCol f (.ints sel) ∧
        sel.Perm (rowsWhere f (fun i => decide (2 ≤ occurrences f i) && isFirst f i))) ∧
    (∃ sel, RemoveUnique.selection visit f = .ok sel ∧
        RemoveUnique newCol visit f = SubsetRows newCol f (.ints sel) ∧
        sel.Perm (rowsWhere f (fun i => decide (2 ≤ occurrences f i)))) ∧
    (∃ sel, RemoveDuplicated.selection visit f = .ok sel ∧
        RemoveDuplicated newCol visit f = SubsetRows newCol f (.ints sel) ∧
        sel.Perm (rowsWhere f (isFirst f))) := by
  obtain ⟨m, hm, hg⟩ := uniqueRowsMap_grouped f hwf
  have hv : Grouped (specSignature f) (List.range f.nRows.toNat) (visit m) := hg.perm (hvisit m)
  have hne : ∀ p ∈ visit m, p.2.appears ≠ [] := fun p hp => (hv.2.1 p hp).2.1
  refine ⟨fun i hi => rowSignature_eq_signature f hwf i hi, ?_, ?_, ?_, ?_⟩
  · have hsel : Unique.selection visit f
        = .ok (((visit m).filter (fun p => p.2.unique)).map firstRow) := by
      simp only [Unique.selection, hm, Unique_appears_eq _ hne]
    refine ⟨_, hsel, by simp only [Unique, hsel], ?_⟩
    refine (List.perm_ext_iff_of_nodup ?_ (nodup_rowsWhere f _)).mpr ?_
    · exact List.Nodup.sublist (List.Sublist.map _ (List.filter_sublist _)) hv.nodup_firstRows
    · intro x
      rw [hv.mem_uniqueRows, mem_rowsWhere]
      simp only [occurrences_eq, decide_eq_true_eq]
  · have hsel : Duplicated.selection visit f
        = .ok (((visit m).filter (fun p => !p.2.unique)).map firstRow) := by
      simp only [Duplicated.selection, hm, Duplicated_appears_eq _ hne]
    refine ⟨_, hsel, by simp only [Duplicated, hsel], ?_⟩
    refine (List.perm_ext_iff_of_nodup ?_ (nodup_rowsWhere f _)).mpr ?_
    · exact List.Nodup.sublist (List.Sublist.map _ (List.filter_sublist _)) hv.nodup_firstRows
    · intro x
      rw [hv.mem_duplicatedRows, mem_rowsWhere]
      simp only [occurrences_eq, Bool.and_eq_true, decide_eq_true_eq, isFirst_iff]
  · have hsel : RemoveUnique.selection visit f = .ok (RemoveUnique.appears (visit m)) := by
      simp only [RemoveUnique.selection, hm]
    refine ⟨_, hsel, by simp only [RemoveUnique, hsel], ?_⟩
    refine (List.perm_ext_iff_of_nodup hv.nodup_removeUnique (nodup_rowsWhere f _)).mpr ?_
    intro x
    rw [hv.mem_removeUnique, mem_rowsWhere]
    simp only [occurrences_eq, decide_eq_true_eq]
  · have hsel : RemoveDuplicated.selection visit f = .ok ((visit m).map firstRow) := by
      simp only [RemoveDuplicated.selection, hm, RemoveDuplicated_appears_eq _ hne]
    refine ⟨_, hsel, by simp only [RemoveDuplicated, hsel], ?_⟩
    refine (List.perm_ext_iff_of_nodup hv.nodup_firstRows (nodup_rowsWhere f _)).mpr ?_
    intro x
    rw [hv.mem_firstRows, mem_rowsWhere]
    simp only [isFirst_iff]

/-- C1, at the scenario frame with the map visited in reverse order: the four views
select `{0,3}`, `{1}`, `{1,2}` and `{0,1,3}`. -/
theorem dedup_views_select_witness :
    RowsWellFormed scenario ∧ (∀ m : List (String × u), (List.reverse m).Perm m) ∧
    (∃ sel, Unique.selection List.reverse scenario = .ok sel ∧ sel.Perm [0, 3]) ∧
    (∃ sel, Duplicated.selection List.reverse scenario = .ok sel ∧ sel.Perm [1]) ∧
    (∃ sel, RemoveUnique.selection List.reverse scenario = .ok sel ∧ sel.Perm [1, 2]) ∧
    (∃ sel, RemoveDuplicated.selection List.reverse scenario = .ok sel ∧
      sel.Perm [0, 1, 3]) := by
  obtain ⟨_, ⟨s1, h1, _, p1⟩, ⟨s2, h2, _, p2⟩, ⟨s3, h3, _, p3⟩, ⟨s4, h4, _, p4⟩⟩ :=
    dedup_views_select (newColModel (fun _ => "")) List.reverse scenario (by decide)
      (fun m => List.reverse_perm m)
  have e1 : rowsWhere scenario (fun i => decide (occurrences scenario i = 1)) = [0, 3] := by
    decide
  have e2 : rowsWhere scenario
      (fun i => decide (2 ≤ occurrences scenario i) && isFirst scenario i) = [1] := by decide
  have e3 : rowsWhere scenario (fun i => decide (2 ≤ occurrences scenario i)) = [1, 2] := by
    decide
  have e4 : rowsWhere scenario (isFirst scenario) = [0, 1, 3] := by decide
  rw [e1] at p1
  rw [e2] at p2
  rw [e3] at p3
  rw [e4] at p4
  exact ⟨by decide, fun m => List.reverse_perm m, ⟨s1, h1, p1⟩, ⟨s2, h2, p2⟩, ⟨s3, h3, p3⟩,
    ⟨s4, h4, p4⟩⟩

/-! ## `SubsetColumns` by names -/

theorem findName_none_iff (v : String) (l : List String) :
    ∀ k : Int, findName v l k = none ↔ v ∉ l := by
  induction l with
  | nil => intro k; simp [findName]
  | cons w rest ih =>
    intro k
    unfold findName
    by_cases h : w = v
    · simp [h]
    · simp only [h, if_false, ih, List.mem_cons, not_or]
      exact ⟨fun hr => ⟨fun hv => h hv.symm, hr⟩, fun hr => hr.2⟩

theorem findName_some (v : String) (l : List String) :
    ∀ (k i : Int), findName v l k = some i →
      k ≤ i ∧ l[(i - k).toNat]? = some v ∧ ∀ j, j < (i - k).toNat → l[j]? ≠ some v := by
  induction l with
  | nil => intro k i h; simp [findName] at h
  | cons w rest ih =>
    intro k i h
    unfold findName at h
    by_cases hw : w = v
    · simp only [hw, if_true, Option.some.injEq] at h
      subst h
      simp [hw]
    · simp only [hw, if_false] at h
      obtain ⟨h1, h2, h3⟩ := ih (k + 1) i h
      have hk : (i - k).toNat = (i - (k + 1)).toNat + 1 := by omega
      refine ⟨by omega, ?_, ?_⟩
      · rw [hk, List.getElem?_cons_succ]; exact h2
      · intro j hj
        cases j with
        | zero => simp [hw]
        | succ j' =>
          rw [List.getElem?_cons_succ]
          exact h3 j' (by omega)

theorem findName_of_mem (v : String) (l : List String) (h : v ∈ l) :
    ∃ i : Nat, findName v l 0 = some (i : Int) ∧ firstAt l v i := by
  cases hf : findName v l 0 with
  | none => exact absurd h ((findName_none_iff v l 0).mp hf)
  | some i =>
    obtain ⟨h1, h2, h3⟩ := findName_some v l 0 i hf
    refine ⟨i.toNat, ?_, ?_, ?_⟩
    · rw [Int.toNat_of_nonneg h1]
    · simpa using h2
    · simpa using h3

theorem index_natCast {α : Type} (xs : List α) (i : Nat) (x : α) (h : xs[i]? = some x) :
    index xs (i : Int) = .ok x := by
  rw [index_ok_iff]
  exact ⟨by omega, by simpa using h⟩

theorem getElem?_of_length_eq {α β : Type} (xs : List α) (ys : List β)
    (hl : ys.length = xs.length) (i : Nat) (x : α) (h : xs[i]? = some x) :
    ∃ y, ys[i]? = some y := by
  have hi : i < xs.length := by
    by_contra hcon
    rw [List.getElem?_eq_none (by omega)] at h
    exact absurd h (by simp)
  exact ⟨ys[i], List.getElem?_eq_getElem (by omega)⟩

theorem SubsetColumns_selectNames_ok (f : DataFrame)
    (hc : f.columns.length = f.colNames.length) (ht : f.colTypes.length = f.colNames.length)
    (l : List String) :
    ∀ acc : DataFrame, (∀ v ∈ l, v ∈ f.colNames) →
      ∃ cs ts, SubsetColumns.selectNames f acc l =
          .ok { acc with colNames := acc.colNames ++ l, colTypes := acc.colTypes ++ ts,
                         columns := acc.columns ++ cs } ∧
        List.Forall₂ (fun v c => ∃ i, firstAt f.colNames v i ∧ f.columns[i]? = some c) l cs ∧
        List.Forall₂ (fun v t => ∃ i, firstAt f.colNames v i ∧ f.colTypes[i]? = some t) l ts := by
  induction l with
  | nil =>
    intro acc _
    exact ⟨[], [], by simp [SubsetColumns.selectNames], List.Forall₂.nil, List.Forall₂.nil⟩
  | cons v rest ih =>
    intro acc h
    obtain ⟨i, hfind, hfirst⟩ := findName_of_mem v f.colNames (h v (by simp))
    obtain ⟨c, hcol⟩ := getElem?_of_length_eq f.colNames f.columns hc i v hfirst.1
    obtain ⟨t, htype⟩ := getElem?_of_length_eq f.colNames f.colTypes ht i v hfirst.1
    obtain ⟨cs, ts, hrest, hcs, hts⟩ :=
      ih { acc with colNames := acc.colNames ++ [v], colTypes := acc.colTypes ++ [t],
                    columns := acc.columns ++ [c] }
        (fun w hw => h w (List.mem_cons_of_mem _ hw))
    refine ⟨c :: cs, t :: ts, ?_, List.Forall₂.cons ⟨i, hfirst, hcol⟩ hcs,
      List.Forall₂.cons ⟨i, hfirst, htype⟩ hts⟩
    unfold SubsetColumns.selectNames
    simp only [columnIndex, colIndex, hfind, index_natCast _ _ _ hcol, index_natCast _ _ _ htype,
      hrest]
    simp

theorem SubsetColumns_selectNames_mem (f : DataFrame) (l : List String) :
    ∀ (acc r : DataFrame), SubsetColumns.selectNames f acc l = .ok r → ∀ v ∈ l, v ∈ f.colNames := by
  induction l with
  | nil => intro acc r _ v hv; simp at hv
  | cons w rest ih =>
    intro acc r h v hv
    unfold SubsetColumns.selectNames at h
    cases hf : findName w f.colNames 0 with
    | none => simp [columnIndex, hf] at h
    | some i =>
      have hw : w ∈ f.colNames := by
        by_contra hcon
        rw [(findName_none_iff w f.colNames 0).mpr hcon] at hf
        exact absurd hf (by simp)
      rcases List.mem_cons.mp hv with rfl | hv'
      · exact hw
      · simp only [columnIndex, colIndex, hf] at h
        split at h
        · exact absurd h (by simp)
        · split at h
          · exact absurd h (by simp)
          · exact ih _ r h v hv'

theorem SubsetColumns_duped_acc (l : List String) :
    ∀ (m : List (String × Bool)) (acc : List String),
      SubsetColumns.duped m acc l = acc ++ SubsetColumns.duped m [] l := by
  induction l with
  | nil => intro m acc; simp [SubsetColumns.duped]
  | cons v rest ih =>
    intro m acc
    unfold SubsetColumns.duped
    by_cases hv : v = ""
    · simp only [hv, ne_eq, not_true_eq_false, if_false]
      exact ih m acc
    · simp only [ne_eq, hv, not_false_eq_true, if_true]
      cases hget : mapGet m v with
      | none => simp only; exact ih _ acc
      | some b =>
        simp only
        rw [ih m (acc ++ [v]), ih m ([] ++ [v])]
        simp

theorem SubsetColumns_duped_nil_iff (l : List String) :
    ∀ m : List (String × Bool),
      SubsetColumns.duped m [] l = [] ↔
        (l.filter (fun v => v ≠ "")).Nodup ∧ ∀ v ∈ l, v ≠ "" → v ∉ m.map Prod.fst := by
  induction l with
  | nil => intro m; simp [SubsetColumns.duped]
  | cons v rest ih =>
    intro m
    unfold SubsetColumns.duped
    by_cases hv : v = ""
    · simp only [hv, ne_eq, not_true_eq_false, if_false, ih m]
      simp
    · simp only [ne_eq, hv, not_false_eq_true, if_true]
      cases hget : mapGet m v with
      | none =>
        have hnot : v ∉ m.map Prod.fst := (mapGet_eq_none_iff m v).mp hget
        simp only
        rw [ih, mapSet_of_not_mem m v true hnot]
        simp only [List.map_append, List.map_cons, List.map_nil, List.mem_append,
          List.mem_singleton, not_or, List.mem_cons, forall_eq_or_imp]
        rw [List.filter_cons_of_pos (by simpa using hv), List.nodup_cons]
        simp only [List.mem_filter, decide_eq_true_eq, not_and, not_not]
        constructor
        · rintro ⟨hnd, hall⟩
          refine ⟨⟨?_, hnd⟩, fun _ => hnot, fun w hw hne => (hall w hw hne).1⟩
          intro hmem
          by_contra _
          exact (hall v hmem hv).2.1 rfl
        · rintro ⟨⟨hnm, hnd⟩, _, hall⟩
          refine ⟨hnd, fun w hw hne => ⟨hall w hw hne, ?_, by simp⟩⟩
          intro hwv
          subst hwv
          exact hne (hnm hw)
      | some b =>
        have hmem : v ∈ m.map Prod.fst := by
          by_contra hcon
          rw [(mapGet_eq_none_iff m v).mpr hcon] at hget
          exact absurd hget (by simp)
        simp only
        rw [SubsetColumns_duped_acc]
        simp only [List.nil_append, List.singleton_append, List.mem_cons, forall_eq_or_imp]
        constructor
        · intro h; exact absurd h (by simp)
        · rintro ⟨_, h, _⟩
          exact absurd hmem (h hv)

theorem nodup_filter_iff_count (l : List String) :
    (l.filter (fun v => v ≠ "")).Nodup ↔ ∀ v ∈ l, v ≠ "" → l.count v ≤ 1 := by
  rw [List.nodup_iff_count_le_one]
  constructor
  · intro h v _ hv
    have := h v
    rwa [List.count_filter (by simpa using hv)] at this
  · intro h v
    by_cases hv : v = ""
    · subst hv
      rw [List.count_eq_zero_of_not_mem]
      · omega
      · simp [List.mem_filter]
    · rw [List.count_filter (by simpa using hv)]
      by_cases hm : v ∈ l
      · exact h v hm hv
      · rw [List.count_eq_zero_of_not_mem hm]; omega

theorem SubsetColumns_selectNames_missing (f : DataFrame)
    (hc : f.columns.length = f.colNames.length) (ht : f.colTypes.length = f.colNames.length)
    (l : List String) :
    ∀ acc : DataFrame, (∃ v ∈ l, v ∉ f.colNames) →
      SubsetColumns.selectNames f acc l = .error (.error "Index out of range") := by
  induction l with
  | nil => intro acc h; simp at h
  | cons v rest ih =>
    intro acc h
    unfold SubsetColumns.selectNames
    by_cases hv : v ∈ f.colNames
    · obtain ⟨i, hfind, hfirst⟩ := findName_of_mem v f.colNames hv
      obtain ⟨c, hcol⟩ := getElem?_of_length_eq f.colNames f.columns hc i v hfirst.1
      obtain ⟨t, htype⟩ := getElem?_of_length_eq f.colNames f.colTypes ht i v hfirst.1
      simp only [columnIndex, colIndex, hfind, index_natCast _ _ _ hcol,
        index_natCast _ _ _ htype]
      apply ih
      obtain ⟨w, hw, hwn⟩ := h
      rcases List.mem_cons.mp hw with rfl | hw'
      · exact absurd hv hwn
      · exact ⟨w, hw', hwn⟩
    · simp [columnIndex, (findName_none_iff v f.colNames 0).mpr hv]

/-- The frame `blankNamed`, written as a literal of the package, has a column named by
the empty string, which no constructor returns: on it the names `["", ""]` pass the
check for repeated names, and `SubsetColumns` returns a frame holding the column
twice. -/
theorem SubsetColumns_names_repeated_blank :
    WellFormed blankNamed ∧ 2 ≤ (["", ""] : List String).count "" ∧
    SubsetColumns blankNamed (.strings ["", ""]) =
      .ok { columns := [{ cells := [⟨some 1, "1"⟩], colType := "Int", colName := "", numChars := 1 },
                        { cells := [⟨some 1, "1"⟩], colType := "Int", colName := "", numChars := 1 }],
            colNames := ["", ""], colTypes := ["Int", "Int"], nCols := 2, nRows := 1 } := by
  refine ⟨by decide, by decide, by rfl⟩

/-- On any frame, `SubsetColumns` by names returns no frame if the list is empty, if
some name in it is not a column name of the frame, or if some name other than the
empty one occurs more than once; on a frame with as many columns and types as names
it then returns an error and does not panic, and otherwise it succeeds with the names
of the list as column names and, at every position `k`, the column and the type of
the first column of the frame named `names[k]`. -/
theorem SubsetColumns_names_guarded (f : DataFrame) (names : List String) :
    ((names = [] ∨ (∃ v ∈ names, v ∉ f.colNames) ∨ (∃ v ∈ names, v ≠ "" ∧ 2 ≤ names.count v)) →
        ∀ r, SubsetColumns f (.strings names) ≠ .ok r) ∧
    (f.columns.length = f.colNames.length → f.colTypes.length = f.colNames.length →
      (names = [] ∨ (∃ v ∈ names, v ∉ f.colNames) ∨ (∃ v ∈ names, v ≠ "" ∧ 2 ≤ names.count v)) →
        ∃ msg, SubsetColumns f (.strings names) = .error (.error msg)) ∧
    (f.columns.length = f.colNames.length → f.colTypes.length = f.colNames.length →
      ¬ (names = [] ∨ (∃ v ∈ names, v ∉ f.colNames) ∨
          (∃ v ∈ names, v ≠ "" ∧ 2 ≤ names.count v)) →
        ∃ r, SubsetColumns f (.strings names) = .ok r ∧ r.nRows = f.nRows ∧
          r.nCols = names.length ∧ r.colNames = names ∧
          r.columns.length = names.length ∧ r.colTypes.length = names.length ∧
          ∀ (k : Nat) (v : String), names[k]? = some v →
            ∃ i c t, firstAt f.colNames v i ∧ f.columns[i]? = some c ∧ f.colTypes[i]? = some t ∧
              r.columns[k]? = some c ∧ r.colTypes[k]? = some t) := by
  have hdup : (∃ v ∈ names, v ≠ "" ∧ 2 ≤ names.count v) ↔
      SubsetColumns.duped [] [] names ≠ [] := by
    rw [ne_eq, SubsetColumns_duped_nil_iff, nodup_filter_iff_count]
    simp only [List.map_nil, List.not_mem_nil, not_false_eq_true, implies_true, and_true,
      not_forall, not_le, exists_prop]
    constructor
    · rintro ⟨v, hv, hne, hc⟩; exact ⟨v, hv, hne, by omega⟩
    · rintro ⟨v, hv, hne, hc⟩; exact ⟨v, hv, hne, by omega⟩
  refine ⟨?_, ?_, ?_⟩
  · rintro (h | h | h) r hr
    · simp [SubsetColumns, h] at hr
    · unfold SubsetColumns at hr
      simp only at hr
      split at hr
      · exact absurd hr (by simp)
      · split at hr
        · exact absurd hr (by simp)
        · cases hsel : SubsetColumns.selectNames f
              { columns := [], colNames := [], colTypes := [], nCols := 0, nRows := f.nRows }
              names with
          | error e => rw [hsel] at hr; exact absurd hr (by simp)
          | ok d =>
            obtain ⟨v, hv, hvn⟩ := h
            exact hvn (SubsetColumns_selectNames_mem f names _ d hsel v hv)
    · have hd := hdup.mp h
      have hlen : (SubsetColumns.duped [] [] names).length ≠ 0 := by
        intro hz; exact hd (List.length_eq_zero.mp hz)
      unfold SubsetColumns at hr
      by_cases h0 : names.length = 0
      · simp [h0] at hr
      · simp [h0, hlen] at hr
  · intro hc ht h
    unfold SubsetColumns
    simp only
    by_cases h0 : names.length = 0
    · exact ⟨_, by rw [if_pos h0]⟩
    · rw [if_neg h0]
      by_cases hd : (SubsetColumns.duped [] [] names).length ≠ 0
      · exact ⟨_, by rw [if_pos hd]⟩
      · rw [if_neg hd]
        have hd' : SubsetColumns.duped [] [] names = [] :=
          List.length_eq_zero.mp (not_not.mp hd)
        rcases h with h | h | h
        · exact absurd (by simp [h]) h0
        · rw [SubsetColumns_selectNames_missing f hc ht names _ h]
          exact ⟨_, rfl⟩
        · exact absurd hd' (hdup.mp h)
  · intro hc ht h
    simp only [not_or] at h
    obtain ⟨h0, hall, hnd⟩ := h
    have h0' : ¬ names.length = 0 := fun hz => h0 (List.length_eq_zero.mp hz)
    have hd : SubsetColumns.duped [] [] names = [] := by
      by_contra hcon
      exact hnd (hdup.mpr hcon)
    have hall' : ∀ v ∈ names, v ∈ f.colNames := by
      intro v hv
      by_contra hcon
      exact hall ⟨v, hv, hcon⟩
    obtain ⟨cs, ts, hsel, hcs, hts⟩ := SubsetColumns_selectNames_ok f hc ht names
      { columns := [], colNames := [], colTypes := [], nCols := 0, nRows := f.nRows } hall'
    refine ⟨{ columns := cs, colNames := names, colTypes := ts, nCols := names.length,
              nRows := f.nRows }, ?_, ?_⟩
    · unfold SubsetColumns
      simp only [h0', if_false, hd, List.length_nil, ne_eq, not_true_eq_false, hsel]
      simp
    · refine ⟨rfl, rfl, rfl, hcs.length_eq.symm, hts.length_eq.symm, ?_⟩
      intro k v hk
      obtain ⟨c, hck, i, hfirst, hci⟩ := forall2_getElem hcs k v hk
      obtain ⟨t, htk, i', hfirst', hti⟩ := forall2_getElem hts k v hk
      have hii : i' = i := by
        rcases Nat.lt_trichotomy i' i with hlt | heq | hgt
        · exact absurd hfirst'.1 (hfirst.2 i' hlt)
        · exact heq
        · exact absurd hfirst.1 (hfirst'.2 i hgt)
      subst hii
      exact ⟨i', c, t, hfirst, hci, hti, hck, htk⟩

/-- C3: on a frame without a column named by the empty string (no constructor returns
one), `SubsetColumns` by names returns no frame if the list is empty, if some name in
it is not a column name of the frame, or if some name, whatever its value, occurs more
than once in the list; on a frame with as many columns and types as names it then
returns an error and does not panic, and otherwise it succeeds with the names of the
list as column names and, at every position `k`, the column and the type of the column
of the frame named `names[k]`, so the result follows the order of the list. -/
theorem SubsetColumns_names (f : DataFrame) (names : List String)
    (hblank : "" ∉ f.colNames) :
    ((names = [] ∨ (∃ v ∈ names, v ∉ f.colNames) ∨ (∃ v ∈ names, 2 ≤ names.count v)) →
        ∀ r, SubsetColumns f (.strings names) ≠ .ok r) ∧
    (f.columns.length = f.colNames.length → f.colTypes.length = f.colNames.length →
      (names = [] ∨ (∃ v ∈ names, v ∉ f.colNames) ∨ (∃ v ∈ names, 2 ≤ names.count v)) →
        ∃ msg, SubsetColumns f (.strings names) = .error (.error msg)) ∧
    (f.columns.length = f.colNames.length → f.colTypes.length = f.colNames.length →
      ¬ (names = [] ∨ (∃ v ∈ names, v ∉ f.colNames) ∨ (∃ v ∈ names, 2 ≤ names.count v)) →
        ∃ r, SubsetColumns f (.strings names) = .ok r ∧ r.nRows = f.nRows ∧
          r.nCols = names.length ∧ r.colNames = names ∧
          r.columns.length = names.length ∧ r.colTypes.length = names.length ∧
          ∀ (k : Nat) (v : String), names[k]? = some v →
            ∃ i c t, firstAt f.colNames v i ∧ f.columns[i]? = some c ∧ f.colTypes[i]? = some t ∧
              r.columns[k]? = some c ∧ r.colTypes[k]? = some t) := by
  have hiff : (names = [] ∨ (∃ v ∈ names, v ∉ f.colNames) ∨ (∃ v ∈ names, 2 ≤ names.count v)) ↔
      (names = [] ∨ (∃ v ∈ names, v ∉ f.colNames) ∨
        (∃ v ∈ names, v ≠ "" ∧ 2 ≤ names.count v)) := by
    constructor
    · rintro (h | h | ⟨v, hv, hc⟩)
      · exact Or.inl h
      · exact Or.inr (Or.inl h)
      · by_cases hve : v = ""
        · subst hve
          exact Or.inr (Or.inl ⟨"", hv, hblank⟩)
        · exact Or.inr (Or.inr ⟨v, hv, hve, hc⟩)
    · rintro (h | h | ⟨v, hv, _, hc⟩)
      · exact Or.inl h
      · exact Or.inr (Or.inl h)
      · exact Or.inr (Or.inr ⟨v, hv, hc⟩)
  obtain ⟨h1, h2, h3⟩ := SubsetColumns_names_guarded f names
  exact ⟨fun h => h1 (hiff.mp h), fun hc ht h => h2 hc ht (hiff.mp h),
    fun hc ht h => h3 hc ht (fun h' => h (hiff.mpr h'))⟩

/-- C3, at the scenario frame: the names `["s", "n"]` select the two columns in that
order, and the names `["s", "s"]` are refused. -/
theorem SubsetColumns_names_witness :
    "" ∉ scenario.colNames ∧
    scenario.columns.length = scenario.colNames.length ∧
    scenario.colTypes.length = scenario.colNames.length ∧
    ¬ ((["s", "n"] : List String) = [] ∨ (∃ v ∈ ["s", "n"], v ∉ scenario.colNames) ∨
        (∃ v ∈ ["s", "n"], 2 ≤ (["s", "n"] : List String).count v)) ∧
    (∃ r, SubsetColumns scenario (.strings ["s", "n"]) = .ok r ∧ r.colNames = ["s", "n"]) ∧
    ∃ msg, SubsetColumns scenario (.strings ["s", "s"]) = .error (.error msg) :=
  have h := (SubsetColumns_names scenario ["s", "n"] (by decide)).2.2 (by decide) (by decide)
    (by decide)
  ⟨by decide, by decide, by decide, by decide, h.elim (fun r hr => ⟨r, hr.1, hr.2.2.2.1⟩),
    ⟨_, rfl⟩⟩

/-! ## `SubsetColumns` by column numbers -/

theorem SubsetColumns_check_cases (n : Int) (l : List Int) :
    ∀ m : List (Int × Bool),
      (SubsetColumns.check n m l = .ok () ∧
          (∀ v ∈ l, 0 ≤ v ∧ v < n) ∧ l.Nodup ∧ ∀ v ∈ l, v ∉ m.map Prod.fst) ∨
      ((∃ msg, SubsetColumns.check n m l = .error (.error msg)) ∧
          ¬ ((∀ v ∈ l, 0 ≤ v ∧ v < n) ∧ l.Nodup ∧ ∀ v ∈ l, v ∉ m.map Prod.fst)) := by
  induction l with
  | nil => intro m; left; simp [SubsetColumns.check]
  | cons v rest ih =>
    intro m
    unfold SubsetColumns.check
    by_cases hv : v ≥ n ∨ v < 0
    · right
      refine ⟨⟨_, by rw [if_pos hv]⟩, ?_⟩
      rintro ⟨h, _, _⟩
      have := h v (by simp)
      omega
    · rw [if_neg hv]
      cases hget : mapGet m v with
      | some b =>
        right
        refine ⟨⟨_, rfl⟩, ?_⟩
        rintro ⟨_, _, h⟩
        apply h v (by simp)
        by_contra hcon
        rw [(mapGet_eq_none_iff m v).mpr hcon] at hget
        exact absurd hget (by simp)
      | none =>
        have hnot : v ∉ m.map Prod.fst := (mapGet_eq_none_iff m v).mp hget
        simp only
        have hkeys : (mapSet m v true).map Prod.fst = m.map Prod.fst ++ [v] := by
          rw [mapSet_of_not_mem m v true hnot]; simp
        rcases ih (mapSet m v true) with ⟨hok, hr, hnd, hk⟩ | ⟨herr, hno⟩
        · left
          rw [hkeys] at hk
          refine ⟨hok, ?_, ?_, ?_⟩
          · intro w hw
            rcases List.mem_cons.mp hw with rfl | hw'
            · omega
            · exact hr w hw'
          · rw [List.nodup_cons]
            refine ⟨?_, hnd⟩
            intro hmem
            exact hk v hmem (by simp)
          · intro w hw
            rcases List.mem_cons.mp hw with rfl | hw'
            · exact hnot
            · intro hwm
              exact hk w hw' (by simp [hwm])
        · right
          refine ⟨herr, ?_⟩
          rintro ⟨hr, hnd, hk⟩
          apply hno
          rw [hkeys]
          rw [List.nodup_cons] at hnd
          refine ⟨fun w hw => hr w (List.mem_cons_of_mem _ hw), hnd.2, ?_⟩
          intro w hw
          simp only [List.mem_append, List.mem_singleton, not_or]
          refine ⟨hk w (List.mem_cons_of_mem _ hw), ?_⟩
          intro hwv
          subst hwv
          exact hnd.1 hw

theorem SubsetColumns_selectNums_ok (f : DataFrame) (l : List Int)
    (hc : ∀ v ∈ l, 0 ≤ v ∧ v < (f.columns.length : Int))
    (hn : ∀ v ∈ l, 0 ≤ v ∧ v < (f.colNames.length : Int))
    (ht : ∀ v ∈ l, 0 ≤ v ∧ v < (f.colTypes.length : Int)) :
    ∀ acc : DataFrame,
      ∃ cs ns ts, SubsetColumns.selectNums f acc l =
          .ok { acc with columns := acc.columns ++ cs, colNames := acc.colNames ++ ns,
                         colTypes := acc.colTypes ++ ts } ∧
        List.Forall₂ (fun v c => index f.columns v = .ok c) l cs ∧
        List.Forall₂ (fun v c => index f.colNames v = .ok c) l ns ∧
        List.Forall₂ (fun v c => index f.colTypes v = .ok c) l ts := by
  induction l with
  | nil =>
    intro acc
    exact ⟨[], [], [], by simp [SubsetColumns.selectNums], List.Forall₂.nil, List.Forall₂.nil,
      List.Forall₂.nil⟩
  | cons v rest ih =>
    intro acc
    obtain ⟨c, hcv, _⟩ := index_of_lt f.columns v (hc v (by simp)).1 (hc v (by simp)).2
    obtain ⟨name, hnv, _⟩ := index_of_lt f.colNames v (hn v (by simp)).1 (hn v (by simp)).2
    obtain ⟨t, htv, _⟩ := index_of_lt f.colTypes v (ht v (by simp)).1 (ht v (by simp)).2
    obtain ⟨cs, ns, ts, hrest, hcs, hns, hts⟩ :=
      ih (fun w hw => hc w (List.mem_cons_of_mem _ hw))
        (fun w hw => hn w (List.mem_cons_of_mem _ hw))
        (fun w hw => ht w (List.mem_cons_of_mem _ hw))
        { acc with columns := acc.columns ++ [c], colNames := acc.colNames ++ [name],
                   colTypes := acc.colTypes ++ [t] }
    refine ⟨c :: cs, name :: ns, t :: ts, ?_, List.Forall₂.cons hcv hcs,
      List.Forall₂.cons hnv hns, List.Forall₂.cons htv hts⟩
    unfold SubsetColumns.selectNums
    simp only [hcv, hnv, htv, hrest]
    simp

/-- C4: on a well-formed frame `SubsetColumns` by column numbers returns an error
exactly when the list is empty, holds a number below 0 or not below `nCols`, or
holds the same number twice, and never panics; on success the result has
`len(colNums)` columns, names and types, the rows of the frame, and at every position
`k` the column, the name and the type of the frame at index `colNums[k]`. -/
theorem SubsetColumns_ints (f : DataFrame) (colNums : List Int) (hwf : WellFormed f) :
    ((∃ msg, SubsetColumns f (.ints colNums) = .error (.error msg)) ↔
        (colNums = [] ∨ (∃ v ∈ colNums, v < 0 ∨ v ≥ f.nCols) ∨
          ∃ v ∈ colNums, 2 ≤ colNums.count v)) ∧
    SubsetColumns f (.ints colNums) ≠ .error .panic ∧
    ∀ r, SubsetColumns f (.ints colNums) = .ok r →
      r.nCols = colNums.length ∧ r.nRows = f.nRows ∧ r.columns.length = colNums.length ∧
      r.colNames.length = colNums.length ∧ r.colTypes.length = colNums.length ∧
      ∀ (k : Nat) (v : Int), colNums[k]? = some v →
        ∃ c name t, index f.columns v = .ok c ∧ index f.colNames v = .ok name ∧
          index f.colTypes v = .ok t ∧ r.columns[k]? = some c ∧
          r.colNames[k]? = some name ∧ r.colTypes[k]? = some t := by
  obtain ⟨h1, h2, h3, _⟩ := hwf
  have hcount : (∃ v ∈ colNums, 2 ≤ colNums.count v) ↔ ¬ colNums.Nodup := by
    rw [List.nodup_iff_count_le_one]
    simp only [not_forall, not_le]
    constructor
    · rintro ⟨v, _, hv⟩; exact ⟨v, by omega⟩
    · rintro ⟨v, hv⟩
      refine ⟨v, ?_, by omega⟩
      by_contra hcon
      rw [List.count_eq_zero_of_not_mem hcon] at hv
      omega
  unfold SubsetColumns
  simp only
  by_cases h0 : colNums.length = 0
  · have h0' : colNums = [] := List.length_eq_zero.mp h0
    simp [h0']
  · have h0' : colNums ≠ [] := fun h => h0 (by simp [h])
    rw [if_neg h0]
    rcases SubsetColumns_check_cases f.nCols colNums [] with ⟨hok, hr, hnd, _⟩ | ⟨⟨msg, herr⟩, hno⟩
    · obtain ⟨cs, ns, ts, hsel, hcs, hns, hts⟩ := SubsetColumns_selectNums_ok f colNums
        (fun v hv => by have := hr v hv; omega) (fun v hv => by have := hr v hv; omega)
        (fun v hv => by have := hr v hv; omega)
        { columns := [], colNames := [], colTypes := [], nCols := 0, nRows := f.nRows }
      simp only [hok, hsel]
      refine ⟨?_, by simp, ?_⟩
      · constructor
        · rintro ⟨msg, hmsg⟩; simp at hmsg
        · rintro (h | ⟨v, hv, hbad⟩ | h)
          · exact absurd h h0'
          · have := hr v hv; omega
          · exact absurd hnd (hcount.mp h)
      · intro r hr'
        simp only [Except.ok.injEq] at hr'
        subst hr'
        refine ⟨by simp [hns.length_eq], by simp, by simpa using hcs.length_eq.symm,
          by simpa using hns.length_eq.symm, by simpa using hts.length_eq.symm, ?_⟩
        intro k v hk
        obtain ⟨c, hck, hc⟩ := forall2_getElem hcs k v hk
        obtain ⟨name, hnk, hn⟩ := forall2_getElem hns k v hk
        obtain ⟨t, htk, ht⟩ := forall2_getElem hts k v hk
        exact ⟨c, name, t, hc, hn, ht, by simpa using hck, by simpa using hnk,
          by simpa using htk⟩
    · simp only [herr]
      refine ⟨?_, by simp, by simp⟩
      constructor
      · intro _
        by_contra hcon
        simp only [not_or] at hcon
        apply hno
        refine ⟨?_, ?_, by simp⟩
        · intro v hv
          by_contra hv'
          exact hcon.2.1 ⟨v, hv, by omega⟩
        · by_contra hnd
          exact hcon.2.2 (hcount.mpr hnd)
      · intro _; exact ⟨_, rfl⟩

/-- C4, at the scenario frame with the column numbers `[1, 0]`. -/
theorem SubsetColumns_ints_witness :
    WellFormed scenario ∧
    SubsetColumns scenario (.ints [1, 0]) ≠ .error .panic ∧
    ((∃ msg, SubsetColumns scenario (.ints [1, 0]) = .error (.error msg)) ↔
      (([1, 0] : List Int) = [] ∨ (∃ v ∈ ([1, 0] : List Int), v < 0 ∨ v ≥ scenario.nCols) ∨
        ∃ v ∈ ([1, 0] : List Int), 2 ≤ ([1, 0] : List Int).count v)) :=
  have h := SubsetColumns_ints scenario [1, 0] (by decide)
  ⟨by decide, h.2.1, h.1⟩

/-! ## `SubsetColumns` and `SubsetRows` by a range -/

theorem slice_ok {α : Type} (xs : List α) (lo hi : Int) (h0 : 0 ≤ lo) (h1 : lo ≤ hi)
    (h2 : hi ≤ (xs.length : Int)) :
    ∃ s, slice xs lo hi = .ok s ∧ (s.length : Int) = hi - lo ∧
      ∀ k : Nat, (k : Int) < hi - lo →
        ∃ x, index xs (lo + k) = .ok x ∧ index s (k : Int) = .ok x := by
  refine ⟨(xs.drop lo.toNat).take (hi.toNat - lo.toNat), ?_, ?_, ?_⟩
  · unfold slice
    rw [if_neg (by omega)]
  · simp only [List.length_take, List.length_drop]
    omega
  · intro k hk
    have hlt : lo.toNat + k < xs.length := by omega
    refine ⟨xs[lo.toNat + k], ?_, ?_⟩
    · rw [index_ok_iff]
      refine ⟨by omega, ?_⟩
      have : (lo + (k : Int)).toNat = lo.toNat + k := by omega
      rw [this]
      exact List.getElem?_eq_getElem hlt
    · rw [index_ok_iff]
      refine ⟨by omega, ?_⟩
      simp only [Int.toNat_ofNat]
      rw [List.getElem?_take_of_lt (by omega), List.getElem?_drop]
      exact List.getElem?_eq_getElem hlt

/-- C5: on a well-formed frame `SubsetColumns` by a range returns an error exactly
when `From > To`, `From == To`, `From < 0`, `To < 0` or `To > nCols`, and never
panics (no slice bound leaves `[0, nCols]`); on success the result has `To - From`
columns, names and types, the rows of the frame, and at every position `k` the
column, the name and the type of the frame at index `From + k`. -/
theorem SubsetColumns_range (f : DataFrame) (From To : Int) (hwf : WellFormed f) :
    ((∃ msg, SubsetColumns f (.R From To) = .error (.error msg)) ↔
        (From > To ∨ From = To ∨ From < 0 ∨ To < 0 ∨ To > f.nCols)) ∧
    SubsetColumns f (.R From To) ≠ .error .panic ∧
    ∀ r, SubsetColumns f (.R From To) = .ok r →
      r.nCols = To - From ∧ r.nRows = f.nRows ∧ (r.columns.length : Int) = To - From ∧
      (r.colNames.length : Int) = To - From ∧ (r.colTypes.length : Int) = To - From ∧
      ∀ k : Nat, (k : Int) < To - From →
        ∃ c name t, index f.columns (From + k) = .ok c ∧ index f.colNames (From + k) = .ok name ∧
          index f.colTypes (From + k) = .ok t ∧ index r.columns (k : Int) = .ok c ∧
          index r.colNames (k : Int) = .ok name ∧ index r.colTypes (k : Int) = .ok t := by
  obtain ⟨h1, h2, h3, _⟩ := hwf
  unfold SubsetColumns
  simp only
  by_cases hgt : From > To
  · rw [if_pos hgt]
    exact ⟨⟨fun _ => Or.inl hgt, fun _ => ⟨_, rfl⟩⟩, by simp, by simp⟩
  · rw [if_neg hgt]
    by_cases heq : From = To
    · rw [if_pos heq]
      exact ⟨⟨fun _ => Or.inr (Or.inl heq), fun _ => ⟨_, rfl⟩⟩, by simp, by simp⟩
    · rw [if_neg heq]
      by_cases hout : To > f.nCols ∨ To < 0 ∨ From < 0
      · rw [if_pos hout]
        refine ⟨⟨fun _ => ?_, fun _ => ⟨_, rfl⟩⟩, by simp, by simp⟩
        rcases hout with h | h | h
        · exact Or.inr (Or.inr (Or.inr (Or.inr h)))
        · exact Or.inr (Or.inr (Or.inr (Or.inl h)))
        · exact Or.inr (Or.inr (Or.inl h))
      · rw [if_neg hout]
        obtain ⟨ns, hns, hnl, hnk⟩ := slice_ok f.colNames From To (by omega) (by omega) (by omega)
        obtain ⟨ts, hts, htl, htk⟩ := slice_ok f.colTypes From To (by omega) (by omega) (by omega)
        obtain ⟨cs, hcs, hcl, hck⟩ := slice_ok f.columns From To (by omega) (by omega) (by omega)
        simp only [hns, hts, hcs]
        refine ⟨⟨fun h => ?_, fun h => ?_⟩, by simp, ?_⟩
        · obtain ⟨msg, hmsg⟩ := h
          simp at hmsg
        · omega
        · intro r hr
          simp only [Except.ok.injEq] at hr
          subst hr
          refine ⟨hnl, rfl, hcl, hnl, htl, ?_⟩
          intro k hk
          obtain ⟨c, hc1, hc2⟩ := hck k hk
          obtain ⟨name, hn1, hn2⟩ := hnk k hk
          obtain ⟨t, ht1, ht2⟩ := htk k hk
          exact ⟨c, name, t, hc1, hn1, ht1, hc2, hn2, ht2⟩

/-- C5, at the scenario frame with the range `R{1, 2}`. -/
theorem SubsetColumns_range_witness :
    WellFormed scenario ∧
    SubsetColumns scenario (.R 1 2) ≠ .error .panic ∧
    ((∃ msg, SubsetColumns scenario (.R 1 2) = .error (.error msg)) ↔
      ((1 : Int) > 2 ∨ (1 : Int) = 2 ∨ (1 : Int) < 0 ∨ (2 : Int) < 0 ∨ 2 > scenario.nCols)) :=
  have h := SubsetColumns_range scenario 1 2 (by decide)
  ⟨by decide, h.2.1, h.1⟩

theorem SubsetRows_rangeLoop_ok (newCol : String → List cell → Except Err column)
    (From To n : Int) (h0 : 0 ≤ From) (h1 : From ≤ To) (h2 : To ≤ n) (cols : List column)
    (hwf : ∀ c ∈ cols, (c.cells.length : Int) = n)
    (hnew : ∀ v ∈ cols, ∀ cs, slice v.cells From To = .ok cs →
      ∃ col, newCol v.colName cs = .ok col ∧ col.cells = cs) :
    ∃ out, SubsetRows.rangeLoop newCol From To cols = .ok out ∧
      List.Forall₂
        (fun cf cr => (cr.cells.length : Int) = To - From ∧
          ∀ k : Nat, (k : Int) < To - From →
            ∃ x, index cf.cells (From + k) = .ok x ∧ index cr.cells (k : Int) = .ok x)
        cols out := by
  induction cols with
  | nil => exact ⟨[], by simp [SubsetRows.rangeLoop], List.Forall₂.nil⟩
  | cons v rest ih =>
    obtain ⟨cs, hcs, hlen, hk⟩ := slice_ok v.cells From To h0 h1
      (by rw [hwf v (by simp)]; exact h2)
    obtain ⟨col, hcol, hcells⟩ := hnew v (by simp) cs hcs
    obtain ⟨out, hout, hrest⟩ := ih (fun c hc => hwf c (List.mem_cons_of_mem _ hc))
      (fun c hc => hnew c (List.mem_cons_of_mem _ hc))
    refine ⟨col :: out, ?_, List.Forall₂.cons ?_ hrest⟩
    · unfold SubsetRows.rangeLoop
      simp only [hcs, hcol, hout]
    · rw [hcells]
      exact ⟨hlen, hk⟩

/-- C6: `SubsetRows` by a range returns an error when `From > To`, when `From == To`,
and when `From < 0` or `To > nRows`.  On a frame whose columns all have `nRows` cells,
when `0 ≤ From < To ≤ nRows` and `newCol` rebuilds every column from its slice of
cells, it succeeds with `To - From` rows, the `nCols`, `colNames` and `colTypes` of
the frame, as many columns, and in every column the cells of the frame at the rows
`From`, ..., `To - 1` in that order. -/
theorem SubsetRows_range (newCol : String → List cell → Except Err column)
    (f : DataFrame) (From To : Int) :
    ((From > To ∨ From = To ∨ From < 0 ∨ To > f.nRows) →
        ∃ msg, SubsetRows newCol f (.R From To) = .error (.error msg)) ∧
    (RowsWellFormed f → (0 ≤ From ∧ From < To ∧ To ≤ f.nRows) →
      (∀ v ∈ f.columns, ∀ cs, slice v.cells From To = .ok cs →
        ∃ col, newCol v.colName cs = .ok col ∧ col.cells = cs) →
      ∃ r, SubsetRows newCol f (.R From To) = .ok r ∧ r.nRows = To - From ∧
        r.nCols = f.nCols ∧ r.colNames = f.colNames ∧ r.colTypes = f.colTypes ∧
        r.columns.length = f.columns.length ∧
        ∀ (j : Nat) (cf : column), f.columns[j]? = some cf →
          ∃ cr, r.columns[j]? = some cr ∧ (cr.cells.length : Int) = To - From ∧
            ∀ k : Nat, (k : Int) < To - From →
              ∃ x, index cf.cells (From + k) = .ok x ∧ index cr.cells (k : Int) = .ok x) := by
  constructor
  · intro h
    unfold SubsetRows
    simp only
    by_cases hgt : From > To
    · exact ⟨_, by rw [if_pos hgt]⟩
    · rw [if_neg hgt]
      by_cases heq : From = To
      · exact ⟨_, by rw [if_pos heq]⟩
      · rw [if_neg heq]
        have hout : To > f.nRows ∨ To < 0 ∨ From < 0 := by omega
        exact ⟨_, by rw [if_pos hout]⟩
  · intro hwf hb hnew
    obtain ⟨out, hout, hall⟩ := SubsetRows_rangeLoop_ok newCol From To f.nRows hb.1
      (le_of_lt hb.2.1) hb.2.2 f.columns hwf hnew
    refine ⟨{ columns := out, nCols := f.nCols, colNames := f.colNames,
              colTypes := f.colTypes, nRows := To - From }, ?_, rfl, rfl, rfl, rfl,
      hall.length_eq.symm, ?_⟩
    · unfold SubsetRows
      simp only
      rw [if_neg (by omega), if_neg (by omega), if_neg (by omega)]
      simp only [hout]
    · intro j cf hj
      obtain ⟨cr, hcr, hlen, hk⟩ := forall2_getElem hall j cf hj
      exact ⟨cr, hcr, hlen, hk⟩

/-- C6, at the scenario frame with the range `R{1, 3}`. -/
theorem SubsetRows_range_witness :
    RowsWellFormed scenario ∧ ((0 : Int) ≤ 1 ∧ (1 : Int) < 3 ∧ 3 ≤ scenario.nRows) ∧
    (∀ v ∈ scenario.columns, ∀ cs, slice v.cells 1 3 = .ok cs →
      ∃ col, newColModel (fun _ => "") v.colName cs = .ok col ∧ col.cells = cs) ∧
    ((1 : Int) > 1 ∨ (1 : Int) = 1 ∨ (1 : Int) < 0 ∨ 1 > scenario.nRows) ∧
    (∃ msg, SubsetRows (newColModel (fun _ => "")) scenario (.R 1 1) = .error (.error msg)) ∧
    ∃ r, SubsetRows (newColModel (fun _ => "")) scenario (.R 1 3) = .ok r ∧ r.nRows = 3 - 1 :=
  have hnew : ∀ v ∈ scenario.columns, ∀ cs, slice v.cells 1 3 = .ok cs →
      ∃ col, newColModel (fun _ => "") v.colName cs = .ok col ∧ col.cells = cs := by
    intro v hv cs _
    simp only [scenario, List.mem_cons, List.mem_singleton, List.not_mem_nil, or_false] at hv
    rcases hv with rfl | rfl <;> exact ⟨_, rfl, rfl⟩
  have hfail := (SubsetRows_range (newColModel (fun _ => "")) scenario 1 1).1 (by decide)
  have h := (SubsetRows_range (newColModel (fun _ => "")) scenario 1 3).2 (by decide)
    (by decide) hnew
  ⟨by decide, by decide, hnew, by decide, hfail, h.elim (fun r hr => ⟨r, hr.1, hr.2.1⟩)⟩

/-! ## `Rbind` -/

theorem mapGet_mapSet {κ ν : Type} [DecidableEq κ] (m : List (κ × ν)) (k : κ) (v : ν) (k' : κ) :
    mapGet (mapSet m k v) k' = if k = k' then some v else mapGet m k' := by
  induction m with
  | nil => simp [mapSet, mapGet]
  | cons p rest ih =>
    obtain ⟨a, b⟩ := p
    unfold mapSet
    by_cases ha : a = k
    · subst ha
      simp only [if_true]
      by_cases hk : a = k'
      · simp [mapGet, hk]
      · simp [mapGet, hk]
    · simp only [ha, if_false]
      by_cases hk : k = k'
      · subst hk
        simp [mapGet, ha, ih]
      · by_cases hak : a = k'
        · simp [mapGet, hak, hk]
        · simp [mapGet, hak, hk, ih]

theorem nodup_getElem_inj {α : Type} (l : List α) (hnd : l.Nodup) (i j : Nat) (v : α)
    (hi : l[i]? = some v) (hj : l[j]? = some v) : i = j := by
  induction l generalizing i j with
  | nil => simp at hi
  | cons a rest ih =>
    rw [List.nodup_cons] at hnd
    cases i with
    | zero =>
      cases j with
      | zero => rfl
      | succ j' =>
        simp only [List.getElem?_cons_zero, Option.some.injEq] at hi
        simp only [List.getElem?_cons_succ] at hj
        subst hi
        exact absurd (List.getElem?_mem hj) hnd.1
    | succ i' =>
      cases j with
      | zero =>
        simp only [List.getElem?_cons_zero, Option.some.injEq] at hj
        simp only [List.getElem?_cons_succ] at hi
        subst hj
        exact absurd (List.getElem?_mem hi) hnd.1
      | succ j' =>
        simp only [List.getElem?_cons_succ] at hi hj
        rw [ih hnd.2 i' j' hi hj]

theorem Rbind_typeMap_spec (A : DataFrame) (l : List String) :
    ∀ (m m' : List (String × String)) (k : Int), 0 ≤ k →
      Rbind.typeMap A m k l = .ok m' → l.Nodup →
        (∀ v, v ∉ l → mapGet m' v = mapGet m v) ∧
        ∀ (p : Nat) (v : String), l[p]? = some v →
          ∃ t, index A.colTypes (k + p) = .ok t ∧ mapGet m' v = some t := by
  induction l with
  | nil =>
    intro m m' k _ h _
    simp only [Rbind.typeMap, Except.ok.injEq] at h
    subst h
    simp
  | cons w rest ih =>
    intro m m' k hk h hnd
    rw [List.nodup_cons] at hnd
    unfold Rbind.typeMap at h
    cases hidx : index A.colTypes k with
    | error e => rw [hidx] at h; exact absurd h (by simp)
    | ok t0 =>
      rw [hidx] at h
      simp only at h
      obtain ⟨ih1, ih2⟩ := ih _ m' (k + 1) (by omega) h hnd.2
      constructor
      · intro v hv
        simp only [List.mem_cons, not_or] at hv
        rw [ih1 v hv.2, mapGet_mapSet, if_neg (fun hh => hv.1 hh.symm)]
      · intro p v hp
        cases p with
        | zero =>
          simp only [List.getElem?_cons_zero, Option.some.injEq] at hp
          subst hp
          refine ⟨t0, by simpa using hidx, ?_⟩
          rw [ih1 w hnd.1, mapGet_mapSet, if_pos rfl]
        | succ p' =>
          simp only [List.getElem?_cons_succ] at hp
          obtain ⟨t, ht, hget⟩ := ih2 p' v hp
          refine ⟨t, ?_, hget⟩
          have : k + ((p' + 1 : Nat) : Int) = k + 1 + (p' : Int) := by push_cast; ring
          rw [this]; exact ht

theorem Rbind_check_spec (B : DataFrame) (m : List (String × String)) (l : List String) :
    ∀ k : Int, Rbind.check B m k l = .ok () →
      ∀ (p : Nat) (v : String), l[p]? = some v →
        ∃ t, mapGet m v = some t ∧ index B.colTypes (k + p) = .ok t := by
  induction l with
  | nil => intro k _ p v hp; simp at hp
  | cons w rest ih =>
    intro k h p v hp
    unfold Rbind.check at h
    cases hget : mapGet m w with
    | none => rw [hget] at h; exact absurd h (by simp)
    | some dfType =>
      rw [hget] at h
      simp only at h
      cases hidx : index B.colTypes k with
      | error e => rw [hidx] at h; exact absurd h (by simp)
      | ok t =>
        rw [hidx] at h
        simp only at h
        by_cases hne : dfType ≠ t
        · rw [if_pos hne] at h; exact absurd h (by simp)
        · rw [if_neg hne] at h
          have heq : dfType = t := not_not.mp hne
          cases p with
          | zero =>
            simp only [List.getElem?_cons_zero, Option.some.injEq] at hp
            subst hp
            exact ⟨t, by rw [hget, heq], by simpa using hidx⟩
          | succ p' =>
            simp only [List.getElem?_cons_succ] at hp
            obtain ⟨t', h1, h2⟩ := ih (k + 1) h p' v hp
            refine ⟨t', h1, ?_⟩
            have : k + ((p' + 1 : Nat) : Int) = k + 1 + (p' : Int) := by push_cast; ring
            rw [this]; exact h2

theorem Rbind_bind_spec (colAppend : column → List cell → Except Err column)
    (A B : DataFrame) (l : List String) :
    ∀ cols, Rbind.bind colAppend A B l = .ok cols →
      List.Forall₂
        (fun v cr => ∃ i j ca cb, findName v A.colNames 0 = some i ∧
          findName v B.colNames 0 = some j ∧ index A.columns i = .ok ca ∧
          index B.columns j = .ok cb ∧ colAppend ca cb.cells = .ok cr) l cols := by
  induction l with
  | nil =>
    intro cols h
    simp only [Rbind.bind, Except.ok.injEq] at h
    subst h
    exact List.Forall₂.nil
  | cons v rest ih =>
    intro cols h
    unfold Rbind.bind at h
    cases hi : findName v A.colNames 0 with
    | none => simp [colIndex, hi] at h
    | some i =>
      cases hj : findName v B.colNames 0 with
      | none => simp [colIndex, hi, hj] at h
      | some j =>
        simp only [colIndex, hi, hj] at h
        cases hca : index A.columns i with
        | error e => rw [hca] at h; exact absurd h (by simp)
        | ok ca =>
          cases hcb : index B.columns j with
          | error e => rw [hca, hcb] at h; exact absurd h (by simp)
          | ok cb =>
            cases happ : colAppend ca cb.cells with
            | error e => rw [hca, hcb] at h; simp only [happ] at h; exact absurd h (by simp)
            | ok cr =>
              cases hrest : Rbind.bind colAppend A B rest with
              | error e =>
                rw [hca, hcb] at h; simp only [happ, hrest] at h; exact absurd h (by simp)
              | ok cols' =>
                rw [hca, hcb] at h
                simp only [happ, hrest, Except.ok.injEq] at h
                subst h
                exact List.Forall₂.cons ⟨i, j, ca, cb, hi, hj, hca, hcb, happ⟩ (ih cols' hrest)

theorem findName_nat (v : String) (l : List String) (i : Int) (h : findName v l 0 = some i) :
    ∃ n : Nat, i = (n : Int) ∧ firstAt l v n := by
  have hmem : v ∈ l := by
    by_contra hcon
    rw [(findName_none_iff v l 0).mpr hcon] at h
    exact absurd h (by simp)
  obtain ⟨n, hn, hfirst⟩ := findName_of_mem v l hmem
  rw [h] at hn
  exact ⟨n, by simpa using hn, hfirst⟩

/-- C7, amended: for frames `A` and `B` with distinct column names each, when `Rbind`
returns a frame then `A` and `B` have the same `nCols`, the same set of column names
and, for every column name, the same type; the result has the names, the types and
the `nCols` of `A`; its `nRows` is `A.nRows + B.nRows` wrapped around to 64 bits, which
is `A.nRows + B.nRows` when that sum is a Go `int`; and its column at the position of
a name in `A` is `append` of the column of `A` of that name with the cells of the
column of `B` of that name; when `append` appends, these are the cells of `A` followed
by the cells of `B`, matched by name. -/
theorem Rbind_spec (colAppend : column → List cell → Except Err column) (A B r : DataFrame)
    (hA : A.colNames.Nodup) (hB : B.colNames.Nodup)
    (happ : ∀ col es col', colAppend col es = .ok col' → col'.cells = col.cells ++ es)
    (h : Rbind colAppend A B = .ok r) :
    A.nCols = B.nCols ∧ (∀ v, v ∈ A.colNames ↔ v ∈ B.colNames) ∧
    (∀ (i k : Nat) (v : String), A.colNames[i]? = some v → B.colNames[k]? = some v →
      ∃ t, A.colTypes[i]? = some t ∧ B.colTypes[k]? = some t) ∧
    r.colNames = A.colNames ∧ r.colTypes = A.colTypes ∧ r.nCols = A.nCols ∧
    r.nRows = wrapInt (A.nRows + B.nRows) ∧
    (IsInt (A.nRows + B.nRows) → r.nRows = A.nRows + B.nRows) ∧
    r.columns.length = A.colNames.length ∧
    (∀ (i k : Nat) (v : String), A.colNames[i]? = some v → B.colNames[k]? = some v →
      ∃ ca cb cr, A.columns[i]? = some ca ∧ B.columns[k]? = some cb ∧
        r.columns[i]? = some cr ∧ colAppend ca cb.cells = .ok cr ∧
        cr.cells = ca.cells ++ cb.cells) := by
  unfold Rbind at h
  by_cases hn : A.nCols ≠ B.nCols
  · rw [if_pos hn] at h; exact absurd h (by simp)
  · rw [if_neg hn] at h
    cases hm : Rbind.typeMap A [] 0 A.colNames with
    | error e => rw [hm] at h; exact absurd h (by simp)
    | ok m =>
      rw [hm] at h
      simp only at h
      cases hchk : Rbind.check B m 0 B.colNames with
      | error e => rw [hchk] at h; exact absurd h (by simp)
      | ok un =>
        rw [hchk] at h
        simp only at h
        cases hbind : Rbind.bind colAppend A B A.colNames with
        | error e => rw [hbind] at h; exact absurd h (by simp)
        | ok cols =>
          rw [hbind] at h
          simp only [Except.ok.injEq] at h
          subst h
          obtain ⟨hm1, hm2⟩ := Rbind_typeMap_spec A A.colNames [] m 0 (le_refl 0) hm hA
          have hc := Rbind_check_spec B m B.colNames 0 hchk
          have hb := Rbind_bind_spec colAppend A B A.colNames cols hbind
          have hcols : ∀ (i k : Nat) (v : String), A.colNames[i]? = some v →
              B.colNames[k]? = some v →
              ∃ ca cb cr, A.columns[i]? = some ca ∧ B.columns[k]? = some cb ∧
                cols[i]? = some cr ∧ colAppend ca cb.cells = .ok cr := by
            intro i k v hi hk
            obtain ⟨cr, hcr, i', j', ca, cb, hfi, hfj, hca, hcb, hap⟩ := forall2_getElem hb i v hi
            obtain ⟨ni, rfl, hfirsti⟩ := findName_nat v A.colNames i' hfi
            obtain ⟨nj, rfl, hfirstj⟩ := findName_nat v B.colNames j' hfj
            have e1 : ni = i := nodup_getElem_inj A.colNames hA ni i v hfirsti.1 hi
            have e2 : nj = k := nodup_getElem_inj B.colNames hB nj k v hfirstj.1 hk
            subst e1 e2
            rw [index_ok_iff] at hca hcb
            exact ⟨ca, cb, cr, by simpa using hca.2, by simpa using hcb.2, hcr, hap⟩
          refine ⟨not_not.mp hn, ?_, ?_, rfl, rfl, rfl, rfl,
            fun hint => wrapInt_of_isInt _ hint, hb.length_eq.symm, ?_⟩
          · intro v
            constructor
            · intro hv
              obtain ⟨i, hi⟩ := List.mem_iff_getElem?.mp hv
              obtain ⟨cr, _, i', j', ca, cb, _, hfj, _⟩ := forall2_getElem hb i v hi
              obtain ⟨nj, _, hfirstj⟩ := findName_nat v B.colNames j' hfj
              exact List.getElem?_mem hfirstj.1
            · intro hv
              obtain ⟨k, hk⟩ := List.mem_iff_getElem?.mp hv
              obtain ⟨t, hget, _⟩ := hc k v hk
              by_contra hcon
              rw [hm1 v hcon] at hget
              simp [mapGet] at hget
          · intro i k v hi hk
            obtain ⟨t, ht, hget⟩ := hm2 i v hi
            obtain ⟨t', hget', ht'⟩ := hc k v hk
            rw [hget] at hget'
            simp only [Option.some.injEq] at hget'
            subst hget'
            rw [index_ok_iff] at ht ht'
            exact ⟨t, by simpa using ht.2, by simpa using ht'.2⟩
          · intro i k v hi hk
            obtain ⟨ca, cb, cr, h1, h2, h3, h4⟩ := hcols i k v hi hk
            exact ⟨ca, cb, cr, h1, h2, h3, h4, happ ca cb.cells cr h4⟩

/-- C7 amended, at the scenario frame bound with a frame holding its columns in the
other order: six rows. -/
theorem Rbind_spec_witness :
    scenario.colNames.Nodup ∧ swapped.colNames.Nodup ∧
    (∀ col es col', appendModel col es = .ok col' → col'.cells = col.cells ++ es) ∧
    Rbind appendModel scenario swapped =
      .ok { columns :=
              [ { cells := [⟨some 1, "1"⟩, ⟨some 2, "2"⟩, ⟨some 2, "2"⟩, ⟨some 3, "3"⟩,
                            ⟨some 4, "4"⟩, ⟨some 5, "5"⟩],
                  colType := "Int", colName := "n", numChars := 1 },
                { cells := [⟨none, "a"⟩, ⟨none, "b"⟩, ⟨none, "b"⟩, ⟨none, "c"⟩,
                            ⟨none, "d"⟩, ⟨none, "e"⟩],
                  colType := "String", colName := "s", numChars := 1 } ],
            colNames := ["n", "s"], colTypes := ["Int", "String"], nCols := 2, nRows := 6 } ∧
    ∀ v, v ∈ scenario.colNames ↔ v ∈ swapped.colNames :=
  have happ : ∀ col es col', appendModel col es = .ok col' → col'.cells = col.cells ++ es := by
    intro col es col' h
    simp only [appendModel, Except.ok.injEq] at h
    rw [← h]
  have hrun : Rbind appendModel scenario swapped = .ok _ := by rfl
  ⟨by decide, by decide, happ, hrun,
    (Rbind_spec appendModel scenario swapped _ (by decide) (by decide) happ hrun).2.1⟩

/-! ## `Cbind` -/

theorem Cbind_nameMap_get (l : List String) :
    ∀ (m : List (String × Bool)) (v : String),
      mapGet (Cbind.nameMap m l) v = none ↔ mapGet m v = none ∧ v ∉ l := by
  induction l with
  | nil => intro m v; simp [Cbind.nameMap]
  | cons w rest ih =>
    intro m v
    unfold Cbind.nameMap
    rw [ih, mapGet_mapSet]
    by_cases hw : w = v
    · simp [hw]
    · simp only [hw, if_false, List.mem_cons, not_or]
      exact ⟨fun h => ⟨h.1, fun hv => hw hv.symm, h.2⟩, fun h => ⟨h.1, h.2.2⟩⟩

theorem Cbind_check_cases (m : List (String × Bool)) (l : List String) :
    (Cbind.check m l = .ok () ∧ ∀ v ∈ l, mapGet m v = none) ∨
    (Cbind.check m l = .error (.error "Conflicting column names") ∧
      ∃ v ∈ l, mapGet m v ≠ none) := by
  induction l with
  | nil => left; simp [Cbind.check]
  | cons w rest ih =>
    unfold Cbind.check
    cases hget : mapGet m w with
    | some b =>
      right
      exact ⟨rfl, w, by simp, by simp [hget]⟩
    | none =>
      simp only
      rcases ih with ⟨hok, hall⟩ | ⟨herr, v, hv, hne⟩
      · left
        refine ⟨hok, ?_⟩
        intro v hv
        rcases List.mem_cons.mp hv with rfl | hv'
        · exact hget
        · exact hall v hv'
      · right
        exact ⟨herr, v, List.mem_cons_of_mem _ hv, hne⟩

/-- C8: `Cbind` returns an error exactly when the row counts differ or some column
name of `B` is a column name of `A`, and never panics; on success the result has the
rows of `A`, the names, types and columns of `A` followed by those of `B`, and as
`nCols` the number of these names, which is `A.nCols + B.nCols` when `nCols` counts
the names in `A` and in `B`. -/
theorem Cbind_spec (A B : DataFrame) :
    ((∃ msg, Cbind A B = .error (.error msg)) ↔
        (A.nRows ≠ B.nRows ∨ ∃ v ∈ B.colNames, v ∈ A.colNames)) ∧
    Cbind A B ≠ .error .panic ∧
    ∀ r, Cbind A B = .ok r →
      r.nRows = A.nRows ∧ r.colNames = A.colNames ++ B.colNames ∧
      r.colTypes = A.colTypes ++ B.colTypes ∧ r.columns = A.columns ++ B.columns ∧
      r.nCols = (A.colNames.length : Int) + B.colNames.length ∧
      (A.nCols = A.colNames.length → B.nCols = B.colNames.length →
        r.nCols = A.nCols + B.nCols) := by
  have hkey : ∀ v, mapGet (Cbind.nameMap [] A.colNames) v = none ↔ v ∉ A.colNames := by
    intro v
    rw [Cbind_nameMap_get]
    simp [mapGet]
  unfold Cbind
  by_cases hn : A.nRows ≠ B.nRows
  · rw [if_pos hn]
    exact ⟨⟨fun _ => Or.inl hn, fun _ => ⟨_, rfl⟩⟩, by simp, by simp⟩
  · rw [if_neg hn]
    rcases Cbind_check_cases (Cbind.nameMap [] A.colNames) B.colNames with
      ⟨hok, hall⟩ | ⟨herr, v, hv, hne⟩
    · simp only [hok]
      refine ⟨⟨fun h => ?_, fun h => ?_⟩, by simp, ?_⟩
      · obtain ⟨msg, hmsg⟩ := h
        simp at hmsg
      · rcases h with h | ⟨v, hv, hva⟩
        · exact absurd h hn
        · exact absurd hva ((hkey v).mp (hall v hv))
      · intro r hr
        simp only [Except.ok.injEq] at hr
        subst hr
        refine ⟨rfl, rfl, rfl, rfl, by simp, ?_⟩
        intro h1 h2
        simp [h1, h2]
    · simp only [herr]
      refine ⟨⟨fun _ => Or.inr ⟨v, hv, ?_⟩, fun _ => ⟨_, rfl⟩⟩, by simp, by simp⟩
      by_contra hcon
      exact hne ((hkey v).mpr hcon)

/-- C8, at the scenario frame bound with a one-column frame of four rows. -/
theorem Cbind_spec_witness :
    scenario.nCols = scenario.colNames.length ∧ extra.nCols = extra.colNames.length ∧
    ∃ r, Cbind scenario extra = .ok r ∧ r.nCols = scenario.nCols + extra.nCols ∧
      r.colNames = ["n", "s", "t"] :=
  have hrun : Cbind scenario extra = .ok _ := by rfl
  ⟨by decide, by decide, _, hrun,
    ((Cbind_spec scenario extra).2.2 _ hrun).2.2.2.2.2 (by decide) (by decide), by rfl⟩

/-! ## `New` -/

theorem New_loop_ok (newCol : String → List cell → Except Err column) (groups : List C) :
    ∀ (k colLength : Int) (colNames colTypes : List String) (cols : List column) (r : DataFrame),
      0 ≤ k → New.loop newCol k colLength colNames colTypes cols groups = .ok r →
        (k ≠ 0 → r.nRows = colLength) ∧
        ∀ g ∈ groups, ∃ c, newCol g.Colname g.Elements = .ok c ∧
          (c.cells.length : Int) = r.nRows := by
  induction groups with
  | nil =>
    intro k colLength colNames colTypes cols r _ h
    simp only [New.loop, Except.ok.injEq] at h
    subst h
    simp
  | cons val rest ih =>
    intro k colLength colNames colTypes cols r hk0 h
    unfold New.loop at h
    cases hcol : newCol val.Colname val.Elements with
    | error e => rw [hcol] at h; exact absurd h (by simp)
    | ok col =>
      rw [hcol] at h
      simp only at h
      by_cases hk : k = 0
      · rw [if_pos hk] at h
        obtain ⟨h1, h2⟩ := ih _ _ _ _ _ r (by omega) h
        have hr : r.nRows = col.cells.length := h1 (by omega)
        refine ⟨fun hk' => absurd hk hk', ?_⟩
        intro g hg
        rcases List.mem_cons.mp hg with rfl | hg'
        · exact ⟨col, hcol, hr.symm⟩
        · exact h2 g hg'
      · rw [if_neg hk] at h
        by_cases hlen : colLength ≠ col.cells.length
        · rw [if_pos hlen] at h; exact absurd h (by simp)
        · rw [if_neg hlen] at h
          obtain ⟨h1, h2⟩ := ih _ _ _ _ _ r (by omega) h
          have hr : r.nRows = colLength := h1 (by omega)
          refine ⟨fun _ => hr, ?_⟩
          intro g hg
          rcases List.mem_cons.mp hg with rfl | hg'
          · exact ⟨col, hcol, by rw [hr]; exact (not_not.mp hlen).symm⟩
          · exact h2 g hg'

theorem New_loop_build (newCol : String → List cell → Except Err column) (n : Int)
    (groups : List C) :
    ∀ (built : List column) (k : Int) (colNames colTypes : List String) (cols : List column),
      List.Forall₂ (fun g c => newCol g.Colname g.Elements = .ok c) groups built →
      (∀ c ∈ built, (c.cells.length : Int) = n) → 0 < k →
        New.loop newCol k n colNames colTypes cols groups =
          .ok { colNames := colNames ++ built.map (fun c => c.colName),
                colTypes := colTypes ++ built.map (fun c => c.colType),
                columns := cols ++ built, nRows := n,
                nCols := (colNames ++ built.map (fun c => c.colName)).length } := by
  induction groups with
  | nil =>
    intro built k colNames colTypes cols hb _ _
    cases hb
    simp [New.loop]
  | cons val rest ih =>
    intro built k colNames colTypes cols hb hlen hk
    cases hb with
    | cons hcol hrest =>
      rename_i col built'
      unfold New.loop
      rw [hcol]
      simp only
      rw [if_neg (by omega), if_neg (by simp [hlen col (by simp)])]
      rw [ih built' (k + 1) _ _ _ hrest (fun c hc => hlen c (List.mem_cons_of_mem _ hc))
        (by omega)]
      simp

theorem New_of_built (newCol : String → List cell → Except Err column)
    (groups : List C) (built : List column) (n : Nat) (hne : groups ≠ [])
    (hb : List.Forall₂ (fun g c => newCol g.Colname g.Elements = .ok c) groups built)
    (hlen : ∀ c ∈ built, c.cells.length = n) :
    New newCol groups =
      .ok { colNames := built.map (fun c => c.colName),
            colTypes := built.map (fun c => c.colType),
            columns := built, nRows := n, nCols := (groups.length : Int) } := by
  cases hb with
  | nil => exact absurd rfl hne
  | cons hcol hrest =>
    rename_i val col rest built'
    have hcn : col.cells.length = n := hlen col (by simp)
    unfold New
    rw [if_neg (by simp)]
    unfold New.loop
    rw [hcol]
    simp only [if_true, hcn]
    rw [New_loop_build newCol n rest built' (0 + 1) _ _ _ hrest
      (fun c hc => by rw [hlen c (List.mem_cons_of_mem _ hc)]) (by omega)]
    simp [hrest.length_eq]

/-- C10: `New` returns an error when called with no groups, and returns no frame when
two of the groups build columns with different numbers of cells.  For a non-empty
list of groups whose columns all build with `n` cells it succeeds, `Dim` of the result
is `[n, k]` for `k` groups, and `colNames`, `colTypes` and `columns` list the names,
the types and the built columns in argument order. -/
theorem New_spec (newCol : String → List cell → Except Err column) :
    New newCol [] = .error (.error "Can't create empty DataFrame") ∧
    (∀ groups : List C,
      (∃ g1 ∈ groups, ∃ g2 ∈ groups, ∃ c1 c2, newCol g1.Colname g1.Elements = .ok c1 ∧
          newCol g2.Colname g2.Elements = .ok c2 ∧ c1.cells.length ≠ c2.cells.length) →
        ∃ e, New newCol groups = .error e) ∧
    (∀ (groups : List C) (built : List column) (n : Nat), groups ≠ [] →
      List.Forall₂ (fun g c => newCol g.Colname g.Elements = .ok c) groups built →
      (∀ c ∈ built, c.cells.length = n) →
        ∃ r, New newCol groups = .ok r ∧ Dim r = [(n : Int), (groups.length : Int)] ∧
          r.colNames = built.map (fun c => c.colName) ∧
          r.colTypes = built.map (fun c => c.colType) ∧ r.columns = built) := by
  refine ⟨by simp [New], ?_, ?_⟩
  · rintro groups ⟨g1, hg1, g2, hg2, c1, c2, h1, h2, hne⟩
    cases hnew : New newCol groups with
    | error e => exact ⟨e, rfl⟩
    | ok r =>
      exfalso
      unfold New at hnew
      split at hnew
      · exact absurd hnew (by simp)
      · obtain ⟨_, hall⟩ := New_loop_ok newCol groups 0 0 [] [] [] r (le_refl 0) hnew
        obtain ⟨d1, hd1, hl1⟩ := hall g1 hg1
        obtain ⟨d2, hd2, hl2⟩ := hall g2 hg2
        rw [h1] at hd1
        rw [h2] at hd2
        simp only [Except.ok.injEq] at hd1 hd2
        subst hd1 hd2
        apply hne
        have : (c1.cells.length : Int) = c2.cells.length := by rw [hl1, hl2]
        exact_mod_cast this
  · intro groups built n hne hb hlen
    exact ⟨_, New_of_built newCol groups built n hne hb hlen, by simp [Dim], rfl, rfl, rfl⟩

/-- C10, at two groups of two cells each. -/
theorem New_spec_witness :
    ([⟨"a", [⟨some 1, "1"⟩, ⟨some 2, "2"⟩]⟩, ⟨"b", [⟨none, "x"⟩, ⟨none, "y"⟩]⟩] : List C) ≠ [] ∧
    (∃ g1 ∈ ([⟨"a", [⟨some 1, "1"⟩]⟩, ⟨"b", []⟩] : List C),
      ∃ g2 ∈ ([⟨"a", [⟨some 1, "1"⟩]⟩, ⟨"b", []⟩] : List C), ∃ c1 c2,
        newColModel (fun _ => "") g1.Colname g1.Elements = .ok c1 ∧
        newColModel (fun _ => "") g2.Colname g2.Elements = .ok c2 ∧
        c1.cells.length ≠ c2.cells.length) ∧
    (∃ e, New (newColModel (fun _ => "")) [⟨"a", [⟨some 1, "1"⟩]⟩, ⟨"b", []⟩] = .error e) ∧
    ∃ r, New (newColModel (fun _ => ""))
        [⟨"a", [⟨some 1, "1"⟩, ⟨some 2, "2"⟩]⟩, ⟨"b", [⟨none, "x"⟩, ⟨none, "y"⟩]⟩] = .ok r ∧
      Dim r = [2, 2] ∧ r.colNames = ["a", "b"] :=
  have hdiff : ∃ g1 ∈ ([⟨"a", [⟨some 1, "1"⟩]⟩, ⟨"b", []⟩] : List C),
      ∃ g2 ∈ ([⟨"a", [⟨some 1, "1"⟩]⟩, ⟨"b", []⟩] : List C), ∃ c1 c2,
        newColModel (fun _ => "") g1.Colname g1.Elements = .ok c1 ∧
        newColModel (fun _ => "") g2.Colname g2.Elements = .ok c2 ∧
        c1.cells.length ≠ c2.cells.length :=
    ⟨⟨"a", [⟨some 1, "1"⟩]⟩, by simp, ⟨"b", []⟩, by simp, _, _, rfl, rfl, by decide⟩
  have h := (New_spec (newColModel (fun _ => ""))).2.2
    [⟨"a", [⟨some 1, "1"⟩, ⟨some 2, "2"⟩]⟩, ⟨"b", [⟨none, "x"⟩, ⟨none, "y"⟩]⟩]
    [{ cells := [⟨some 1, "1"⟩, ⟨some 2, "2"⟩], colType := "", colName := "a", numChars := 1 },
     { cells := [⟨none, "x"⟩, ⟨none, "y"⟩], colType := "", colName := "b", numChars := 1 }] 2
    (by simp) (List.Forall₂.cons rfl (List.Forall₂.cons rfl List.Forall₂.nil)) (by decide)
  ⟨by simp, hdiff, (New_spec (newColModel (fun _ => ""))).2.1 _ hdiff,
    h.elim (fun r hr => ⟨r, hr.1, hr.2.1, hr.2.2.1⟩)⟩

/-- `New` compares no names: two groups that build columns of equal length give a
frame whose column names are those of the two columns, equal or not. -/
theorem New_two_groups (newCol : String → List cell → Except Err column) (g1 g2 : C)
    (c1 c2 : column) (h1 : newCol g1.Colname g1.Elements = .ok c1)
    (h2 : newCol g2.Colname g2.Elements = .ok c2) (hlen : c1.cells.length = c2.cells.length) :
    New newCol [g1, g2] =
      .ok { columns := [c1, c2], colNames := [c1.colName, c2.colName],
            colTypes := [c1.colType, c2.colType], nCols := 2, nRows := c1.cells.length } := by
  rw [New_of_built newCol [g1, g2] [c1, c2] c1.cells.length (by simp)
    (List.Forall₂.cons h1 (List.Forall₂.cons h2 List.Forall₂.nil))
    (by intro c hc; simp only [List.mem_cons, List.mem_singleton, List.not_mem_nil,
          or_false] at hc; rcases hc with rfl | rfl; rfl; exact hlen.symm)]
  simp

/-- C9 fails on the code: two groups named `a` are accepted, and the frame returned
by `New` has the column names `a`, `a`. -/
theorem New_repeated_name :
    New (newColModel (fun _ => "Int")) [⟨"a", [⟨some 1, "1"⟩]⟩, ⟨"a", [⟨some 2, "2"⟩]⟩] =
      .ok { columns := [{ cells := [⟨some 1, "1"⟩], colType := "Int", colName := "a", numChars := 1 },
                        { cells := [⟨some 2, "2"⟩], colType := "Int", colName := "a", numChars := 1 }],
            colNames := ["a", "a"], colTypes := ["Int", "Int"], nCols := 2, nRows := 1 } ∧
    ¬ (["a", "a"] : List String).Nodup := by
  refine ⟨by rfl, by decide⟩

/-! ## The deduplication views: partition, counting, failure, row identity -/

theorem selections_eq (visit : List (String × u) → List (String × u)) (f : DataFrame)
    (hwf : RowsWellFormed f) (hvisit : ∀ m, (visit m).Perm m) :
    ∃ es, Grouped (specSignature f) (List.range f.nRows.toNat) es ∧
      Unique.selection visit f = .ok ((es.filter (fun p => p.2.unique)).map firstRow) ∧
      Duplicated.selection visit f = .ok ((es.filter (fun p => !p.2.unique)).map firstRow) ∧
      RemoveUnique.selection visit f = .ok (RemoveUnique.appears es) ∧
      RemoveDuplicated.selection visit f = .ok (es.map firstRow) := by
  obtain ⟨m, hm, hg⟩ := uniqueRowsMap_grouped f hwf
  have hv : Grouped (specSignature f) (List.range f.nRows.toNat) (visit m) := hg.perm (hvisit m)
  have hne : ∀ p ∈ visit m, p.2.appears ≠ [] := fun p hp => (hv.2.1 p hp).2.1
  refine ⟨visit m, hv, ?_, ?_, ?_, ?_⟩
  · simp only [Unique.selection, hm, Unique_appears_eq _ hne]
  · simp only [Duplicated.selection, hm, Duplicated_appears_eq _ hne]
  · simp only [RemoveUnique.selection, hm]
  · simp only [RemoveDuplicated.selection, hm, RemoveDuplicated_appears_eq _ hne]

theorem selections_perm (visit : List (String × u) → List (String × u)) (f : DataFrame)
    (hwf : RowsWellFormed f) (hvisit : ∀ m, (visit m).Perm m) :
    ∃ su sd sru srd, Unique.selection visit f = .ok su ∧ Duplicated.selection visit f = .ok sd ∧
      RemoveUnique.selection visit f = .ok sru ∧ RemoveDuplicated.selection visit f = .ok srd ∧
      su.Perm (rowsWhere f (fun i => decide (occurrences f i = 1))) ∧
      sd.Perm (rowsWhere f (fun i => decide (2 ≤ occurrences f i) && isFirst f i)) ∧
      sru.Perm (rowsWhere f (fun i => decide (2 ≤ occurrences f i))) ∧
      srd.Perm (rowsWhere f (isFirst f)) := by
  obtain ⟨es, hv, h1, h2, h3, h4⟩ := selections_eq visit f hwf hvisit
  refine ⟨_, _, _, _, h1, h2, h3, h4, ?_, ?_, ?_, ?_⟩
  · refine (List.perm_ext_iff_of_nodup ?_ (nodup_rowsWhere f _)).mpr ?_
    · exact List.Nodup.sublist (List.Sublist.map _ (List.filter_sublist _)) hv.nodup_firstRows
    · intro x
      rw [hv.mem_uniqueRows, mem_rowsWhere]
      simp only [occurrences_eq, decide_eq_true_eq]
  · refine (List.perm_ext_iff_of_nodup ?_ (nodup_rowsWhere f _)).mpr ?_
    · exact List.Nodup.sublist (List.Sublist.map _ (List.filter_sublist _)) hv.nodup_firstRows
    · intro x
      rw [hv.mem_duplicatedRows, mem_rowsWhere]
      simp only [occurrences_eq, Bool.and_eq_true, decide_eq_true_eq, isFirst_iff]
  · refine (List.perm_ext_iff_of_nodup hv.nodup_removeUnique (nodup_rowsWhere f _)).mpr ?_
    intro x
    rw [hv.mem_removeUnique, mem_rowsWhere]
    simp only [occurrences_eq, decide_eq_true_eq]
  · refine (List.perm_ext_iff_of_nodup hv.nodup_firstRows (nodup_rowsWhere f _)).mpr ?_
    intro x
    rw [hv.mem_firstRows, mem_rowsWhere]
    simp only [isFirst_iff]

theorem occurrences_pos (f : DataFrame) (i : Nat) (hi : i < f.nRows.toNat) :
    1 ≤ occurrences f i := by
  rw [occurrences_eq]
  exact List.length_pos_of_mem
    (List.mem_filter.mpr ⟨List.mem_range.mpr hi, by simp⟩)

theorem length_rowsWhere (f : DataFrame) (q : Nat → Bool) :
    (rowsWhere f q).length = ((List.range f.nRows.toNat).filter q).length := by
  simp [rowsWhere]

theorem rowsWhere_once_add_repeated (f : DataFrame) :
    (rowsWhere f (fun i => decide (occurrences f i = 1))).length +
      (rowsWhere f (fun i => decide (2 ≤ occurrences f i))).length = f.nRows.toNat := by
  rw [length_rowsWhere, length_rowsWhere]
  have h := List.length_eq_countP_add_countP (fun i => decide (occurrences f i = 1))
    (List.range f.nRows.toNat)
  rw [List.length_range, List.countP_eq_length_filter, List.countP_eq_length_filter] at h
  have hc : (List.range f.nRows.toNat).filter
      (fun a => decide ¬decide (occurrences f a = 1) = true) =
      (List.range f.nRows.toNat).filter (fun i => decide (2 ≤ occurrences f i)) := by
    apply List.filter_congr
    intro i hi
    have := occurrences_pos f i (List.mem_range.mp hi)
    by_cases h1 : occurrences f i = 1
    · simp [h1]
    · have h2 : 2 ≤ occurrences f i := by omega
      simp [h1, h2]
  rw [hc] at h
  omega

theorem rowsWhere_first_le (f : DataFrame) :
    (rowsWhere f (fun i => decide (2 ≤ occurrences f i) && isFirst f i)).length ≤
      (rowsWhere f (fun i => decide (2 ≤ occurrences f i))).length := by
  rw [length_rowsWhere, length_rowsWhere]
  have : (List.range f.nRows.toNat).filter
      (fun i => decide (2 ≤ occurrences f i) && isFirst f i) =
      ((List.range f.nRows.toNat).filter (fun i => decide (2 ≤ occurrences f i))).filter
        (fun i => isFirst f i) := by
    rw [List.filter_filter]
    apply List.filter_congr
    intro i _
    exact Bool.and_comm _ _
  rw [this]
  exact (List.filter_sublist _).length_le


/-- C13 as stated fails: in the scenario frame `Unique` selects rows 0 and 3 and
`Duplicated` selects row 1; row 2 is selected by neither, so the two selections do
not cover the row indices. -/
theorem unique_duplicated_miss_row :
    RowsWellFormed scenario ∧ (2 : Int) < scenario.nRows ∧
    Unique.selection id scenario = .ok [0, 3] ∧ Duplicated.selection id scenario = .ok [1] ∧
    (2 : Int) ∉ ([0, 3] : List Int) ∧ (2 : Int) ∉ ([1] : List Int) := by
  refine ⟨by decide, by decide, by rfl, by rfl, by decide, by decide⟩

/-- C13, amended: on a frame whose columns all have `nRows` cells, whatever the order
in which the map is visited, the rows selected by `Unique` and by `Duplicated` do not
overlap and together are exactly the rows that are the smallest index of their
signature; the rows selected by `Unique` and by `RemoveUnique` do not overlap and
together are all the row indices; `Duplicated` selects rows of `RemoveUnique`; and
the number of rows of `Unique` plus that of `Duplicated` plus (that of `RemoveUnique`
minus that of `Duplicated`) is `nRows`. -/
theorem unique_duplicated_rows (visit : List (String × u) → List (String × u))
    (f : DataFrame) (hwf : RowsWellFormed f) (hvisit : ∀ m, (visit m).Perm m) :
    ∃ su sd sru, Unique.selection visit f = .ok su ∧ Duplicated.selection visit f = .ok sd ∧
      RemoveUnique.selection visit f = .ok sru ∧
      (∀ x, x ∈ su → x ∉ sd) ∧
      (∀ x, (x ∈ su ∨ x ∈ sd) ↔ ∃ i, i < f.nRows.toNat ∧ x = (i : Int) ∧ isFirst f i = true) ∧
      (∀ x, x ∈ su → x ∉ sru) ∧
      (∀ x, (x ∈ su ∨ x ∈ sru) ↔ (0 ≤ x ∧ x < f.nRows)) ∧
      (∀ x, x ∈ sd → x ∈ sru) ∧ su.Nodup ∧ sd.Nodup ∧ sru.Nodup ∧
      su.length + sd.length + (sru.length - sd.length) = f.nRows.toNat := by
  obtain ⟨su, sd, sru, srd, h1, h2, h3, _, p1, p2, p3, _⟩ := selections_perm visit f hwf hvisit
  have m1 : ∀ x, x ∈ su ↔ ∃ i, i < f.nRows.toNat ∧ x = (i : Int) ∧ occurrences f i = 1 := by
    intro x; rw [p1.mem_iff, mem_rowsWhere]; simp only [decide_eq_true_eq]
  have m2 : ∀ x, x ∈ sd ↔ ∃ i, i < f.nRows.toNat ∧ x = (i : Int) ∧
      (2 ≤ occurrences f i ∧ isFirst f i = true) := by
    intro x; rw [p2.mem_iff, mem_rowsWhere]; simp only [Bool.and_eq_true, decide_eq_true_eq]
  have m3 : ∀ x, x ∈ sru ↔ ∃ i, i < f.nRows.toNat ∧ x = (i : Int) ∧ 2 ≤ occurrences f i := by
    intro x; rw [p3.mem_iff, mem_rowsWhere]; simp only [decide_eq_true_eq]
  have hfirst : ∀ i, i < f.nRows.toNat → occurrences f i = 1 → isFirst f i = true := by
    intro i hi hone
    rw [isFirst_iff]
    intro j hj hsig
    rw [occurrences_eq] at hone
    have : j = i := eq_of_mem_length_one _ hone j i
      (List.mem_filter.mpr ⟨List.mem_range.mpr (by omega), by simp [hsig]⟩)
      (List.mem_filter.mpr ⟨List.mem_range.mpr hi, by simp⟩)
    omega
  refine ⟨su, sd, sru, h1, h2, h3, ?_, ?_, ?_, ?_, ?_, ?_, ?_, ?_, ?_⟩
  · intro x hu hd
    obtain ⟨i, _, rfl, hone⟩ := (m1 x).mp hu
    obtain ⟨j, _, hij, htwo, _⟩ := (m2 _).mp hd
    have : i = j := by exact_mod_cast hij
    subst this
    omega
  · intro x
    constructor
    · rintro (hu | hd)
      · obtain ⟨i, hi, rfl, hone⟩ := (m1 x).mp hu
        exact ⟨i, hi, rfl, hfirst i hi hone⟩
      · obtain ⟨i, hi, rfl, _, hf⟩ := (m2 x).mp hd
        exact ⟨i, hi, rfl, hf⟩
    · rintro ⟨i, hi, rfl, hf⟩
      have := occurrences_pos f i hi
      by_cases hone : occurrences f i = 1
      · exact Or.inl ((m1 _).mpr ⟨i, hi, rfl, hone⟩)
      · exact Or.inr ((m2 _).mpr ⟨i, hi, rfl, by omega, hf⟩)
  · intro x hu hr
    obtain ⟨i, _, rfl, hone⟩ := (m1 x).mp hu
    obtain ⟨j, _, hij, htwo⟩ := (m3 _).mp hr
    have : i = j := by exact_mod_cast hij
    subst this
    omega
  · intro x
    constructor
    · rintro (hu | hr)
      · obtain ⟨i, hi, rfl, _⟩ := (m1 x).mp hu
        omega
      · obtain ⟨i, hi, rfl, _⟩ := (m3 x).mp hr
        omega
    · rintro ⟨h0, hlt⟩
      have hi : x.toNat < f.nRows.toNat := by omega
      have hx : x = (x.toNat : Int) := by omega
      have := occurrences_pos f x.toNat hi
      by_cases hone : occurrences f x.toNat = 1
      · exact Or.inl ((m1 _).mpr ⟨x.toNat, hi, hx, hone⟩)
      · exact Or.inr ((m3 _).mpr ⟨x.toNat, hi, hx, by omega⟩)
  · intro x hd
    obtain ⟨i, hi, rfl, htwo, _⟩ := (m2 x).mp hd
    exact (m3 _).mpr ⟨i, hi, rfl, htwo⟩
  · exact p1.nodup_iff.mpr (nodup_rowsWhere f _)
  · exact p2.nodup_iff.mpr (nodup_rowsWhere f _)
  · exact p3.nodup_iff.mpr (nodup_rowsWhere f _)
  · have e1 := p1.length_eq
    have e2 := p2.length_eq
    have e3 := p3.length_eq
    have hsum := rowsWhere_once_add_repeated f
    have hle := rowsWhere_first_le f
    omega

/-- C13 amended, at the scenario frame with the map visited in reverse order. -/
theorem unique_duplicated_rows_witness :
    RowsWellFormed scenario ∧ (∀ m : List (String × u), (List.reverse m).Perm m) ∧
    ∃ su sd sru, Unique.selection List.reverse scenario = .ok su ∧
      Duplicated.selection List.reverse scenario = .ok sd ∧
      RemoveUnique.selection List.reverse scenario = .ok sru ∧
      su.length + sd.length + (sru.length - sd.length) = scenario.nRows.toNat := by
  obtain ⟨su, sd, sru, h1, h2, h3, _, _, _, _, _, _, _, _, hlen⟩ :=
    unique_duplicated_rows List.reverse scenario (by decide) (fun m => List.reverse_perm m)
  exact ⟨by decide, fun m => List.reverse_perm m, su, sd, sru, h1, h2, h3, hlen⟩

theorem SubsetRows_ints_outcome (newCol : String → List cell → Except Err column)
    (f : DataFrame) (sel : List Int) (hwf : RowsWellFormed f)
    (hnew : ∀ c ∈ f.columns, ∃ col, newCol c.colName [] = .ok col ∧ col.cells = [])
    (hr : ∀ x ∈ sel, 0 ≤ x ∧ x < f.nRows) :
    (sel = [] → SubsetRows newCol f (.ints sel) = .error (.error "Empty subset")) ∧
    (sel ≠ [] → ∃ out, SubsetRows newCol f (.ints sel) =
        .ok { columns := out, nCols := f.nCols, colNames := f.colNames,
              colTypes := f.colTypes, nRows := sel.length } ∧
      List.Forall₂
        (fun cf cr => List.Forall₂ (fun v c => index cf.cells v = .ok c) sel cr.cells)
        f.columns out) := by
  constructor
  · intro h
    simp [SubsetRows, h]
  · intro h
    have h0 : ¬ sel.length = 0 := fun hz => h (List.length_eq_zero.mp hz)
    obtain ⟨out, hout, hall⟩ := SubsetRows_indexLoop_ok newCol sel f.nRows f.columns hwf hnew hr
    refine ⟨out, ?_, hall⟩
    unfold SubsetRows
    simp only [h0, if_false, SubsetRows_check_eq, if_pos hr, hout]

theorem failsExactlyWhen_of_selection (newCol : String → List cell → Except Err column)
    (f : DataFrame) (sel : List Int) (cond : Prop) (hwf : RowsWellFormed f)
    (hnew : ∀ c ∈ f.columns, ∃ col, newCol c.colName [] = .ok col ∧ col.cells = [])
    (hr : ∀ x ∈ sel, 0 ≤ x ∧ x < f.nRows) (hcond : sel = [] ↔ cond) :
    FailsExactlyWhen (SubsetRows newCol f (.ints sel)) cond := by
  obtain ⟨h1, h2⟩ := SubsetRows_ints_outcome newCol f sel hwf hnew hr
  by_cases hs : sel = []
  · rw [h1 hs]
    refine ⟨fun e he => ?_, ⟨fun _ => hcond.mp hs, fun _ => ⟨_, rfl⟩⟩, fun r hr' => ?_⟩
    · simp only [Except.error.injEq] at he
      exact he.symm
    · exact absurd hr' (by simp)
  · obtain ⟨out, hout, _⟩ := h2 hs
    rw [hout]
    refine ⟨fun e he => absurd he (by simp), ⟨fun h => ?_, fun h => absurd (hcond.mpr h) hs⟩,
      fun r hr' => ?_⟩
    · obtain ⟨e, he⟩ := h
      exact absurd he (by simp)
    · simp only [Except.ok.injEq] at hr'
      rw [← hr']
      have : 0 < sel.length := List.length_pos.mpr hs
      simp only
      omega

/-- C20: on a frame whose columns all have `nRows` cells, with a `newCol` that builds
an empty column from no elements for every column name of the frame, and whatever
the order in which the map is visited: every row index the four views pass to
`SubsetRows` is in range; each view fails only with the empty-subset error and
returns no frame without rows; `Unique` fails exactly when no signature occurs
exactly once, `Duplicated` and `RemoveUnique` exactly when no signature occurs more
than once, and `RemoveDuplicated` exactly when the frame has no rows. -/
theorem dedup_views_fail (newCol : String → List cell → Except Err column)
    (visit : List (String × u) → List (String × u)) (f : DataFrame)
    (hwf : RowsWellFormed f) (hvisit : ∀ m, (visit m).Perm m)
    (hnew : ∀ c ∈ f.columns, ∃ col, newCol c.colName [] = .ok col ∧ col.cells = []) :
    (∃ su sd sru srd, Unique.selection visit f = .ok su ∧ Duplicated.selection visit f = .ok sd ∧
      RemoveUnique.selection visit f = .ok sru ∧ RemoveDuplicated.selection visit f = .ok srd ∧
      ∀ x, x ∈ su ∨ x ∈ sd ∨ x ∈ sru ∨ x ∈ srd → 0 ≤ x ∧ x < f.nRows) ∧
    FailsExactlyWhen (Unique newCol visit f) (¬ ∃ i, i < f.nRows.toNat ∧ occurrences f i = 1) ∧
    FailsExactlyWhen (Duplicated newCol visit f)
      (¬ ∃ i, i < f.nRows.toNat ∧ 2 ≤ occurrences f i) ∧
    FailsExactlyWhen (RemoveUnique newCol visit f)
      (¬ ∃ i, i < f.nRows.toNat ∧ 2 ≤ occurrences f i) ∧
    FailsExactlyWhen (RemoveDuplicated newCol visit f) (f.nRows ≤ 0) := by
  obtain ⟨su, sd, sru, srd, h1, h2, h3, h4, p1, p2, p3, p4⟩ :=
    selections_perm visit f hwf hvisit
  have range_of : ∀ (q : Nat → Bool) (x : Int), x ∈ rowsWhere f q → 0 ≤ x ∧ x < f.nRows := by
    intro q x hx
    obtain ⟨i, hi, rfl, _⟩ := (mem_rowsWhere f q x).mp hx
    omega
  have r1 : ∀ x ∈ su, 0 ≤ x ∧ x < f.nRows := fun x hx => range_of _ x (p1.mem_iff.mp hx)
  have r2 : ∀ x ∈ sd, 0 ≤ x ∧ x < f.nRows := fun x hx => range_of _ x (p2.mem_iff.mp hx)
  have r3 : ∀ x ∈ sru, 0 ≤ x ∧ x < f.nRows := fun x hx => range_of _ x (p3.mem_iff.mp hx)
  have r4 : ∀ x ∈ srd, 0 ≤ x ∧ x < f.nRows := fun x hx => range_of _ x (p4.mem_iff.mp hx)
  have nil_iff : ∀ (s : List Int) (q : Nat → Bool), s.Perm (rowsWhere f q) →
      (s = [] ↔ ¬ ∃ i, i < f.nRows.toNat ∧ q i = true) := by
    intro s q hp
    rw [List.eq_nil_iff_forall_not_mem]
    constructor
    · rintro h ⟨i, hi, hq⟩
      exact h (i : Int) (hp.mem_iff.mpr ((mem_rowsWhere f q _).mpr ⟨i, hi, rfl, hq⟩))
    · intro h x hx
      obtain ⟨i, hi, _, hq⟩ := (mem_rowsWhere f q x).mp (hp.mem_iff.mp hx)
      exact h ⟨i, hi, hq⟩
  have c1 : su = [] ↔ ¬ ∃ i, i < f.nRows.toNat ∧ occurrences f i = 1 := by
    rw [nil_iff su _ p1]; simp only [decide_eq_true_eq]
  have c3 : sru = [] ↔ ¬ ∃ i, i < f.nRows.toNat ∧ 2 ≤ occurrences f i := by
    rw [nil_iff sru _ p3]; simp only [decide_eq_true_eq]
  have c2 : sd = [] ↔ ¬ ∃ i, i < f.nRows.toNat ∧ 2 ≤ occurrences f i := by
    rw [nil_iff sd _ p2]
    simp only [Bool.and_eq_true, decide_eq_true_eq]
    constructor
    · rintro h ⟨i, hi, htwo⟩
      -- the smallest row carrying the signature of row `i` is selected
      have hex : ∃ j, j ≤ i ∧ specSignature f j = specSignature f i := ⟨i, le_refl i, rfl⟩
      classical
      let j := Nat.find hex
      have hj : j ≤ i ∧ specSignature f j = specSignature f i := Nat.find_spec hex
      have hmin : ∀ k, k < j → ¬ (k ≤ i ∧ specSignature f k = specSignature f i) :=
        fun k hk => Nat.find_min hex hk
      apply h
      refine ⟨j, by omega, ?_, ?_⟩
      · have : occurrences f j = occurrences f i := by
          unfold occurrences
          rw [hj.2]
        omega
      · rw [isFirst_iff]
        intro k hk hsig
        exact hmin k hk ⟨by omega, hsig.trans hj.2⟩
    · rintro h ⟨i, hi, htwo, _⟩
      exact h ⟨i, hi, htwo⟩
  have c4 : srd = [] ↔ f.nRows ≤ 0 := by
    rw [nil_iff srd _ p4]
    constructor
    · intro h
      by_contra hpos
      exact h ⟨0, by omega, by simp [isFirst]⟩
    · rintro h ⟨i, hi, _⟩
      omega
  refine ⟨⟨su, sd, sru, srd, h1, h2, h3, h4, ?_⟩, ?_, ?_, ?_, ?_⟩
  · rintro x (hx | hx | hx | hx)
    · exact r1 x hx
    · exact r2 x hx
    · exact r3 x hx
    · exact r4 x hx
  · have : Unique newCol visit f = SubsetRows newCol f (.ints su) := by
      simp only [Unique, h1]
    rw [this]
    exact failsExactlyWhen_of_selection newCol f su _ hwf hnew r1 c1
  · have : Duplicated newCol visit f = SubsetRows newCol f (.ints sd) := by
      simp only [Duplicated, h2]
    rw [this]
    exact failsExactlyWhen_of_selection newCol f sd _ hwf hnew r2 c2
  · have : RemoveUnique newCol visit f = SubsetRows newCol f (.ints sru) := by
      simp only [RemoveUnique, h3]
    rw [this]
    exact failsExactlyWhen_of_selection newCol f sru _ hwf hnew r3 c3
  · have : RemoveDuplicated newCol visit f = SubsetRows newCol f (.ints srd) := by
      simp only [RemoveDuplicated, h4]
    rw [this]
    exact failsExactlyWhen_of_selection newCol f srd _ hwf hnew r4 c4


/-- C20, at the scenario frame with the map visited in reverse order; on the
one-column frame of four distinct rows `Duplicated` fails with the empty-subset
error. -/
theorem dedup_views_fail_witness :
    RowsWellFormed scenario ∧ (∀ m : List (String × u), (List.reverse m).Perm m) ∧
    (∀ c ∈ scenario.columns,
      ∃ col, newColModel (fun _ => "") c.colName [] = .ok col ∧ col.cells = []) ∧
    FailsExactlyWhen (RemoveDuplicated (newColModel (fun _ => "")) List.reverse scenario)
      (scenario.nRows ≤ 0) ∧
    FailsExactlyWhen (Duplicated (newColModel (fun _ => "")) List.reverse scenario)
      (¬ ∃ i, i < scenario.nRows.toNat ∧ 2 ≤ occurrences scenario i) ∧
    Duplicated (newColModel (fun _ => "")) List.reverse extra = .error (.error "Empty subset") :=
  have hnew : ∀ c ∈ scenario.columns,
      ∃ col, newColModel (fun _ => "") c.colName [] = .ok col ∧ col.cells = [] := by
    intro c hc
    simp only [scenario, List.mem_cons, List.mem_singleton, List.not_mem_nil, or_false] at hc
    rcases hc with rfl | rfl <;> exact ⟨_, rfl, rfl⟩
  have h := dedup_views_fail (newColModel (fun _ => "")) List.reverse scenario (by decide)
    (fun m => List.reverse_perm m) hnew
  ⟨by decide, fun m => List.reverse_perm m, hnew, h.2.2.2.2, h.2.2.1, by rfl⟩


theorem sum_excess_add_length (D : List String) (c : String → Nat) (hc : ∀ s ∈ D, 1 ≤ c s) :
    ((D.filter (fun s => decide (2 ≤ c s))).map (fun s => c s - 1)).sum + D.length =
      (D.map c).sum := by
  induction D with
  | nil => simp
  | cons s rest ih =>
    have h1 := hc s (by simp)
    have ih' := ih (fun t ht => hc t (List.mem_cons_of_mem _ ht))
    by_cases h2 : 2 ≤ c s
    · rw [List.filter_cons_of_pos (by simpa using h2)]
      simp only [List.map_cons, List.sum_cons, List.length_cons]
      omega
    · rw [List.filter_cons_of_neg (by simpa using h2)]
      simp only [List.map_cons, List.sum_cons, List.length_cons]
      omega

theorem dedup_length_add_excess (l : List String) :
    l.dedup.length +
      ((l.dedup.filter (fun s => decide (2 ≤ l.count s))).map (fun s => l.count s - 1)).sum =
      l.length := by
  have h := sum_excess_add_length l.dedup (fun s => l.count s)
    (fun s hs => List.count_pos_iff.mpr (List.mem_dedup.mp hs))
  have h2 := List.sum_map_count_dedup_eq_length l
  simp only at h
  omega

theorem Grouped.keys_perm_dedup {g : Nat → String} {n : Nat} {m : List (String × u)}
    (h : Grouped g (List.range n) m) :
    (m.map Prod.fst).Perm ((List.range n).map g).dedup := by
  refine (List.perm_ext_iff_of_nodup h.1 (List.nodup_dedup _)).mpr ?_
  intro s
  constructor
  · intro hs
    obtain ⟨p, hp, rfl⟩ := List.mem_map.mp hs
    obtain ⟨i, hi, _, hgi, _⟩ := h.firstRow_spec hp
    exact List.mem_dedup.mpr (List.mem_map.mpr ⟨i, List.mem_range.mpr hi, hgi⟩)
  · intro hs
    obtain ⟨i, hi, rfl⟩ := List.mem_map.mp (List.mem_dedup.mp hs)
    exact h.2.2 i hi

theorem specSignature_of_rows (sel : List Int) (a : Nat) (va : Int) (ha : sel[a]? = some va)
    (cols out : List column)
    (hall : List.Forall₂
      (fun cf cr => List.Forall₂ (fun v c => index cf.cells v = .ok c) sel cr.cells) cols out)
    (htags : out.map (fun c => c.colType) = cols.map (fun c => c.colType)) :
    (out.map (fun c => c.colType ++ rendered c a)).foldr (fun s t => s ++ t) "" =
      (cols.map (fun c => c.colType ++ rendered c va.toNat)).foldr (fun s t => s ++ t) "" := by
  induction hall with
  | nil => rfl
  | @cons cf cr cols' out' hhead _ ih =>
    simp only [List.map_cons, List.cons.injEq] at htags
    obtain ⟨c, hc, hvc⟩ := forall2_getElem hhead a va ha
    rw [index_ok_iff] at hvc
    have hr : rendered cr a = rendered cf va.toNat := by
      simp only [rendered, hc, hvc.2]
    simp only [List.map_cons, List.foldr_cons, htags.1, hr, ih htags.2]


/-- C12, amended: on a frame whose columns all have `nRows` cells, with a `newCol`
that builds an empty column from no elements, when `RemoveDuplicated` returns the
frame `d`: the rows of `d` are the rows `sel[0], sel[1], ...` of `f` cell by cell, for
the in-range selection `sel`; two different rows of `d` come from rows of `f` with
different signatures, and they differ in the rendered string of the cell of some
column of `d`; and `d.nRows` plus the sum, over the signatures occurring more than once
in `f`, of the occurrences minus one is `f.nRows`. -/
theorem RemoveDuplicated_rows (newCol : String → List cell → Except Err column)
    (visit : List (String × u) → List (String × u)) (f d : DataFrame)
    (hwf : RowsWellFormed f) (hvisit : ∀ m, (visit m).Perm m)
    (hnew : ∀ c ∈ f.columns, ∃ col, newCol c.colName [] = .ok col ∧ col.cells = [])
    (h : RemoveDuplicated newCol visit f = .ok d) :
    ∃ sel, RemoveDuplicated.selection visit f = .ok sel ∧ d.nRows = sel.length ∧
      (∀ x ∈ sel, 0 ≤ x ∧ x < f.nRows) ∧
      d.columns.length = f.columns.length ∧
      (∀ (j i : Nat) (cf : column) (v : Int), f.columns[j]? = some cf → sel[i]? = some v →
        ∃ cr c, d.columns[j]? = some cr ∧ cr.cells.length = sel.length ∧
          index cf.cells v = .ok c ∧ index cr.cells i = .ok c) ∧
      (∀ (a b : Nat) (va vb : Int), sel[a]? = some va → sel[b]? = some vb → a ≠ b →
        specSignature f va.toNat ≠ specSignature f vb.toNat) ∧
      (∀ a b : Nat, a < sel.length → b < sel.length → a ≠ b →
        ∃ cr ∈ d.columns, rendered cr a ≠ rendered cr b) ∧
      d.nRows + (repeatedExcess f : Int) = f.nRows := by
  obtain ⟨es, hg, _, _, _, hsel⟩ := selections_eq visit f hwf hvisit
  have hmem := hg.mem_firstRows
  have hr : ∀ x ∈ es.map firstRow, 0 ≤ x ∧ x < f.nRows := by
    intro x hx
    obtain ⟨i, hi, rfl, _⟩ := (hmem x).mp hx
    omega
  have hview : RemoveDuplicated newCol visit f = SubsetRows newCol f (.ints (es.map firstRow)) := by
    simp only [RemoveDuplicated, hsel]
  rw [hview] at h
  obtain ⟨h1, h2⟩ := SubsetRows_ints_outcome newCol f (es.map firstRow) hwf hnew hr
  have hne : es.map firstRow ≠ [] := by
    intro hnil
    rw [h1 hnil] at h
    exact absurd h (by simp)
  obtain ⟨out, hout, hall⟩ := h2 hne
  rw [hout] at h
  simp only [Except.ok.injEq] at h
  subst h
  have hdistinct : ∀ (a b : Nat) (va vb : Int), (es.map firstRow)[a]? = some va →
      (es.map firstRow)[b]? = some vb → a ≠ b →
      specSignature f va.toNat ≠ specSignature f vb.toNat := by
    intro a b va vb ha hb hab hsig
    obtain ⟨i, _, hvi, hfi⟩ := (hmem va).mp (List.getElem?_mem ha)
    obtain ⟨j, _, hvj, hfj⟩ := (hmem vb).mp (List.getElem?_mem hb)
    subst hvi hvj
    simp only [Int.toNat_ofNat] at hsig
    have hij : i = j := first_unique (specSignature f) i j hsig hfi hfj
    subst hij
    exact hab (nodup_getElem_inj _ hg.nodup_firstRows a b _ ha hb)
  refine ⟨es.map firstRow, hsel, rfl, hr, hall.length_eq.symm, ?_, hdistinct, ?_, ?_⟩
  · intro j i cf v hj hi
    obtain ⟨cr, hcr, hcells⟩ := forall2_getElem hall j cf hj
    obtain ⟨c, hc, hvc⟩ := forall2_getElem hcells i v hi
    refine ⟨cr, c, hcr, hcells.length_eq.symm, hvc, ?_⟩
    rw [index_ok_iff]
    exact ⟨by omega, by simpa using hc⟩
  · intro a b ha hb hab
    obtain ⟨va, hva⟩ : ∃ va, (es.map firstRow)[a]? = some va :=
      ⟨_, List.getElem?_eq_getElem ha⟩
    obtain ⟨vb, hvb⟩ : ∃ vb, (es.map firstRow)[b]? = some vb :=
      ⟨_, List.getElem?_eq_getElem hb⟩
    have hsig := hdistinct a b va vb hva hvb hab
    by_contra hcon
    apply hsig
    unfold specSignature
    congr 1
    apply List.map_congr_left
    intro cf hcf
    obtain ⟨j, hj⟩ := List.mem_iff_getElem?.mp hcf
    obtain ⟨cr, hcr, hcells⟩ := forall2_getElem hall j cf hj
    obtain ⟨ca, hca, hvca⟩ := forall2_getElem hcells a va hva
    obtain ⟨cb, hcb, hvcb⟩ := forall2_getElem hcells b vb hvb
    rw [index_ok_iff] at hvca hvcb
    have hra : rendered cr a = rendered cf va.toNat := by
      simp only [rendered, hca, hvca.2]
    have hrb : rendered cr b = rendered cf vb.toNat := by
      simp only [rendered, hcb, hvcb.2]
    have heq : rendered cr a = rendered cr b := by
      by_contra hne
      exact hcon ⟨cr, List.getElem?_mem hcr, hne⟩
    rw [← hra, ← hrb, heq]
  · have hlen : (es.map firstRow).length = (signatures f).dedup.length := by
      rw [List.length_map, ← List.length_map es Prod.fst]
      exact hg.keys_perm_dedup.length_eq
    have hcount := dedup_length_add_excess (signatures f)
    have hn : (signatures f).length = f.nRows.toNat := by simp [signatures]
    have hpos : 0 < (es.map firstRow).length := List.length_pos.mpr hne
    have hnpos : 0 < f.nRows.toNat := by
      rw [← hn, ← hcount]
      omega
    simp only [repeatedExcess]
    rw [hlen]
    omega

/-- C12 amended, at the scenario frame: three rows are kept and one signature occurs
twice. -/
theorem RemoveDuplicated_rows_witness :
    RowsWellFormed scenario ∧ (∀ m : List (String × u), (List.reverse m).Perm m) ∧
    (∀ c ∈ scenario.columns,
      ∃ col, newColModel (fun _ => "") c.colName [] = .ok col ∧ col.cells = []) ∧
    ∃ d, RemoveDuplicated (newColModel (fun _ => "")) List.reverse scenario = .ok d ∧
      d.nRows = 3 ∧ repeatedExcess scenario = 1 ∧
      d.nRows + (repeatedExcess scenario : Int) = scenario.nRows :=
  have hnew : ∀ c ∈ scenario.columns,
      ∃ col, newColModel (fun _ => "") c.colName [] = .ok col ∧ col.cells = [] := by
    intro c hc
    simp only [scenario, List.mem_cons, List.mem_singleton, List.not_mem_nil, or_false] at hc
    rcases hc with rfl | rfl <;> exact ⟨_, rfl, rfl⟩
  have hrun : RemoveDuplicated (newColModel (fun _ => "")) List.reverse scenario = .ok _ := by
    rfl
  have h := RemoveDuplicated_rows (newColModel (fun _ => "")) List.reverse scenario _
    (by decide) (fun m => List.reverse_perm m) hnew hrun
  ⟨by decide, fun m => List.reverse_perm m, hnew, _, hrun, by rfl, by decide,
    h.elim (fun _ hs => hs.2.2.2.2.2.2.2)⟩

theorem specSignature_congr (f : DataFrame) (i j : Nat)
    (h : ∀ c ∈ f.columns, rendered c i = rendered c j) :
    specSignature f i = specSignature f j := by
  unfold specSignature
  congr 1
  apply List.map_congr_left
  intro c hc
  rw [h c hc]

/-- Whatever the type tags `t1` and `t2`, the rows `("x", "y" ++ t2 ++ "z")` and
`("x" ++ t2 ++ "y", "z")` of a two-column frame get the same signature. -/
theorem specSignature_collision (t1 t2 n1 n2 : String) (w1 w2 : Int) :
    specSignature
        { columns := [ { cells := [⟨none, "x"⟩, ⟨none, "x" ++ t2 ++ "y"⟩], colType := t1,
                         colName := n1, numChars := w1 },
                       { cells := [⟨none, "y" ++ t2 ++ "z"⟩, ⟨none, "z"⟩], colType := t2,
                         colName := n2, numChars := w2 } ],
          colNames := [n1, n2], colTypes := [t1, t2], nCols := 2, nRows := 2 } 0 =
      specSignature
        { columns := [ { cells := [⟨none, "x"⟩, ⟨none, "x" ++ t2 ++ "y"⟩], colType := t1,
                         colName := n1, numChars := w1 },
                       { cells := [⟨none, "y" ++ t2 ++ "z"⟩, ⟨none, "z"⟩], colType := t2,
                         colName := n2, numChars := w2 } ],
          colNames := [n1, n2], colTypes := [t1, t2], nCols := 2, nRows := 2 } 1 := by
  simp [specSignature, rendered, String.append_assoc]

/-- C14 fails on the code: the two rows of the frame differ in both cells and get the
same signature, so `uniqueRowsMap` puts them in one entry, `RemoveDuplicated` keeps
row 0 only and `Unique` selects no row. -/
theorem signature_merges_distinct_rows :
    WellFormed colliding ∧
    rowSignature 0 "" colliding.columns = .ok "StringxStringyStringz" ∧
    rowSignature 1 "" colliding.columns = .ok "StringxStringyStringz" ∧
    (∀ c ∈ colliding.columns, rendered c 0 ≠ rendered c 1) ∧
    uniqueRowsMap colliding =
      .ok [("StringxStringyStringz", { unique := false, appears := [0, 1] })] ∧
    RemoveDuplicated.selection id colliding = .ok [0] ∧
    Unique.selection id colliding = .ok [] := by
  refine ⟨by decide, by rfl, by rfl, by decide, by rfl, by rfl, by rfl⟩

/-! ## `Subset`: the two orders of range selections -/

theorem slice_eq_between {α : Type} (xs : List α) (lo hi : Int) (h0 : 0 ≤ lo) (h1 : lo ≤ hi)
    (h2 : hi ≤ (xs.length : Int)) : slice xs lo hi = .ok (between xs lo hi) := by
  unfold slice between
  rw [if_neg (by omega)]

theorem SubsetColumns_range_invalid (f : DataFrame) (a b : Int)
    (h : ¬ (0 ≤ a ∧ a < b ∧ b ≤ f.nCols)) :
    ∃ msg, SubsetColumns f (.R a b) = .error (.error msg) := by
  unfold SubsetColumns
  simp only
  by_cases hgt : a > b
  · exact ⟨_, by rw [if_pos hgt]⟩
  · rw [if_neg hgt]
    by_cases heq : a = b
    · exact ⟨_, by rw [if_pos heq]⟩
    · rw [if_neg heq]
      have hout : b > f.nCols ∨ b < 0 ∨ a < 0 := by omega
      exact ⟨_, by rw [if_pos hout]⟩

theorem SubsetColumns_range_valid (f : DataFrame) (a b : Int)
    (h1 : f.nCols = f.columns.length) (h2 : f.nCols = f.colNames.length)
    (h3 : f.nCols = f.colTypes.length) (h : 0 ≤ a ∧ a < b ∧ b ≤ f.nCols) :
    SubsetColumns f (.R a b) =
      .ok { columns := between f.columns a b, colNames := between f.colNames a b,
            colTypes := between f.colTypes a b, nCols := (between f.colNames a b).length,
            nRows := f.nRows } := by
  unfold SubsetColumns
  simp only
  rw [if_neg (by omega), if_neg (by omega), if_neg (by omega),
    slice_eq_between _ a b (by omega) (by omega) (by omega),
    slice_eq_between _ a b (by omega) (by omega) (by omega),
    slice_eq_between _ a b (by omega) (by omega) (by omega)]

theorem SubsetRows_range_invalid (newCol : String → List cell → Except Err column)
    (f : DataFrame) (c d : Int) (h : ¬ (0 ≤ c ∧ c < d ∧ d ≤ f.nRows)) :
    ∃ msg, SubsetRows newCol f (.R c d) = .error (.error msg) := by
  unfold SubsetRows
  simp only
  by_cases hgt : c > d
  · exact ⟨_, by rw [if_pos hgt]⟩
  · rw [if_neg hgt]
    by_cases heq : c = d
    · exact ⟨_, by rw [if_pos heq]⟩
    · rw [if_neg heq]
      have hout : d > f.nRows ∨ d < 0 ∨ c < 0 := by omega
      exact ⟨_, by rw [if_pos hout]⟩

theorem SubsetRows_range_valid (newCol : String → List cell → Except Err column)
    (f : DataFrame) (c d : Int) (h : 0 ≤ c ∧ c < d ∧ d ≤ f.nRows) :
    SubsetRows newCol f (.R c d) =
      match SubsetRows.rangeLoop newCol c d f.columns with
      | .error e => .error e
      | .ok cols =>
        .ok { columns := cols, nCols := f.nCols, colNames := f.colNames,
              colTypes := f.colTypes, nRows := d - c } := by
  unfold SubsetRows
  simp only
  rw [if_neg (by omega), if_neg (by omega), if_neg (by omega)]

theorem rangeLoop_cons_ok (newCol : String → List cell → Except Err column) (c d : Int)
    (v : column) (rest out : List column) :
    SubsetRows.rangeLoop newCol c d (v :: rest) = .ok out ↔
      ∃ cs col out', slice v.cells c d = .ok cs ∧ newCol v.colName cs = .ok col ∧
        SubsetRows.rangeLoop newCol c d rest = .ok out' ∧ out = col :: out' := by
  constructor
  · intro h
    unfold SubsetRows.rangeLoop at h
    cases hs : slice v.cells c d with
    | error e => rw [hs] at h; exact absurd h (by simp)
    | ok cs =>
      rw [hs] at h
      simp only at h
      cases hn : newCol v.colName cs with
      | error e => rw [hn] at h; exact absurd h (by simp)
      | ok col =>
        rw [hn] at h
        simp only at h
        cases hr : SubsetRows.rangeLoop newCol c d rest with
        | error e => rw [hr] at h; exact absurd h (by simp)
        | ok out' =>
          rw [hr] at h
          simp only [Except.ok.injEq] at h
          exact ⟨cs, col, out', rfl, hn, rfl, h.symm⟩
  · rintro ⟨cs, col, out', hs, hn, hr, rfl⟩
    unfold SubsetRows.rangeLoop
    simp only [hs, hn, hr]

theorem rangeLoop_length (newCol : String → List cell → Except Err column) (c d : Int)
    (cols : List column) :
    ∀ out, SubsetRows.rangeLoop newCol c d cols = .ok out → out.length = cols.length := by
  induction cols with
  | nil => intro out h; simp only [SubsetRows.rangeLoop, Except.ok.injEq] at h; rw [← h]
  | cons v rest ih =>
    intro out h
    obtain ⟨cs, col, out', _, _, hr, rfl⟩ := (rangeLoop_cons_ok newCol c d v rest out).mp h
    simp [ih out' hr]

theorem rangeLoop_drop (newCol : String → List cell → Except Err column) (c d : Int)
    (cols : List column) :
    ∀ (k : Nat) (out : List column), SubsetRows.rangeLoop newCol c d cols = .ok out →
      SubsetRows.rangeLoop newCol c d (cols.drop k) = .ok (out.drop k) := by
  induction cols with
  | nil =>
    intro k out h
    simp only [SubsetRows.rangeLoop, Except.ok.injEq] at h
    subst h
    simp [SubsetRows.rangeLoop]
  | cons v rest ih =>
    intro k out h
    cases k with
    | zero => simpa using h
    | succ k' =>
      obtain ⟨cs, col, out', _, _, hr, rfl⟩ := (rangeLoop_cons_ok newCol c d v rest out).mp h
      simpa using ih k' out' hr

theorem rangeLoop_take (newCol : String → List cell → Except Err column) (c d : Int)
    (cols : List column) :
    ∀ (k : Nat) (out : List column), SubsetRows.rangeLoop newCol c d cols = .ok out →
      SubsetRows.rangeLoop newCol c d (cols.take k) = .ok (out.take k) := by
  induction cols with
  | nil =>
    intro k out h
    simp only [SubsetRows.rangeLoop, Except.ok.injEq] at h
    subst h
    simp [SubsetRows.rangeLoop]
  | cons v rest ih =>
    intro k out h
    cases k with
    | zero => simp [SubsetRows.rangeLoop]
    | succ k' =>
      obtain ⟨cs, col, out', hs, hn, hr, rfl⟩ := (rangeLoop_cons_ok newCol c d v rest out).mp h
      simp only [List.take_succ_cons]
      exact (rangeLoop_cons_ok newCol c d v _ _).mpr ⟨cs, col, _, hs, hn, ih k' out' hr, rfl⟩

theorem rangeLoop_between (newCol : String → List cell → Except Err column) (c d a b : Int)
    (cols out : List column) (h : SubsetRows.rangeLoop newCol c d cols = .ok out) :
    SubsetRows.rangeLoop newCol c d (between cols a b) = .ok (between out a b) := by
  unfold between
  exact rangeLoop_take newCol c d _ _ _ (rangeLoop_drop newCol c d cols _ out h)

theorem rangeLoop_succeeds (newCol : String → List cell → Except Err column)
    (c d n : Int) (h0 : 0 ≤ c) (h1 : c ≤ d) (h2 : d ≤ n) (cols : List column)
    (hwf : ∀ v ∈ cols, (v.cells.length : Int) = n)
    (hnew : ∀ v ∈ cols, ∀ cs, slice v.cells c d = .ok cs → ∃ col, newCol v.colName cs = .ok col) :
    ∃ out, SubsetRows.rangeLoop newCol c d cols = .ok out := by
  induction cols with
  | nil => exact ⟨[], by simp [SubsetRows.rangeLoop]⟩
  | cons v rest ih =>
    have hs := slice_eq_between v.cells c d h0 h1 (by rw [hwf v (by simp)]; exact h2)
    obtain ⟨col, hcol⟩ := hnew v (by simp) _ hs
    obtain ⟨out, hout⟩ := ih (fun w hw => hwf w (List.mem_cons_of_mem _ hw))
      (fun w hw => hnew w (List.mem_cons_of_mem _ hw))
    exact ⟨col :: out, (rangeLoop_cons_ok newCol c d v rest _).mpr ⟨_, col, out, hs, hcol, hout, rfl⟩⟩


theorem Subset_ranges_eval (newCol : String → List cell → Except Err column)
    (f : DataFrame) (a b c d : Int) (hwf : WellFormed f)
    (hc : 0 ≤ a ∧ a < b ∧ b ≤ f.nCols) (hr : 0 ≤ c ∧ c < d ∧ d ≤ f.nRows) :
    DataFrame.Subset newCol f (.R a b) (.R c d) =
      match SubsetRows.rangeLoop newCol c d (between f.columns a b) with
      | .error e => .error e
      | .ok cols =>
        .ok { columns := cols, nCols := (between f.colNames a b).length,
              colNames := between f.colNames a b, colTypes := between f.colTypes a b,
              nRows := d - c } := by
  obtain ⟨h1, h2, h3, _⟩ := hwf
  unfold DataFrame.Subset
  rw [SubsetColumns_range_valid f a b h1 h2 h3 hc]
  simp only
  rw [SubsetRows_range_valid newCol
    { columns := between f.columns a b, colNames := between f.colNames a b,
      colTypes := between f.colTypes a b, nCols := (between f.colNames a b).length,
      nRows := f.nRows } c d hr]
  simp only
  cases SubsetRows.rangeLoop newCol c d (between f.columns a b) <;> rfl

theorem rowsThenColumns_ranges_eval (newCol : String → List cell → Except Err column)
    (f : DataFrame) (a b c d : Int) (hwf : WellFormed f)
    (hc : 0 ≤ a ∧ a < b ∧ b ≤ f.nCols) (hr : 0 ≤ c ∧ c < d ∧ d ≤ f.nRows) :
    rowsThenColumns newCol f (.R a b) (.R c d) =
      match SubsetRows.rangeLoop newCol c d f.columns with
      | .error e => .error e
      | .ok cols =>
        .ok { columns := between cols a b, nCols := (between f.colNames a b).length,
              colNames := between f.colNames a b, colTypes := between f.colTypes a b,
              nRows := d - c } := by
  obtain ⟨h1, h2, h3, _⟩ := hwf
  unfold rowsThenColumns
  rw [SubsetRows_range_valid newCol f c d hr]
  cases hloop : SubsetRows.rangeLoop newCol c d f.columns with
  | error e => rfl
  | ok cols =>
    simp only
    have hlen := rangeLoop_length newCol c d f.columns cols hloop
    rw [SubsetColumns_range_valid
      { columns := cols, nCols := f.nCols, colNames := f.colNames, colTypes := f.colTypes,
        nRows := d - c } a b (by simp only; omega) h2 h3 hc]

/-- C16: on a well-formed frame and for all ranges of columns and of rows,
`Subset` (columns, then rows) and the other order (rows, then columns) return the
same frame whenever both return one; and when `newCol` rebuilds every column of the
frame from its slice of rows, one order fails exactly when the other fails, which is
when one of the two ranges is not valid. -/
theorem subset_ranges_commute (newCol : String → List cell → Except Err column)
    (f : DataFrame) (a b c d : Int) (hwf : WellFormed f) :
    (∀ r1 r2, DataFrame.Subset newCol f (.R a b) (.R c d) = .ok r1 →
      rowsThenColumns newCol f (.R a b) (.R c d) = .ok r2 → r1 = r2) ∧
    ((∀ v ∈ f.columns, ∀ cs, slice v.cells c d = .ok cs →
        ∃ col, newCol v.colName cs = .ok col) →
      ((∃ e, DataFrame.Subset newCol f (.R a b) (.R c d) = .error e) ↔
        (∃ e, rowsThenColumns newCol f (.R a b) (.R c d) = .error e)) ∧
      ((∃ e, DataFrame.Subset newCol f (.R a b) (.R c d) = .error e) ↔
        ¬ ((0 ≤ a ∧ a < b ∧ b ≤ f.nCols) ∧ (0 ≤ c ∧ c < d ∧ d ≤ f.nRows)))) := by
  have hfail1 : ¬ ((0 ≤ a ∧ a < b ∧ b ≤ f.nCols) ∧ (0 ≤ c ∧ c < d ∧ d ≤ f.nRows)) →
      ∃ e, DataFrame.Subset newCol f (.R a b) (.R c d) = .error e := by
    intro h
    unfold DataFrame.Subset
    by_cases hc : 0 ≤ a ∧ a < b ∧ b ≤ f.nCols
    · rw [SubsetColumns_range_valid f a b hwf.1 hwf.2.1 hwf.2.2.1 hc]
      simp only
      have hr : ¬ (0 ≤ c ∧ c < d ∧ d ≤ f.nRows) := fun hr => h ⟨hc, hr⟩
      obtain ⟨msg, hmsg⟩ := SubsetRows_range_invalid newCol
        { columns := between f.columns a b, colNames := between f.colNames a b,
          colTypes := between f.colTypes a b, nCols := (between f.colNames a b).length,
          nRows := f.nRows } c d hr
      rw [hmsg]
      exact ⟨_, rfl⟩
    · obtain ⟨msg, hmsg⟩ := SubsetColumns_range_invalid f a b hc
      rw [hmsg]
      exact ⟨_, rfl⟩
  have hfail2 : ¬ ((0 ≤ a ∧ a < b ∧ b ≤ f.nCols) ∧ (0 ≤ c ∧ c < d ∧ d ≤ f.nRows)) →
      ∃ e, rowsThenColumns newCol f (.R a b) (.R c d) = .error e := by
    intro h
    unfold rowsThenColumns
    by_cases hr : 0 ≤ c ∧ c < d ∧ d ≤ f.nRows
    · rw [SubsetRows_range_valid newCol f c d hr]
      have hc : ¬ (0 ≤ a ∧ a < b ∧ b ≤ f.nCols) := fun hc => h ⟨hc, hr⟩
      cases hloop : SubsetRows.rangeLoop newCol c d f.columns with
      | error e => exact ⟨_, rfl⟩
      | ok cols =>
        simp only
        obtain ⟨msg, hmsg⟩ := SubsetColumns_range_invalid
          { columns := cols, nCols := f.nCols, colNames := f.colNames,
            colTypes := f.colTypes, nRows := d - c } a b hc
        exact ⟨_, hmsg⟩
    · obtain ⟨msg, hmsg⟩ := SubsetRows_range_invalid newCol f c d hr
      rw [hmsg]
      exact ⟨_, rfl⟩
  constructor
  · intro r1 r2 e1 e2
    by_cases hv : (0 ≤ a ∧ a < b ∧ b ≤ f.nCols) ∧ (0 ≤ c ∧ c < d ∧ d ≤ f.nRows)
    · rw [Subset_ranges_eval newCol f a b c d hwf hv.1 hv.2] at e1
      rw [rowsThenColumns_ranges_eval newCol f a b c d hwf hv.1 hv.2] at e2
      cases hloop : SubsetRows.rangeLoop newCol c d f.columns with
      | error e => rw [hloop] at e2; exact absurd e2 (by simp)
      | ok cols =>
        rw [hloop] at e2
        rw [rangeLoop_between newCol c d a b f.columns cols hloop] at e1
        simp only [Except.ok.injEq] at e1 e2
        rw [← e1, ← e2]
    · obtain ⟨e, he⟩ := hfail1 hv
      rw [he] at e1
      exact absurd e1 (by simp)
  · intro hnew
    have hok : ((0 ≤ a ∧ a < b ∧ b ≤ f.nCols) ∧ (0 ≤ c ∧ c < d ∧ d ≤ f.nRows)) →
        (∃ r, DataFrame.Subset newCol f (.R a b) (.R c d) = .ok r) ∧
        (∃ r, rowsThenColumns newCol f (.R a b) (.R c d) = .ok r) := by
      intro hv
      obtain ⟨out, hout⟩ := rangeLoop_succeeds newCol c d f.nRows hv.2.1 (le_of_lt hv.2.2.1)
        hv.2.2.2 f.columns hwf.2.2.2 hnew
      rw [Subset_ranges_eval newCol f a b c d hwf hv.1 hv.2,
        rowsThenColumns_ranges_eval newCol f a b c d hwf hv.1 hv.2,
        rangeLoop_between newCol c d a b f.columns out hout, hout]
      exact ⟨⟨_, rfl⟩, ⟨_, rfl⟩⟩
    constructor
    · constructor
      · rintro ⟨e, he⟩
        by_cases hv : (0 ≤ a ∧ a < b ∧ b ≤ f.nCols) ∧ (0 ≤ c ∧ c < d ∧ d ≤ f.nRows)
        · obtain ⟨⟨r, hr⟩, _⟩ := hok hv
          rw [hr] at he
          exact absurd he (by simp)
        · exact hfail2 hv
      · rintro ⟨e, he⟩
        by_cases hv : (0 ≤ a ∧ a < b ∧ b ≤ f.nCols) ∧ (0 ≤ c ∧ c < d ∧ d ≤ f.nRows)
        · obtain ⟨_, ⟨r, hr⟩⟩ := hok hv
          rw [hr] at he
          exact absurd he (by simp)
        · exact hfail1 hv
    · constructor
      · rintro ⟨e, he⟩ hv
        obtain ⟨⟨r, hr⟩, _⟩ := hok hv
        rw [hr] at he
        exact absurd he (by simp)
      · exact hfail1


/-- C16, at the scenario frame with the column range `R{1, 2}` and the row range
`R{1, 3}`; with the column range `R{1, 5}` both orders fail. -/
theorem subset_ranges_commute_witness :
    WellFormed scenario ∧
    (∀ v ∈ scenario.columns, ∀ cs, slice v.cells 1 3 = .ok cs →
      ∃ col, newColModel (fun _ => "") v.colName cs = .ok col) ∧
    (∃ r, DataFrame.Subset (newColModel (fun _ => "")) scenario (.R 1 2) (.R 1 3) = .ok r ∧
      rowsThenColumns (newColModel (fun _ => "")) scenario (.R 1 2) (.R 1 3) = .ok r) ∧
    ((∃ e, DataFrame.Subset (newColModel (fun _ => "")) scenario (.R 1 5) (.R 1 3) = .error e) ↔
      (∃ e, rowsThenColumns (newColModel (fun _ => "")) scenario (.R 1 5) (.R 1 3) = .error e)) :=
  have hnew : ∀ v ∈ scenario.columns, ∀ cs, slice v.cells 1 3 = .ok cs →
      ∃ col, newColModel (fun _ => "") v.colName cs = .ok col := by
    intro v hv cs _
    simp only [scenario, List.mem_cons, List.mem_singleton, List.not_mem_nil, or_false] at hv
    rcases hv with rfl | rfl <;> exact ⟨_, rfl⟩
  have h1 : DataFrame.Subset (newColModel (fun _ => "")) scenario (.R 1 2) (.R 1 3) = .ok _ := by
    rfl
  have h2 : rowsThenColumns (newColModel (fun _ => "")) scenario (.R 1 2) (.R 1 3) = .ok _ := by
    rfl
  have heq := (subset_ranges_commute (newColModel (fun _ => "")) scenario 1 2 1 3
    (by decide)).1 _ _ h1 h2
  ⟨by decide, hnew, ⟨_, h1, heq ▸ h2⟩,
    ((subset_ranges_commute (newColModel (fun _ => "")) scenario 1 5 1 3 (by decide)).2 hnew).1⟩

/-! ## `Cbind`, then `SubsetColumns` by names -/

theorem Cbind_eval (A B : DataFrame) (hrows : A.nRows = B.nRows)
    (hdisj : ∀ v ∈ B.colNames, v ∉ A.colNames) :
    Cbind A B =
      .ok { A with colNames := A.colNames ++ B.colNames, colTypes := A.colTypes ++ B.colTypes,
                   nCols := (A.colNames ++ B.colNames).length,
                   columns := A.columns ++ B.columns } := by
  unfold Cbind
  rw [if_neg (by simpa using hrows)]
  rcases Cbind_check_cases (Cbind.nameMap [] A.colNames) B.colNames with
    ⟨hok, _⟩ | ⟨_, v, hv, hne⟩
  · simp only [hok]
  · exfalso
    apply hne
    rw [Cbind_nameMap_get]
    exact ⟨by simp [mapGet], hdisj v hv⟩

theorem SubsetColumns_names_eval (f : DataFrame)
    (hc : f.columns.length = f.colNames.length) (ht : f.colTypes.length = f.colNames.length)
    (l : List String) (h0 : l ≠ []) (hnd : l.Nodup) (hall : ∀ v ∈ l, v ∈ f.colNames) :
    ∃ cs ts, SubsetColumns f (.strings l) =
        .ok { columns := cs, colNames := l, colTypes := ts, nCols := l.length,
              nRows := f.nRows } ∧
      List.Forall₂ (fun v c => ∃ i, firstAt f.colNames v i ∧ f.columns[i]? = some c) l cs ∧
      List.Forall₂ (fun v t => ∃ i, firstAt f.colNames v i ∧ f.colTypes[i]? = some t) l ts := by
  have h0' : ¬ l.length = 0 := fun hz => h0 (List.length_eq_zero.mp hz)
  have hd : SubsetColumns.duped [] [] l = [] := by
    rw [SubsetColumns_duped_nil_iff]
    exact ⟨List.Nodup.sublist (List.filter_sublist _) hnd, by simp⟩
  obtain ⟨cs, ts, hsel, hcs, hts⟩ := SubsetColumns_selectNames_ok f hc ht l
    { columns := [], colNames := [], colTypes := [], nCols := 0, nRows := f.nRows } hall
  refine ⟨cs, ts, ?_, hcs, hts⟩
  unfold SubsetColumns
  simp only [h0', if_false, hd, List.length_nil, ne_eq, not_true_eq_false, hsel]
  simp

theorem forall2_firstAt_segment {α : Type} (names : List String) (cols : List α)
    (hnd : names.Nodup) (l : List String) (off : Nat)
    (hseg : ∀ (p : Nat) (v : String), l[p]? = some v → names[off + p]? = some v)
    (cs : List α)
    (h : List.Forall₂ (fun v c => ∃ i, firstAt names v i ∧ cols[i]? = some c) l cs) :
    cs = (cols.drop off).take l.length := by
  apply List.ext_getElem?
  intro p
  by_cases hp : p < l.length
  · obtain ⟨c, hc, i, hfirst, hci⟩ := forall2_getElem h p l[p] (List.getElem?_eq_getElem hp)
    have hi : i = off + p :=
      nodup_getElem_inj names hnd i (off + p) _ hfirst.1
        (hseg p _ (List.getElem?_eq_getElem hp))
    rw [hc, List.getElem?_take_of_lt hp, List.getElem?_drop, ← hi, hci]
  · have hcs : cs.length = l.length := h.length_eq.symm
    rw [List.getElem?_eq_none (by omega), List.getElem?_eq_none]
    simp only [List.length_take, List.length_drop]
    omega


/-- A frame without columns is well formed, `Cbind` with the scenario frame succeeds,
and `SubsetColumns` by its (empty) list of column names returns the empty-subset
error. -/
theorem Cbind_then_subset_no_columns :
    WellFormed noColumns ∧ WellFormed scenario ∧ noColumns.colNames.Nodup ∧
    scenario.colNames.Nodup ∧ noColumns.nRows = scenario.nRows ∧
    (∀ v ∈ scenario.colNames, v ∉ noColumns.colNames) ∧
    Cbind noColumns scenario = .ok scenario ∧
    SubsetColumns scenario (.strings noColumns.colNames) = .error (.error "Empty subset") := by
  refine ⟨by decide, by decide, by decide, by decide, by decide, by decide, by rfl, by rfl⟩

/-- On frame values: for well-formed frames `A` and `B` with at least one column each,
distinct column names each, equal row counts and no column name in common, `Cbind`
succeeds with a frame `c`, `SubsetColumns` of `c` by the column names of `A` returns
`A` (its names, types and columns in its order), and by the column names of `B`
returns `B`. -/
theorem Cbind_then_subset_values (A B : DataFrame) (hA : WellFormed A) (hB : WellFormed B)
    (hnA : A.colNames.Nodup) (hnB : B.colNames.Nodup) (hrows : A.nRows = B.nRows)
    (hdisj : ∀ v ∈ B.colNames, v ∉ A.colNames) (hA0 : A.colNames ≠ [])
    (hB0 : B.colNames ≠ []) :
    ∃ c, Cbind A B = .ok c ∧ SubsetColumns c (.strings A.colNames) = .ok A ∧
      SubsetColumns c (.strings B.colNames) = .ok B := by
  obtain ⟨a1, a2, a3, _⟩ := hA
  obtain ⟨b1, b2, b3, _⟩ := hB
  have hlenA : A.columns.length = A.colNames.length := by omega
  have hlenB : B.columns.length = B.colNames.length := by omega
  have htA : A.colTypes.length = A.colNames.length := by omega
  have htB : B.colTypes.length = B.colNames.length := by omega
  have hnd : (A.colNames ++ B.colNames).Nodup :=
    List.Nodup.append hnA hnB (fun v hva hvb => hdisj v hvb hva)
  refine ⟨_, Cbind_eval A B hrows hdisj, ?_, ?_⟩
  · obtain ⟨cs, ts, hsel, hcs, hts⟩ := SubsetColumns_names_eval
      { A with colNames := A.colNames ++ B.colNames, colTypes := A.colTypes ++ B.colTypes,
               nCols := (A.colNames ++ B.colNames).length,
               columns := A.columns ++ B.columns }
      (by simp [hlenA, hlenB]) (by simp [htA, htB]) A.colNames hA0 hnA
      (fun v hv => List.mem_append_left _ hv)
    have hseg : ∀ (p : Nat) (v : String), A.colNames[p]? = some v →
        (A.colNames ++ B.colNames)[0 + p]? = some v := by
      intro p v hp
      rw [Nat.zero_add, List.getElem?_append_left (List.getElem?_eq_some_iff.mp hp).1]
      exact hp
    have e1 := forall2_firstAt_segment _ (A.columns ++ B.columns) hnd A.colNames 0 hseg cs hcs
    have e2 := forall2_firstAt_segment _ (A.colTypes ++ B.colTypes) hnd A.colNames 0 hseg ts hts
    have ec : cs = A.columns := by
      rw [e1, List.drop_zero]
      exact List.take_left' hlenA
    have et : ts = A.colTypes := by
      rw [e2, List.drop_zero]
      exact List.take_left' htA
    rw [hsel, ec, et, ← a2]
  · obtain ⟨cs, ts, hsel, hcs, hts⟩ := SubsetColumns_names_eval
      { A with colNames := A.colNames ++ B.colNames, colTypes := A.colTypes ++ B.colTypes,
               nCols := (A.colNames ++ B.colNames).length,
               columns := A.columns ++ B.columns }
      (by simp [hlenA, hlenB]) (by simp [htA, htB]) B.colNames hB0 hnB
      (fun v hv => List.mem_append_right _ hv)
    have hseg : ∀ (p : Nat) (v : String), B.colNames[p]? = some v →
        (A.colNames ++ B.colNames)[A.colNames.length + p]? = some v := by
      intro p v hp
      rw [List.getElem?_append_right (by omega)]
      simpa using hp
    have e1 := forall2_firstAt_segment _ (A.columns ++ B.columns) hnd B.colNames
      A.colNames.length hseg cs hcs
    have e2 := forall2_firstAt_segment _ (A.colTypes ++ B.colTypes) hnd B.colNames
      A.colNames.length hseg ts hts
    have d1 : (A.columns ++ B.columns).drop A.colNames.length = B.columns := by
      rw [← hlenA]; exact List.drop_left' rfl
    have d2 : (A.colTypes ++ B.colTypes).drop A.colNames.length = B.colTypes := by
      rw [← htA]; exact List.drop_left' rfl
    have t1 : B.columns.take B.colNames.length = B.columns := by
      rw [← hlenB]; exact List.take_length _
    have t2 : B.colTypes.take B.colNames.length = B.colTypes := by
      rw [← htB]; exact List.take_length _
    have ec : cs = B.columns := by rw [e1, d1, t1]
    have et : ts = B.colTypes := by rw [e2, d2, t2]
    rw [hsel, ec, et, ← b2]
    simp only [hrows]

/-! ## `Rbind` with a frame without rows -/

theorem Rbind_typeMap_ok (A : DataFrame) (l : List String) :
    ∀ (m : List (String × String)) (k : Int), 0 ≤ k →
      k + (l.length : Int) ≤ (A.colTypes.length : Int) →
      ∃ m', Rbind.typeMap A m k l = .ok m' := by
  induction l with
  | nil => intro m k _ _; exact ⟨m, by simp [Rbind.typeMap]⟩
  | cons w rest ih =>
    intro m k hk hlen
    simp only [List.length_cons, Nat.cast_add, Nat.cast_one] at hlen
    obtain ⟨t, ht, _⟩ := index_of_lt A.colTypes k hk (by omega)
    obtain ⟨m', hm'⟩ := ih (mapSet m w t) (k + 1) (by omega) (by omega)
    refine ⟨m', ?_⟩
    unfold Rbind.typeMap
    rw [ht]
    exact hm'

theorem Rbind_check_ok (B : DataFrame) (m : List (String × String)) (l : List String) :
    ∀ k : Int,
      (∀ (p : Nat) (v : String), l[p]? = some v →
        ∃ t, mapGet m v = some t ∧ index B.colTypes (k + p) = .ok t) →
      Rbind.check B m k l = .ok () := by
  induction l with
  | nil => intro k _; simp [Rbind.check]
  | cons w rest ih =>
    intro k h
    obtain ⟨t, hget, hidx⟩ := h 0 w (by simp)
    simp only [Nat.cast_zero, add_zero] at hidx
    unfold Rbind.check
    rw [hget]
    simp only
    rw [hidx]
    simp only [ne_eq, not_true_eq_false, if_false]
    apply ih
    intro p v hp
    obtain ⟨t', h1, h2⟩ := h (p + 1) v (by simpa using hp)
    refine ⟨t', h1, ?_⟩
    have : k + 1 + (p : Int) = k + ((p + 1 : Nat) : Int) := by push_cast; ring
    rw [this]; exact h2

theorem Rbind_bind_ok (colAppend : column → List cell → Except Err column)
    (A B : DataFrame) (l : List String)
    (h : ∀ v ∈ l, ∃ i j ca cb cr, findName v A.colNames 0 = some i ∧
      findName v B.colNames 0 = some j ∧ index A.columns i = .ok ca ∧
      index B.columns j = .ok cb ∧ colAppend ca cb.cells = .ok cr) :
    ∃ cols, Rbind.bind colAppend A B l = .ok cols := by
  induction l with
  | nil => exact ⟨[], by simp [Rbind.bind]⟩
  | cons v rest ih =>
    obtain ⟨i, j, ca, cb, cr, hi, hj, hca, hcb, hcr⟩ := h v (by simp)
    obtain ⟨cols, hcols⟩ := ih (fun w hw => h w (List.mem_cons_of_mem _ hw))
    refine ⟨cr :: cols, ?_⟩
    unfold Rbind.bind
    simp only [colIndex, hi, hj, hca, hcb, hcr, hcols]

theorem findName_of_nodup (names : List String) (hnd : names.Nodup) (p : Nat) (v : String)
    (hp : names[p]? = some v) : findName v names 0 = some (p : Int) := by
  obtain ⟨i, hi, hfirst⟩ := findName_of_mem v names (List.getElem?_mem hp)
  have : i = p := nodup_getElem_inj names hnd i p v hfirst.1 hp
  rw [hi, this]


/-- C17 as stated fails: the frame has two columns named `a` of types `Int` and
`String`; `Rbind` with the frame of the same names and types and no rows returns the
error of mismatching types. -/
theorem Rbind_zero_rows_twice_named :
    WellFormed twiceNamed ∧ WellFormed twiceNamedEmpty ∧ twiceNamedEmpty.nRows = 0 ∧
    twiceNamedEmpty.colNames = twiceNamed.colNames ∧
    twiceNamedEmpty.colTypes = twiceNamed.colTypes ∧
    Rbind appendModel twiceNamed twiceNamedEmpty =
      .error (.error "Mismatching column types") := by
  refine ⟨by decide, by decide, by decide, by decide, by decide, by rfl⟩

/-- C17, amended: for a well-formed frame `f` with distinct column names, whose
`nRows` is a Go `int`, and a well-formed frame `e` with no rows and the column names
and types of `f`, when `append` of no cells to a column of `f` succeeds and keeps its
cells, `Rbind(f, e)` succeeds and the result has the `nRows`, `nCols`, `colNames` and `colTypes` of `f`,
as many columns, and in every column the cells of the column of `f`. -/
theorem Rbind_zero_rows (colAppend : column → List cell → Except Err column)
    (f e : DataFrame) (hf : WellFormed f) (he : WellFormed e) (hnd : f.colNames.Nodup)
    (hint : IsInt f.nRows)
    (he0 : e.nRows = 0) (hn : e.colNames = f.colNames) (ht : e.colTypes = f.colTypes)
    (happ : ∀ col ∈ f.columns, ∃ col', colAppend col [] = .ok col' ∧ col'.cells = col.cells) :
    ∃ r, Rbind colAppend f e = .ok r ∧ r.nRows = f.nRows ∧ r.nCols = f.nCols ∧
      r.colNames = f.colNames ∧ r.colTypes = f.colTypes ∧
      r.columns.length = f.columns.length ∧
      ∀ (j : Nat) (cf : column), f.columns[j]? = some cf →
        ∃ cr, r.columns[j]? = some cr ∧ cr.cells = cf.cells := by
  obtain ⟨f1, f2, f3, _⟩ := hf
  obtain ⟨e1, e2, e3, erows⟩ := he
  have hncols : ¬ f.nCols ≠ e.nCols := by rw [hn] at e2; omega
  obtain ⟨m, hm⟩ := Rbind_typeMap_ok f f.colNames [] 0 (le_refl 0) (by omega)
  obtain ⟨_, hm2⟩ := Rbind_typeMap_spec f f.colNames [] m 0 (le_refl 0) hm hnd
  have hchk : Rbind.check e m 0 e.colNames = .ok () := by
    apply Rbind_check_ok
    intro p v hp
    rw [hn] at hp
    obtain ⟨t, hidx, hget⟩ := hm2 p v hp
    exact ⟨t, hget, by rw [ht]; exact hidx⟩
  have hcol : ∀ (p : Nat) (v : String), f.colNames[p]? = some v →
      ∃ ca cb cr, f.columns[p]? = some ca ∧ index f.columns (p : Int) = .ok ca ∧
        index e.columns (p : Int) = .ok cb ∧ colAppend ca cb.cells = .ok cr ∧
        cr.cells = ca.cells := by
    intro p v hp
    obtain ⟨ca, hca⟩ := getElem?_of_length_eq f.colNames f.columns (by omega) p v hp
    obtain ⟨cb, hcb⟩ := getElem?_of_length_eq f.colNames e.columns
      (by rw [hn] at e2; omega) p v hp
    have hcells : cb.cells = [] := by
      have := erows _ (List.getElem?_mem hcb)
      rw [he0] at this
      exact List.length_eq_zero.mp (by exact_mod_cast this)
    obtain ⟨col', hcol', hkeep⟩ := happ _ (List.getElem?_mem hca)
    exact ⟨ca, cb, col', hca, index_natCast _ _ _ hca, index_natCast _ _ _ hcb,
      by rw [hcells]; exact hcol', hkeep⟩
  obtain ⟨cols, hbind⟩ := Rbind_bind_ok colAppend f e f.colNames (by
    intro v hv
    obtain ⟨p, hp⟩ := List.mem_iff_getElem?.mp hv
    obtain ⟨ca, cb, cr, _, hca, hcb, hcr, _⟩ := hcol p v hp
    exact ⟨p, p, ca, cb, cr, findName_of_nodup _ hnd p v hp,
      by rw [hn]; exact findName_of_nodup _ hnd p v hp, hca, hcb, hcr⟩)
  have hspec := Rbind_bind_spec colAppend f e f.colNames cols hbind
  refine ⟨{ f with columns := cols, nRows := wrapInt (f.nRows + e.nRows) }, ?_,
    by simp only [he0, add_zero]; exact wrapInt_of_isInt _ hint, rfl, rfl, rfl, ?_, ?_⟩
  · unfold Rbind
    rw [if_neg hncols, hm]
    simp only [hchk, hbind]
  · simp only
    rw [← hspec.length_eq]
    omega
  · intro j cf hj
    have hjlt : j < f.colNames.length := by
      have := (List.getElem?_eq_some_iff.mp hj).1
      omega
    have hv : f.colNames[j]? = some f.colNames[j] := List.getElem?_eq_getElem hjlt
    obtain ⟨cr, hcr, i, k, ca, cb, hfi, hfk, hia, hib, hap⟩ := forall2_getElem hspec j _ hv
    obtain ⟨ca', cb', cr', hca', hia', hib', hap', hkeep⟩ := hcol j _ hv
    rw [findName_of_nodup _ hnd j _ hv] at hfi
    rw [hn, findName_of_nodup _ hnd j _ hv] at hfk
    simp only [Option.some.injEq] at hfi hfk
    subst hfi hfk
    rw [hia'] at hia
    rw [hib'] at hib
    simp only [Except.ok.injEq] at hia hib
    subst hia hib
    rw [hap'] at hap
    simp only [Except.ok.injEq] at hap
    subst hap
    rw [hca'] at hj
    simp only [Option.some.injEq] at hj
    subst hj
    exact ⟨cr', hcr, hkeep⟩

/-- C17 amended, at the scenario frame and the frame of its names and types without
rows. -/
theorem Rbind_zero_rows_witness :
    WellFormed scenario ∧
    WellFormed { columns := [ { cells := [], colType := "Int", colName := "n", numChars := 1 },
                              { cells := [], colType := "String", colName := "s", numChars := 1 } ],
                 colNames := ["n", "s"], colTypes := ["Int", "String"], nCols := 2, nRows := 0 } ∧
    scenario.colNames.Nodup ∧ IsInt scenario.nRows ∧
    (∀ col ∈ scenario.columns, ∃ col', appendModel col [] = .ok col' ∧ col'.cells = col.cells) ∧
    ∃ r, Rbind appendModel scenario
        { columns := [ { cells := [], colType := "Int", colName := "n", numChars := 1 },
                       { cells := [], colType := "String", colName := "s", numChars := 1 } ],
          colNames := ["n", "s"], colTypes := ["Int", "String"], nCols := 2, nRows := 0 } = .ok r ∧
      r.nRows = scenario.nRows ∧ r.colNames = scenario.colNames :=
  have happ : ∀ col ∈ scenario.columns,
      ∃ col', appendModel col [] = .ok col' ∧ col'.cells = col.cells := by
    intro col _
    exact ⟨_, rfl, by simp⟩
  have h := Rbind_zero_rows appendModel scenario
    { columns := [ { cells := [], colType := "Int", colName := "n", numChars := 1 },
                   { cells := [], colType := "String", colName := "s", numChars := 1 } ],
      colNames := ["n", "s"], colTypes := ["Int", "String"], nCols := 2, nRows := 0 }
    (by decide) (by decide) (by decide) (by decide) rfl rfl rfl happ
  ⟨by decide, by decide, by decide, by decide, happ,
    h.elim (fun r hr => ⟨r, hr.1, hr.2.1, hr.2.2.2.1⟩)⟩

/-! ## The frame invariant -/

theorem between_length {α : Type} (xs : List α) (a b : Int) (h0 : 0 ≤ a) (h1 : a ≤ b)
    (h2 : b ≤ (xs.length : Int)) : ((between xs a b).length : Int) = b - a := by
  unfold between
  simp only [List.length_take, List.length_drop]
  omega

theorem between_sublist {α : Type} (xs : List α) (a b : Int) : (between xs a b).Sublist xs :=
  (List.take_sublist _ _).trans (List.drop_sublist _ _)

theorem SubsetColumns_range_preserves (f r : DataFrame) (a b : Int) (hf : FrameInv f)
    (h : SubsetColumns f (.R a b) = .ok r) : FrameInv r := by
  obtain ⟨⟨h1, h2, h3, hrows⟩, hnd⟩ := hf
  by_cases hv : 0 ≤ a ∧ a < b ∧ b ≤ f.nCols
  · rw [SubsetColumns_range_valid f a b h1 h2 h3 hv] at h
    simp only [Except.ok.injEq] at h
    subst h
    refine ⟨⟨?_, rfl, ?_, ?_⟩, List.Nodup.sublist (between_sublist _ a b) hnd⟩
    · simp only
      rw [between_length _ a b (by omega) (by omega) (by omega),
        between_length _ a b (by omega) (by omega) (by omega)]
    · simp only
      rw [between_length _ a b (by omega) (by omega) (by omega),
        between_length _ a b (by omega) (by omega) (by omega)]
    · intro c hc
      exact hrows c ((between_sublist _ a b).subset hc)
  · obtain ⟨msg, hmsg⟩ := SubsetColumns_range_invalid f a b hv
    rw [hmsg] at h
    exact absurd h (by simp)

theorem Cbind_preserves (A B r : DataFrame) (hA : FrameInv A) (hB : FrameInv B)
    (h : Cbind A B = .ok r) : FrameInv r := by
  obtain ⟨⟨a1, a2, a3, arows⟩, anodup⟩ := hA
  obtain ⟨⟨b1, b2, b3, brows⟩, bnodup⟩ := hB
  by_cases hn : A.nRows ≠ B.nRows
  · simp [Cbind, hn] at h
  · have hrows : A.nRows = B.nRows := not_not.mp hn
    rcases Cbind_check_cases (Cbind.nameMap [] A.colNames) B.colNames with
      ⟨_, hall⟩ | ⟨herr, _⟩
    · have hdisj : ∀ v ∈ B.colNames, v ∉ A.colNames := by
        intro v hv
        have := (Cbind_nameMap_get A.colNames [] v).mp (hall v hv)
        exact this.2
      rw [Cbind_eval A B hrows hdisj] at h
      simp only [Except.ok.injEq] at h
      subst h
      refine ⟨⟨?_, rfl, ?_, ?_⟩, List.Nodup.append anodup bnodup
        (fun v hva hvb => hdisj v hvb hva)⟩
      · simp only [List.length_append, Nat.cast_add]
        omega
      · simp only [List.length_append, Nat.cast_add]
        omega
      · intro c hc
        simp only [List.mem_append] at hc
        rcases hc with hc | hc
        · exact arows c hc
        · simp only
          rw [hrows]
          exact brows c hc
    · unfold Cbind at h
      rw [if_neg hn, herr] at h
      exact absurd h (by simp)

theorem rangeLoop_forall2 (newCol : String → List cell → Except Err column) (c d : Int)
    (cols : List column) :
    ∀ out, SubsetRows.rangeLoop newCol c d cols = .ok out →
      List.Forall₂ (fun v col => ∃ cs, slice v.cells c d = .ok cs ∧
        newCol v.colName cs = .ok col) cols out := by
  induction cols with
  | nil =>
    intro out h
    simp only [SubsetRows.rangeLoop, Except.ok.injEq] at h
    subst h
    exact List.Forall₂.nil
  | cons v rest ih =>
    intro out h
    obtain ⟨cs, col, out', hs, hn, hr, rfl⟩ := (rangeLoop_cons_ok newCol c d v rest out).mp h
    exact List.Forall₂.cons ⟨cs, hs, hn⟩ (ih out' hr)

theorem forall2_mem_right {α β : Type} {R : α → β → Prop} {l₁ : List α} {l₂ : List β}
    (h : List.Forall₂ R l₁ l₂) (b : β) (hb : b ∈ l₂) : ∃ a ∈ l₁, R a b := by
  induction h with
  | nil => simp at hb
  | @cons x y xs ys hxy _ ih =>
    rcases List.mem_cons.mp hb with rfl | hb'
    · exact ⟨x, by simp, hxy⟩
    · obtain ⟨a, ha, hab⟩ := ih hb'
      exact ⟨a, List.mem_cons_of_mem _ ha, hab⟩

theorem SubsetRows_range_preserves (newCol : String → List cell → Except Err column)
    (hkeep : ∀ name es col, newCol name es = .ok col → col.cells.length = es.length)
    (f r : DataFrame) (c d : Int) (hf : FrameInv f)
    (h : SubsetRows newCol f (.R c d) = .ok r) : FrameInv r := by
  obtain ⟨⟨h1, h2, h3, hrows⟩, hnd⟩ := hf
  by_cases hv : 0 ≤ c ∧ c < d ∧ d ≤ f.nRows
  · rw [SubsetRows_range_valid newCol f c d hv] at h
    cases hloop : SubsetRows.rangeLoop newCol c d f.columns with
    | error e => rw [hloop] at h; exact absurd h (by simp)
    | ok out =>
      rw [hloop] at h
      simp only [Except.ok.injEq] at h
      subst h
      have hall := rangeLoop_forall2 newCol c d f.columns out hloop
      refine ⟨⟨?_, h2, h3, ?_⟩, hnd⟩
      · simp only
        rw [rangeLoop_length newCol c d f.columns out hloop]
        exact h1
      · intro col hcol
        obtain ⟨v, hvmem, cs, hs, hn⟩ := forall2_mem_right hall col hcol
        rw [hkeep _ _ _ hn]
        have hlen := hrows v hvmem
        rw [slice_eq_between v.cells c d (by omega) (by omega) (by omega)] at hs
        simp only [Except.ok.injEq] at hs
        rw [← hs]
        exact between_length _ c d (by omega) (by omega) (by omega)
  · obtain ⟨msg, hmsg⟩ := SubsetRows_range_invalid newCol f c d hv
    rw [hmsg] at h
    exact absurd h (by simp)


theorem index_mem {α : Type} (xs : List α) (i : Int) (x : α) (h : index xs i = .ok x) :
    x ∈ xs :=
  List.getElem?_mem ((index_ok_iff xs i x).mp h).2

theorem nodup_of_forall2_index (names : List String) (hnd : names.Nodup) (l : List Int)
    (ns : List String)
    (h : List.Forall₂ (fun v name => index names v = .ok name) l ns) :
    l.Nodup → ns.Nodup := by
  induction h with
  | nil => intro _; exact List.nodup_nil
  | @cons v name l' ns' hv hrest ih =>
    intro hl
    rw [List.nodup_cons] at hl ⊢
    refine ⟨?_, ih hl.2⟩
    intro hmem
    obtain ⟨v', hv'mem, hv'⟩ := forall2_mem_right hrest name hmem
    rw [index_ok_iff] at hv hv'
    have heq : v'.toNat = v.toNat :=
      nodup_getElem_inj names hnd _ _ name hv'.2 hv.2
    have : v' = v := by omega
    rw [this] at hv'mem
    exact hl.1 hv'mem

theorem SubsetColumns_ints_preserves (f r : DataFrame) (l : List Int) (hf : FrameInv f)
    (h : SubsetColumns f (.ints l) = .ok r) : FrameInv r := by
  obtain ⟨⟨h1, h2, h3, hrows⟩, hnd⟩ := hf
  unfold SubsetColumns at h
  simp only at h
  by_cases h0 : l.length = 0
  · rw [if_pos h0] at h; exact absurd h (by simp)
  · rw [if_neg h0] at h
    rcases SubsetColumns_check_cases f.nCols l [] with ⟨hok, hr, hlnd, _⟩ | ⟨⟨msg, herr⟩, _⟩
    · obtain ⟨cs, ns, ts, hsel, hcs, hns, hts⟩ := SubsetColumns_selectNums_ok f l
        (fun v hv => by have := hr v hv; omega) (fun v hv => by have := hr v hv; omega)
        (fun v hv => by have := hr v hv; omega)
        { columns := [], colNames := [], colTypes := [], nCols := 0, nRows := f.nRows }
      rw [hok, hsel] at h
      simp only [List.nil_append, Except.ok.injEq] at h
      subst h
      refine ⟨⟨?_, rfl, ?_, ?_⟩, nodup_of_forall2_index _ hnd l ns hns hlnd⟩
      · simp only
        rw [← hns.length_eq, ← hcs.length_eq]
      · simp only
        rw [← hns.length_eq, ← hts.length_eq]
      · intro c hc
        obtain ⟨v, _, hv⟩ := forall2_mem_right hcs c hc
        exact hrows c (index_mem _ _ _ hv)
    · rw [herr] at h
      exact absurd h (by simp)

theorem SubsetColumns_names_preserves (f r : DataFrame) (l : List String) (hf : FrameInv f)
    (hblank : "" ∉ f.colNames ∨ l.count "" ≤ 1)
    (h : SubsetColumns f (.strings l) = .ok r) : FrameInv r := by
  obtain ⟨⟨h1, h2, h3, hrows⟩, hnd⟩ := hf
  unfold SubsetColumns at h
  simp only at h
  by_cases h0 : l.length = 0
  · rw [if_pos h0] at h; exact absurd h (by simp)
  · rw [if_neg h0] at h
    by_cases hd : (SubsetColumns.duped [] [] l).length ≠ 0
    · rw [if_pos hd] at h; exact absurd h (by simp)
    · rw [if_neg hd] at h
      have hd' : SubsetColumns.duped [] [] l = [] := List.length_eq_zero.mp (not_not.mp hd)
      cases hsel : SubsetColumns.selectNames f
          { columns := [], colNames := [], colTypes := [], nCols := 0, nRows := f.nRows } l with
      | error e => rw [hsel] at h; exact absurd h (by simp)
      | ok dd =>
        have hall := SubsetColumns_selectNames_mem f l _ dd hsel
        obtain ⟨cs, ts, hsel', hcs, hts⟩ := SubsetColumns_selectNames_ok f (by omega) (by omega) l
          { columns := [], colNames := [], colTypes := [], nCols := 0, nRows := f.nRows } hall
        rw [hsel'] at h
        simp only [List.nil_append, Except.ok.injEq] at h
        subst h
        have hfil := ((SubsetColumns_duped_nil_iff l []).mp hd').1
        have hcount := (nodup_filter_iff_count l).mp hfil
        have hlnd : l.Nodup := by
          rw [List.nodup_iff_count_le_one]
          intro v
          by_cases hv : v ∈ l
          · by_cases hve : v = ""
            · subst hve
              rcases hblank with hb | hb
              · exact absurd (hall _ hv) hb
              · exact hb
            · exact hcount v hv hve
          · rw [List.count_eq_zero_of_not_mem hv]; omega
        refine ⟨⟨?_, rfl, ?_, ?_⟩, hlnd⟩
        · simp only
          rw [← hcs.length_eq]
        · simp only
          rw [← hts.length_eq]
        · intro c hc
          obtain ⟨v, _, i, _, hi⟩ := forall2_mem_right hcs c hc
          exact hrows c (List.getElem?_mem hi)


theorem pick_length (cells : List cell) (l : List Int) :
    ∀ acc cs, SubsetRows.pick cells acc l = .ok cs → cs.length = acc.length + l.length := by
  induction l with
  | nil =>
    intro acc cs h
    simp only [SubsetRows.pick, Except.ok.injEq] at h
    rw [← h]; simp
  | cons v rest ih =>
    intro acc cs h
    unfold SubsetRows.pick at h
    cases hidx : index cells v with
    | error e => rw [hidx] at h; exact absurd h (by simp)
    | ok c =>
      rw [hidx] at h
      simp only at h
      rw [ih _ cs h]
      simp only [List.length_append, List.length_cons, List.length_nil]
      omega

theorem indexLoop_forall2 (newCol : String → List cell → Except Err column) (l : List Int)
    (cols : List column) :
    ∀ out, SubsetRows.indexLoop newCol l cols = .ok out →
      List.Forall₂ (fun v cr => ∃ col cs, newCol v.colName [] = .ok col ∧
        SubsetRows.pick v.cells col.cells l = .ok cs ∧ cr.cells = cs) cols out := by
  induction cols with
  | nil =>
    intro out h
    simp only [SubsetRows.indexLoop, Except.ok.injEq] at h
    subst h
    exact List.Forall₂.nil
  | cons v rest ih =>
    intro out h
    unfold SubsetRows.indexLoop at h
    cases hn : newCol v.colName [] with
    | error e => rw [hn] at h; exact absurd h (by simp)
    | ok col =>
      rw [hn] at h
      simp only at h
      cases hp : SubsetRows.pick v.cells col.cells l with
      | error e => rw [hp] at h; exact absurd h (by simp)
      | ok cs =>
        rw [hp] at h
        simp only at h
        cases hr : SubsetRows.indexLoop newCol l rest with
        | error e => rw [hr] at h; exact absurd h (by simp)
        | ok out' =>
          rw [hr] at h
          simp only [Except.ok.injEq] at h
          subst h
          exact List.Forall₂.cons ⟨col, cs, hn, hp, rfl⟩ (ih out' hr)

theorem SubsetRows_ints_preserves (newCol : String → List cell → Except Err column)
    (hkeep : ∀ name es col, newCol name es = .ok col → col.cells.length = es.length)
    (f r : DataFrame) (l : List Int) (hf : FrameInv f)
    (h : SubsetRows newCol f (.ints l) = .ok r) : FrameInv r := by
  obtain ⟨⟨h1, h2, h3, _⟩, hnd⟩ := hf
  unfold SubsetRows at h
  simp only at h
  by_cases h0 : l.length = 0
  · rw [if_pos h0] at h; exact absurd h (by simp)
  · rw [if_neg h0] at h
    cases hchk : SubsetRows.check f.nRows l with
    | error e => rw [hchk] at h; exact absurd h (by simp)
    | ok un =>
      rw [hchk] at h
      simp only at h
      cases hloop : SubsetRows.indexLoop newCol l f.columns with
      | error e => rw [hloop] at h; exact absurd h (by simp)
      | ok out =>
        rw [hloop] at h
        simp only [Except.ok.injEq] at h
        subst h
        have hall := indexLoop_forall2 newCol l f.columns out hloop
        refine ⟨⟨?_, h2, h3, ?_⟩, hnd⟩
        · simp only
          rw [← hall.length_eq]
          exact h1
        · intro cr hcr
          obtain ⟨v, _, col, cs, hn, hp, hcells⟩ := forall2_mem_right hall cr hcr
          have hlen := pick_length v.cells l col.cells cs hp
          rw [hkeep _ _ _ hn] at hlen
          simp only
          rw [hcells, hlen]
          simp

theorem Rbind_preserves (colAppend : column → List cell → Except Err column)
    (happ : ∀ col es col', colAppend col es = .ok col' →
      col'.cells.length = col.cells.length + es.length)
    (A B r : DataFrame) (hA : FrameInv A) (hB : FrameInv B)
    (hint : A.columns = [] ∨ IsInt (A.nRows + B.nRows))
    (h : Rbind colAppend A B = .ok r) : FrameInv r := by
  obtain ⟨⟨a1, a2, a3, arows⟩, anodup⟩ := hA
  obtain ⟨⟨_, _, _, brows⟩, _⟩ := hB
  unfold Rbind at h
  by_cases hn : A.nCols ≠ B.nCols
  · rw [if_pos hn] at h; exact absurd h (by simp)
  · rw [if_neg hn] at h
    cases hm : Rbind.typeMap A [] 0 A.colNames with
    | error e => rw [hm] at h; exact absurd h (by simp)
    | ok m =>
      rw [hm] at h
      simp only at h
      cases hchk : Rbind.check B m 0 B.colNames with
      | error e => rw [hchk] at h; exact absurd h (by simp)
      | ok un =>
        rw [hchk] at h
        simp only at h
        cases hbind : Rbind.bind colAppend A B A.colNames with
        | error e => rw [hbind] at h; exact absurd h (by simp)
        | ok cols =>
          rw [hbind] at h
          simp only [Except.ok.injEq] at h
          subst h
          have hb := Rbind_bind_spec colAppend A B A.colNames cols hbind
          refine ⟨⟨?_, a2, a3, ?_⟩, anodup⟩
          · simp only
            rw [← hb.length_eq]
            exact a2
          · intro cr hcr
            obtain ⟨v, _, i, j, ca, cb, _, _, hca, hcb, hap⟩ := forall2_mem_right hb cr hcr
            rcases hint with hnil | hint
            · rw [hnil] at hca
              simp [index] at hca
            · rw [happ ca cb.cells cr hap]
              have ha := arows ca (index_mem _ _ _ hca)
              have hb' := brows cb (index_mem _ _ _ hcb)
              have hw := wrapInt_of_isInt _ hint
              simp only [Nat.cast_add]
              omega

/-- The frame `blankNamed`, written as a literal of the package, has a column named by
the empty string, which no constructor returns: on it `SubsetColumns` by the names
`["", ""]` returns a frame whose column names are not pairwise distinct. -/
theorem SubsetColumns_names_breaks_invariant :
    FrameInv blankNamed ∧
    ∃ r, SubsetColumns blankNamed (.strings ["", ""]) = .ok r ∧ r.colNames = ["", ""] ∧
      ¬ FrameInv r := by
  refine ⟨by decide, _, by rfl, by rfl, by decide⟩

/-- C11: with a `newCol` that returns a column of as many cells as it is given and an
`append` that returns a column of as many cells as the column and the appended cells
together, the frame invariant is preserved by `SubsetColumns` by a range, by column
numbers and by names, by `SubsetRows` by a range and by row numbers, by `Cbind` and
by `Rbind`: a frame returned without error satisfies it when the input frames do.
For a list of names the frame has no column named by the empty string (no constructor
returns one) or the list holds the empty name at most once; for `Rbind` the frames
have no columns or the sum of their row counts is a Go `int`, as the length of a Go
slice is. -/
theorem frame_invariant_preserved (newCol : String → List cell → Except Err column)
    (colAppend : column → List cell → Except Err column)
    (hkeep : ∀ name es col, newCol name es = .ok col → col.cells.length = es.length)
    (happ : ∀ col es col', colAppend col es = .ok col' →
      col'.cells.length = col.cells.length + es.length) :
    (∀ (f r : DataFrame) (a b : Int), FrameInv f → SubsetColumns f (.R a b) = .ok r →
      FrameInv r) ∧
    (∀ (f r : DataFrame) (l : List Int), FrameInv f → SubsetColumns f (.ints l) = .ok r →
      FrameInv r) ∧
    (∀ (f r : DataFrame) (l : List String), FrameInv f →
      ("" ∉ f.colNames ∨ l.count "" ≤ 1) → SubsetColumns f (.strings l) = .ok r →
      FrameInv r) ∧
    (∀ (f r : DataFrame) (c d : Int), FrameInv f → SubsetRows newCol f (.R c d) = .ok r →
      FrameInv r) ∧
    (∀ (f r : DataFrame) (l : List Int), FrameInv f → SubsetRows newCol f (.ints l) = .ok r →
      FrameInv r) ∧
    (∀ A B r : DataFrame, FrameInv A → FrameInv B → Cbind A B = .ok r → FrameInv r) ∧
    (∀ A B r : DataFrame, FrameInv A → FrameInv B →
      (A.columns = [] ∨ IsInt (A.nRows + B.nRows)) → Rbind colAppend A B = .ok r →
      FrameInv r) :=
  ⟨fun f r a b hf h => SubsetColumns_range_preserves f r a b hf h,
   fun f r l hf h => SubsetColumns_ints_preserves f r l hf h,
   fun f r l hf hb h => SubsetColumns_names_preserves f r l hf hb h,
   fun f r c d hf h => SubsetRows_range_preserves newCol hkeep f r c d hf h,
   fun f r l hf h => SubsetRows_ints_preserves newCol hkeep f r l hf h,
   fun A B r hA hB h => Cbind_preserves A B r hA hB h,
   fun A B r hA hB hint h => Rbind_preserves colAppend happ A B r hA hB hint h⟩

/-- C11, at the scenario frame: `Rbind` with the frame holding its columns in the
other order, `SubsetColumns` by the names `["s", "n"]`, and `SubsetRows` by the row
numbers `[3, 0, 0]`. -/
theorem frame_invariant_preserved_witness :
    (∀ name es col, newColModel (fun _ => "") name es = .ok col →
      col.cells.length = es.length) ∧
    (∀ col es col', appendModel col es = .ok col' →
      col'.cells.length = col.cells.length + es.length) ∧
    FrameInv scenario ∧ FrameInv swapped ∧
    ("" ∉ scenario.colNames ∨ (["s", "n"] : List String).count "" ≤ 1) ∧
    (scenario.columns = [] ∨ IsInt (scenario.nRows + swapped.nRows)) ∧
    (∃ r, Rbind appendModel scenario swapped = .ok r ∧ FrameInv r) ∧
    (∃ r, SubsetColumns scenario (.strings ["s", "n"]) = .ok r ∧ FrameInv r) ∧
    ∃ r, SubsetRows (newColModel (fun _ => "")) scenario (.ints [3, 0, 0]) = .ok r ∧
      FrameInv r :=
  have hkeep : ∀ name es col, newColModel (fun _ => "") name es = .ok col →
      col.cells.length = es.length := by
    intro name es col h
    unfold newColModel at h
    split at h
    · exact absurd h (by simp)
    · simp only [Except.ok.injEq] at h
      rw [← h]
  have happ : ∀ col es col', appendModel col es = .ok col' →
      col'.cells.length = col.cells.length + es.length := by
    intro col es col' h
    simp only [appendModel, Except.ok.injEq] at h
    rw [← h]
    simp
  have hthm := frame_invariant_preserved (newColModel (fun _ => "")) appendModel hkeep happ
  have h1 : Rbind appendModel scenario swapped = .ok _ := by rfl
  have h2 : SubsetColumns scenario (.strings ["s", "n"]) = .ok _ := by rfl
  have h3 : SubsetRows (newColModel (fun _ => "")) scenario (.ints [3, 0, 0]) = .ok _ := by rfl
  ⟨hkeep, happ, by decide, by decide, by decide, by decide,
    ⟨_, h1, hthm.2.2.2.2.2.2 scenario swapped _ (by decide) (by decide) (by decide) h1⟩,
    ⟨_, h2, hthm.2.2.1 scenario _ ["s", "n"] (by decide) (by decide) h2⟩,
    ⟨_, h3, hthm.2.2.2.2.1 scenario _ [3, 0, 0] (by decide) h3⟩⟩

/-! ## `LoadData`: the header, its check and its placeholder names -/

theorem toDigitsCore_append (fuel : Nat) : ∀ (n : Nat) (ds : List Char),
    Nat.toDigitsCore 10 fuel n ds = Nat.toDigitsCore 10 fuel n [] ++ ds := by
  induction fuel with
  | zero => intro n ds; simp [Nat.toDigitsCore]
  | succ k ih =>
    intro n ds
    simp only [Nat.toDigitsCore]
    by_cases h : n / 10 = 0
    · simp [h]
    · simp only [h, if_false]
      rw [ih (n / 10) (Nat.digitChar (n % 10) :: ds), ih (n / 10) [Nat.digitChar (n % 10)]]
      simp

theorem toDigitsCore_ne_nil (fuel n : Nat) (h : 0 < fuel) :
    Nat.toDigitsCore 10 fuel n [] ≠ [] := by
  obtain ⟨k, rfl⟩ : ∃ k, fuel = k + 1 := ⟨fuel - 1, by omega⟩
  simp only [Nat.toDigitsCore]
  by_cases h : n / 10 = 0
  · simp [h]
  · simp only [h, if_false]
    rw [toDigitsCore_append]
    simp

theorem digitChar_inj : ∀ a : Fin 10, ∀ b : Fin 10,
    Nat.digitChar a.val = Nat.digitChar b.val → a = b := by
  decide

theorem toDigitsCore_inj (fuel1 : Nat) : ∀ (fuel2 n m : Nat), n < fuel1 → m < fuel2 →
    Nat.toDigitsCore 10 fuel1 n [] = Nat.toDigitsCore 10 fuel2 m [] → n = m := by
  induction fuel1 with
  | zero => intro _ n m h; omega
  | succ f1 ih =>
    intro fuel2 n m h1 h2 h
    obtain ⟨f2, rfl⟩ : ∃ k, fuel2 = k + 1 := ⟨fuel2 - 1, by omega⟩
    have hd : ∀ a b : Nat, Nat.digitChar (a % 10) = Nat.digitChar (b % 10) → a % 10 = b % 10 := by
      intro a b hab
      have := digitChar_inj ⟨a % 10, Nat.mod_lt _ (by decide)⟩ ⟨b % 10, Nat.mod_lt _ (by decide)⟩ hab
      exact congrArg Fin.val this
    simp only [Nat.toDigitsCore] at h
    by_cases hn : n / 10 = 0
    · by_cases hm : m / 10 = 0
      · simp only [hn, hm, if_true, List.cons.injEq, and_true] at h
        have := hd n m h
        omega
      · simp only [hn, hm, if_true, if_false] at h
        rw [toDigitsCore_append] at h
        have hne := toDigitsCore_ne_nil f2 (m / 10) (by omega)
        have hl := congrArg List.length h
        simp only [List.length_append, List.length_cons, List.length_nil] at hl
        have : (Nat.toDigitsCore 10 f2 (m / 10) []).length ≠ 0 := by
          intro h0; exact hne (List.length_eq_zero.mp h0)
        omega
    · by_cases hm : m / 10 = 0
      · simp only [hn, hm, if_true, if_false] at h
        rw [toDigitsCore_append] at h
        have hne := toDigitsCore_ne_nil f1 (n / 10) (by omega)
        have hl := congrArg List.length h
        simp only [List.length_append, List.length_cons, List.length_nil] at hl
        have : (Nat.toDigitsCore 10 f1 (n / 10) []).length ≠ 0 := by
          intro h0; exact hne (List.length_eq_zero.mp h0)
        omega
      · simp only [hn, hm, if_false] at h
        rw [toDigitsCore_append f1, toDigitsCore_append f2] at h
        have h' := List.append_inj' h rfl
        have e1 := ih f2 (n / 10) (m / 10) (by omega) (by omega) h'.1
        have e2 := hd n m (by simpa using h'.2)
        omega

theorem toString_nat_inj (n m : Nat) (h : toString n = toString m) : n = m := by
  have h1 : (Nat.toDigits 10 n).asString = (Nat.toDigits 10 m).asString := h
  have h2 : Nat.toDigits 10 n = Nat.toDigits 10 m := by
    have := congrArg String.data h1
    simpa [List.asString] using this
  exact toDigitsCore_inj (n + 1) (m + 1) n m (by omega) (by omega) h2

theorem placeholder_inj (n m : Nat) (h : "V" ++ toString n = "V" ++ toString m) : n = m := by
  apply toString_nat_inj
  have := congrArg String.data h
  simp only [String.data_append, List.append_cancel_left_eq] at this
  exact String.ext this

theorem placeholder_ne_blank (n : Nat) : "V" ++ toString n ≠ "" := by
  intro h
  have := congrArg String.data h
  simp [String.data_append] at this

theorem LoadData_check_ok : ∀ (l : List String) (m : List (String × Bool)),
    (m.map Prod.fst ++ l.filter (fun v => decide (v ≠ ""))).Nodup →
    ∃ m', LoadData.check m l = .ok m' ∧
      m'.map Prod.fst = m.map Prod.fst ++ l.filter (fun v => decide (v ≠ "")) := by
  intro l
  induction l with
  | nil => intro m _; exact ⟨m, rfl, by simp⟩
  | cons v rest ih =>
    intro m h
    by_cases hv : v = ""
    · subst hv
      simp only [LoadData.check, ne_eq, not_true_eq_false, if_false]
      simpa using ih m (by simpa using h)
    · have hf : (v :: rest).filter (fun v => decide (v ≠ "")) =
          v :: rest.filter (fun v => decide (v ≠ "")) := by simp [hv]
      rw [hf] at h ⊢
      have hnot : v ∉ m.map Prod.fst := by
        intro hmem
        have := List.nodup_append.mp h
        exact this.2.2 hmem (List.mem_cons_self _ _)
      have hget : mapGet m v = none := (mapGet_eq_none_iff m v).mpr hnot
      simp only [LoadData.check, ne_eq, hv, not_false_eq_true, if_true, hget]
      have hset := mapSet_of_not_mem m v true hnot
      have h' : ((mapSet m v true).map Prod.fst ++
          rest.filter (fun v => decide (v ≠ ""))).Nodup := by
        rw [hset]
        simpa [List.append_assoc] using h
      obtain ⟨m', e1, e2⟩ := ih _ h'
      refine ⟨m', e1, ?_⟩
      rw [e2, hset]
      simp [List.append_assoc]

theorem LoadData_check_dup : ∀ (l : List String) (m : List (String × Bool)),
    (m.map Prod.fst).Nodup →
    ¬ (m.map Prod.fst ++ l.filter (fun v => decide (v ≠ ""))).Nodup →
    ∃ v, v ≠ "" ∧ ((v ∈ m.map Prod.fst ∧ v ∈ l) ∨ 2 ≤ l.count v) ∧
      LoadData.check m l = .error (.error ("Duplicated column names: " ++ v)) := by
  intro l
  induction l with
  | nil => intro m h1 h2; simp at h2; exact absurd h1 h2
  | cons v rest ih =>
    intro m h1 h2
    by_cases hv : v = ""
    · subst hv
      simp only [LoadData.check, ne_eq, not_true_eq_false, if_false]
      obtain ⟨w, hw, hc, he⟩ := ih m h1 (by simpa using h2)
      refine ⟨w, hw, ?_, he⟩
      rcases hc with ⟨a, b⟩ | c
      · exact Or.inl ⟨a, List.mem_cons_of_mem _ b⟩
      · right
        rw [List.count_cons]
        omega
    · have hf : (v :: rest).filter (fun v => decide (v ≠ "")) =
          v :: rest.filter (fun v => decide (v ≠ "")) := by simp [hv]
      rw [hf] at h2
      simp only [LoadData.check, ne_eq, hv, not_false_eq_true, if_true]
      cases hget : mapGet m v with
      | some b =>
        refine ⟨v, hv, Or.inl ⟨?_, List.mem_cons_self _ _⟩, rfl⟩
        have := mem_of_mapGet_eq_some m v b hget
        exact List.mem_map.mpr ⟨(v, b), this, rfl⟩
      | none =>
        have hnot : v ∉ m.map Prod.fst := (mapGet_eq_none_iff m v).mp hget
        have hset := mapSet_of_not_mem m v true hnot
        have h1' : ((mapSet m v true).map Prod.fst).Nodup := mapSet_keys_nodup m v true h1
        have h2' : ¬ ((mapSet m v true).map Prod.fst ++
            rest.filter (fun v => decide (v ≠ ""))).Nodup := by
          rw [hset]
          simpa [List.append_assoc] using h2
        obtain ⟨w, hw, hc, he⟩ := ih _ h1' h2'
        refine ⟨w, hw, ?_, he⟩
        rcases hc with ⟨a, b⟩ | c
        · rw [hset] at a
          simp only [List.map_append, List.map_cons, List.map_nil, List.mem_append,
            List.mem_singleton] at a
          rcases a with a | a
          · exact Or.inl ⟨a, List.mem_cons_of_mem _ b⟩
          · subst a
            right
            rw [List.count_cons_self]
            have := List.count_pos_iff.mpr b
            omega
        · right
          rw [List.count_cons]
          omega

theorem LoadData_newColname_spec : ∀ (rounds : Nat) (m : List (String × Bool)) (c : Nat)
    (s : String) (c' : Nat), LoadData.newColname rounds m c = some (s, c') →
    ∃ n, c ≤ n ∧ c' = n + 1 ∧ s = "V" ++ toString n ∧ "V" ++ toString n ∉ m.map Prod.fst ∧
      ∀ k, c ≤ k → k < n → "V" ++ toString k ∈ m.map Prod.fst := by
  intro rounds
  induction rounds with
  | zero => intro m c s c' h; simp [LoadData.newColname] at h
  | succ r ih =>
    intro m c s c' h
    simp only [LoadData.newColname] at h
    cases hget : mapGet m ("V" ++ toString c) with
    | none =>
      rw [hget] at h
      simp only [Option.some.injEq, Prod.mk.injEq] at h
      refine ⟨c, le_refl _, h.2.symm, h.1.symm, (mapGet_eq_none_iff m _).mp hget, ?_⟩
      intro k h1 h2; omega
    | some b =>
      rw [hget] at h
      obtain ⟨n, h1, h2, h3, h4, h5⟩ := ih m (c + 1) s c' h
      refine ⟨n, by omega, h2, h3, h4, ?_⟩
      intro k hk1 hk2
      by_cases hkc : k = c
      · subst hkc
        exact List.mem_map.mpr ⟨(_, b), mem_of_mapGet_eq_some m _ b hget, rfl⟩
      · exact h5 k (by omega) hk2

theorem LoadData_newColname_none : ∀ (rounds : Nat) (m : List (String × Bool)) (c : Nat),
    LoadData.newColname rounds m c = none →
    ∀ k, c ≤ k → k < c + rounds → "V" ++ toString k ∈ m.map Prod.fst := by
  intro rounds
  induction rounds with
  | zero => intro m c _ k h1 h2; omega
  | succ r ih =>
    intro m c h k h1 h2
    simp only [LoadData.newColname] at h
    cases hget : mapGet m ("V" ++ toString c) with
    | none => rw [hget] at h; simp at h
    | some b =>
      rw [hget] at h
      by_cases hkc : k = c
      · subst hkc
        exact List.mem_map.mpr ⟨(_, b), mem_of_mapGet_eq_some m _ b hget, rfl⟩
      · exact ih m (c + 1) h k (by omega) (by omega)

theorem LoadData_newColname_stops (rounds : Nat) (m : List (String × Bool)) (c : Nat)
    (h : m.length < rounds) : ∃ r, LoadData.newColname rounds m c = some r := by
  cases hr : LoadData.newColname rounds m c with
  | some r => exact ⟨r, rfl⟩
  | none =>
    exfalso
    have hall := LoadData_newColname_none rounds m c hr
    have hnd : ((List.range rounds).map (fun i => "V" ++ toString (c + i))).Nodup := by
      apply List.Nodup.map _ (List.nodup_range rounds)
      intro a b hab
      have := placeholder_inj _ _ hab
      omega
    have hsub : (List.range rounds).map (fun i => "V" ++ toString (c + i)) ⊆
        m.map Prod.fst := by
      intro x hx
      obtain ⟨i, hi, rfl⟩ := List.mem_map.mp hx
      exact hall (c + i) (by omega) (by have := List.mem_range.mp hi; omega)
    have := (List.subperm_of_subset hnd hsub).length_le
    simp at this
    omega

theorem LoadData_fill_spec (rounds : Nat) : ∀ (l : List String) (m : List (String × Bool))
    (c : Nat), (∀ k, k < c → "V" ++ toString k ∈ m.map Prod.fst) →
    m.length + l.count "" < rounds →
    ∃ ns, LoadData.fill rounds m c l = some (withPlaceholders l ns) ∧
      ns.length = l.count "" ∧ ns.Pairwise (fun a b => a < b) ∧
      (∀ n ∈ ns, c ≤ n ∧ "V" ++ toString n ∉ m.map Prod.fst) ∧
      (∀ n ∈ ns, ∀ k, c ≤ k → k < n → "V" ++ toString k ∈ m.map Prod.fst ∨ k ∈ ns) := by
  intro l
  induction l with
  | nil =>
    intro m c _ _
    exact ⟨[], rfl, rfl, List.Pairwise.nil, by simp, by simp⟩
  | cons v rest ih =>
    intro m c hinv hr
    by_cases hv : v = ""
    · subst hv
      rw [List.count_cons_self] at hr
      obtain ⟨⟨s, c'⟩, hs⟩ := LoadData_newColname_stops rounds m c (by omega)
      obtain ⟨n, hn1, hn2, hn3, hn4, hn5⟩ := LoadData_newColname_spec rounds m c s c' hs
      subst hn2 hn3
      have hset := mapSet_of_not_mem m ("V" ++ toString n) true hn4
      have hkeys : ∀ x, x ∈ (mapSet m ("V" ++ toString n) true).map Prod.fst ↔
          x ∈ m.map Prod.fst ∨ x = "V" ++ toString n := by
        intro x; rw [hset]; simp
      have hinv' : ∀ k, k < n + 1 →
          "V" ++ toString k ∈ (mapSet m ("V" ++ toString n) true).map Prod.fst := by
        intro k hk
        rw [hkeys]
        by_cases h1 : k < c
        · exact Or.inl (hinv k h1)
        · by_cases h2 : k = n
          · subst h2; exact Or.inr rfl
          · exact Or.inl (hn5 k (by omega) (by omega))
      have hlen : (mapSet m ("V" ++ toString n) true).length + rest.count "" < rounds := by
        rw [hset]; simp only [List.length_append, List.length_cons, List.length_nil]; omega
      obtain ⟨ns, e1, e2, e3, e4, e5⟩ := ih _ (n + 1) hinv' hlen
      refine ⟨n :: ns, ?_, ?_, ?_, ?_, ?_⟩
      · simp only [LoadData.fill, if_true, hs, e1, withPlaceholders]
      · simp [e2]
      · refine List.Pairwise.cons ?_ e3
        intro a ha
        have := (e4 a ha).1
        omega
      · intro a ha
        rcases List.mem_cons.mp ha with rfl | ha
        · exact ⟨hn1, hn4⟩
        · have := e4 a ha
          refine ⟨by omega, ?_⟩
          intro hmem
          exact this.2 ((hkeys _).mpr (Or.inl hmem))
      · intro a ha k hk1 hk2
        rcases List.mem_cons.mp ha with rfl | ha
        · exact Or.inl (hn5 k hk1 hk2)
        · by_cases h1 : k < n
          · exact Or.inl (hn5 k hk1 h1)
          · by_cases h2 : k = n
            · subst h2; exact Or.inr (List.mem_cons_self _ _)
            · rcases e5 a ha k (by omega) hk2 with h | h
              · rcases (hkeys _).mp h with h | h
                · exact Or.inl h
                · exact absurd (placeholder_inj _ _ h) h2
              · exact Or.inr (List.mem_cons_of_mem _ h)
    · have hc : (v :: rest).count "" = rest.count "" := by
        rw [List.count_cons]
        simp [hv]
      rw [hc] at hr
      obtain ⟨ns, e1, e2, e3, e4, e5⟩ := ih m c hinv hr
      refine ⟨ns, ?_, by rw [hc]; exact e2, e3, e4, e5⟩
      simp only [LoadData.fill, hv, if_false, e1, withPlaceholders]

theorem mem_withPlaceholders : ∀ (l : List String) (ns : List Nat) (x : String),
    x ∈ withPlaceholders l ns → x ∈ l ∨ ∃ n ∈ ns, x = "V" ++ toString n := by
  intro l
  induction l with
  | nil => intro ns x h; simp [withPlaceholders] at h
  | cons v rest ih =>
    intro ns x h
    by_cases hv : v = ""
    · subst hv
      cases ns with
      | nil =>
        simp only [withPlaceholders, if_true, List.mem_cons] at h
        rcases h with h | h
        · exact Or.inl (by simp [h])
        · rcases ih [] x h with h | ⟨n, hn, _⟩
          · exact Or.inl (List.mem_cons_of_mem _ h)
          · simp at hn
      | cons n more =>
        simp only [withPlaceholders, if_true, List.mem_cons] at h
        rcases h with h | h
        · exact Or.inr ⟨n, List.mem_cons_self _ _, h⟩
        · rcases ih more x h with h | ⟨k, hk, e⟩
          · exact Or.inl (List.mem_cons_of_mem _ h)
          · exact Or.inr ⟨k, List.mem_cons_of_mem _ hk, e⟩
    · simp only [withPlaceholders, hv, if_false, List.mem_cons] at h
      rcases h with h | h
      · exact Or.inl (by simp [h])
      · rcases ih ns x h with h | h
        · exact Or.inl (List.mem_cons_of_mem _ h)
        · exact Or.inr h

theorem withPlaceholders_length : ∀ (l : List String) (ns : List Nat),
    (withPlaceholders l ns).length = l.length := by
  intro l
  induction l with
  | nil => intro ns; rfl
  | cons v rest ih =>
    intro ns
    by_cases hv : v = ""
    · subst hv
      cases ns with
      | nil => simp [withPlaceholders, ih]
      | cons n more => simp [withPlaceholders, ih]
    · simp [withPlaceholders, hv, ih]

theorem withPlaceholders_ne_blank : ∀ (l : List String) (ns : List Nat),
    ns.length = l.count "" → ∀ x ∈ withPlaceholders l ns, x ≠ "" := by
  intro l
  induction l with
  | nil => intro ns _ x h; simp [withPlaceholders] at h
  | cons v rest ih =>
    intro ns hl x h
    by_cases hv : v = ""
    · subst hv
      rw [List.count_cons_self] at hl
      cases ns with
      | nil => simp at hl
      | cons n more =>
        simp only [withPlaceholders, if_true, List.mem_cons] at h
        rcases h with h | h
        · rw [h]; exact placeholder_ne_blank n
        · exact ih more (by simpa using hl) x h
    · have hc : (v :: rest).count "" = rest.count "" := by
        rw [List.count_cons]; simp [hv]
      rw [hc] at hl
      simp only [withPlaceholders, hv, if_false, List.mem_cons] at h
      rcases h with h | h
      · rw [h]; exact hv
      · exact ih ns hl x h

theorem withPlaceholders_keeps : ∀ (l : List String) (ns : List Nat) (i : Nat) (v : String),
    l[i]? = some v → v ≠ "" → (withPlaceholders l ns)[i]? = some v := by
  intro l
  induction l with
  | nil => intro ns i v h; simp at h
  | cons w rest ih =>
    intro ns i v h hv
    cases i with
    | zero =>
      simp only [List.getElem?_cons_zero, Option.some.injEq] at h
      subst h
      simp [withPlaceholders, hv]
    | succ j =>
      simp only [List.getElem?_cons_succ] at h
      by_cases hw : w = ""
      · subst hw
        cases ns with
        | nil => simp only [withPlaceholders, if_true, List.getElem?_cons_succ]; exact ih [] j v h hv
        | cons n more =>
          simp only [withPlaceholders, if_true, List.getElem?_cons_succ]; exact ih more j v h hv
      · simp only [withPlaceholders, hw, if_false, List.getElem?_cons_succ]
        exact ih ns j v h hv

theorem withPlaceholders_fills : ∀ (l : List String) (ns : List Nat) (i : Nat),
    ns.length = l.count "" → l[i]? = some "" →
    ∃ n ∈ ns, (withPlaceholders l ns)[i]? = some ("V" ++ toString n) := by
  intro l
  induction l with
  | nil => intro ns i _ h; simp at h
  | cons w rest ih =>
    intro ns i hl h
    by_cases hw : w = ""
    · subst hw
      rw [List.count_cons_self] at hl
      cases ns with
      | nil => simp at hl
      | cons n more =>
        cases i with
        | zero => exact ⟨n, List.mem_cons_self _ _, by simp [withPlaceholders]⟩
        | succ j =>
          simp only [List.getElem?_cons_succ] at h
          obtain ⟨k, hk, e⟩ := ih more j (by simpa using hl) h
          exact ⟨k, List.mem_cons_of_mem _ hk, by
            simpa only [withPlaceholders, if_true, List.getElem?_cons_succ] using e⟩
    · have hc : (w :: rest).count "" = rest.count "" := by
        rw [List.count_cons]; simp [hw]
      rw [hc] at hl
      cases i with
      | zero =>
        simp only [List.getElem?_cons_zero, Option.some.injEq] at h
        exact absurd h hw
      | succ j =>
        simp only [List.getElem?_cons_succ] at h
        obtain ⟨k, hk, e⟩ := ih ns j hl h
        exact ⟨k, hk, by
          simpa only [withPlaceholders, hw, if_false, List.getElem?_cons_succ] using e⟩

theorem withPlaceholders_nodup : ∀ (l : List String) (ns : List Nat),
    (l.filter (fun v => decide (v ≠ ""))).Nodup → ns.length = l.count "" →
    ns.Pairwise (fun a b => a < b) → (∀ n ∈ ns, "V" ++ toString n ∉ l) →
    (withPlaceholders l ns).Nodup := by
  intro l
  induction l with
  | nil => intro ns _ _ _ _; simp [withPlaceholders]
  | cons v rest ih =>
    intro ns hnd hl hp hnot
    by_cases hv : v = ""
    · subst hv
      rw [List.count_cons_self] at hl
      cases ns with
      | nil => simp at hl
      | cons n more =>
        simp only [withPlaceholders, if_true, List.nodup_cons]
        have hp' := List.pairwise_cons.mp hp
        refine ⟨?_, ih more (by simpa using hnd) (by simpa using hl) hp'.2 ?_⟩
        · intro hmem
          rcases mem_withPlaceholders rest more _ hmem with h | ⟨k, hk, e⟩
          · exact hnot n (List.mem_cons_self _ _) (List.mem_cons_of_mem _ h)
          · have := placeholder_inj _ _ e
            have := hp'.1 k hk
            omega
        · intro k hk hmem
          exact hnot k (List.mem_cons_of_mem _ hk) (List.mem_cons_of_mem _ hmem)
    · have hc : (v :: rest).count "" = rest.count "" := by
        rw [List.count_cons]; simp [hv]
      rw [hc] at hl
      have hf : (v :: rest).filter (fun v => decide (v ≠ "")) =
          v :: rest.filter (fun v => decide (v ≠ "")) := by simp [hv]
      rw [hf, List.nodup_cons] at hnd
      simp only [withPlaceholders, hv, if_false, List.nodup_cons]
      refine ⟨?_, ih ns hnd.2 hl hp ?_⟩
      · intro hmem
        rcases mem_withPlaceholders rest ns _ hmem with h | ⟨k, hk, e⟩
        · exact hnd.1 (List.mem_filter.mpr ⟨h, by simpa using hv⟩)
        · exact hnot k hk (by rw [← e]; exact List.mem_cons_self _ _)
      · intro k hk hmem
        exact hnot k hk (List.mem_cons_of_mem _ hmem)

theorem filter_length_add_count_blank (l : List String) :
    (l.filter (fun v => decide (v ≠ ""))).length + l.count "" = l.length := by
  induction l with
  | nil => rfl
  | cons v rest ih =>
    by_cases hv : v = ""
    · subst hv
      rw [List.count_cons_self]
      simp only [ne_eq, not_true_eq_false, decide_False, Bool.false_eq_true,
        not_false_eq_true, List.filter_cons_of_neg, List.length_cons]
      simp only [ne_eq] at ih
      omega
    · have hc : (v :: rest).count "" = rest.count "" := by
        rw [List.count_cons]; simp [hv]
      have hf : (v :: rest).filter (fun v => decide (v ≠ "")) =
          v :: rest.filter (fun v => decide (v ≠ "")) := by simp [hv]
      rw [hc, hf]
      simp only [List.length_cons]
      omega

theorem LoadData_colnames_ok (rounds : Nat) (header : List String)
    (hnd : (header.filter (fun v => decide (v ≠ ""))).Nodup) (hr : header.length < rounds) :
    ∃ ns, LoadData.colnames rounds header = some (.ok (withPlaceholders header ns)) ∧
      ns.length = header.count "" ∧ ns.Pairwise (fun a b => a < b) ∧
      (∀ n ∈ ns, "V" ++ toString n ∉ header) ∧
      (∀ n ∈ ns, ∀ k, k < n → "V" ++ toString k ∈ header ∨ k ∈ ns) := by
  obtain ⟨m, hm, hkeys⟩ := LoadData_check_ok header [] (by simpa using hnd)
  simp only [List.map_nil, List.nil_append] at hkeys
  have hlen : m.length = (header.filter (fun v => decide (v ≠ ""))).length := by
    rw [← hkeys]; simp
  have hcount := filter_length_add_count_blank header
  obtain ⟨ns, e1, e2, e3, e4, e5⟩ := LoadData_fill_spec rounds header m 0
    (by intro k hk; omega) (by omega)
  refine ⟨ns, ?_, e2, e3, ?_, ?_⟩
  · simp only [LoadData.colnames, hm, e1]
  · intro n hn hmem
    apply (e4 n hn).2
    rw [hkeys]
    exact List.mem_filter.mpr ⟨hmem, by simpa using placeholder_ne_blank n⟩
  · intro n hn k hk
    rcases e5 n hn k (by omega) hk with h | h
    · rw [hkeys] at h
      exact Or.inl (List.mem_filter.mp h).1
    · exact Or.inr h

theorem LoadData_colnames_dup (rounds : Nat) (header : List String)
    (hnd : ¬ (header.filter (fun v => decide (v ≠ ""))).Nodup) :
    ∃ v, v ≠ "" ∧ 2 ≤ header.count v ∧
      LoadData.colnames rounds header =
        some (.error (.error ("Duplicated column names: " ++ v))) := by
  obtain ⟨v, hv, hc, he⟩ := LoadData_check_dup header [] (by simp) (by simpa using hnd)
  refine ⟨v, hv, ?_, ?_⟩
  · rcases hc with ⟨h, _⟩ | h
    · simp at h
    · exact h
  · simp only [LoadData.colnames, he]

theorem LoadData_colstrarr_ok (records : List (List String)) (j : Int) (h0 : 0 ≤ j)
    (hj : ∀ row ∈ records, j < row.length) : ∀ (n : Nat) (i : Int), 0 ≤ i →
    i + n ≤ records.length → ∃ ss, LoadData.colstrarr records j n i = .ok ss := by
  intro n
  induction n with
  | zero => intro i _ _; exact ⟨[], rfl⟩
  | succ k ih =>
    intro i hi hlen
    obtain ⟨row, hrow, hget⟩ := index_of_lt records i hi (by omega)
    have hmem : row ∈ records := List.getElem?_mem hget
    obtain ⟨s, hs, _⟩ := index_of_lt row j h0 (hj row hmem)
    obtain ⟨ss, hss⟩ := ih (i + 1) (by omega) (by push_cast at hlen ⊢; omega)
    exact ⟨s :: ss, by simp only [LoadData.colstrarr, hrow, hs, hss]⟩

theorem LoadData_cols_ok (newCol : String → List cell → Except Err column)
    (Strings : List String → List cell) (records : List (List String)) (nRows : Int)
    (width : Nat) (hw : ∀ row ∈ records, row.length = width)
    (hn : 1 + (nRows.toNat : Int) ≤ records.length) :
    ∀ (names : List String) (j : Int), 0 ≤ j → j + names.length ≤ width →
    (∀ name ∈ names, ∀ ss, ∃ col, newCol name (Strings ss) = .ok col) →
    ∃ cols, LoadData.cols newCol Strings records nRows j names = .ok cols := by
  intro names
  induction names with
  | nil => intro j _ _ _; exact ⟨[], rfl⟩
  | cons name rest ih =>
    intro j h0 hj hnew
    simp only [List.length_cons] at hj
    obtain ⟨ss, hss⟩ := LoadData_colstrarr_ok records j h0
      (by intro row hrow; rw [hw row hrow]; push_cast at hj; omega) nRows.toNat 1 (by omega) hn
    obtain ⟨col, hcol⟩ := hnew name (List.mem_cons_self _ _) ss
    obtain ⟨cols, hcols⟩ := ih (j + 1) (by omega) (by push_cast at hj ⊢; omega)
      (fun x hx => hnew x (List.mem_cons_of_mem _ hx))
    exact ⟨col :: cols, by simp only [LoadData.cols, hss, hcol, hcols]⟩

theorem LoadData_eval (newCol : String → List cell → Except Err column)
    (Strings : List String → List cell) (rounds : Nat) (header : List String)
    (rows : List (List String)) (hrows : rows ≠ []) :
    LoadData newCol Strings rounds (header :: rows) =
      match LoadData.colnames rounds header with
      | none => none
      | some (.error e) => some (.error e)
      | some (.ok colnames) =>
        match LoadData.cols newCol Strings (header :: rows) (rows.length : Int) 0 colnames with
        | .error e => some (.error e)
        | .ok cols =>
          some (.ok { nRows := (rows.length : Int), nCols := (header.length : Int),
                      colNames := colnames,
                      colTypes := cols.map (fun col => col.colType), columns := cols }) := by
  have hpos : 0 < rows.length := List.length_pos.mpr hrows
  have hidx : index (header :: rows) 0 = .ok header := rfl
  have hn : ((header :: rows).length : Int) - 1 = (rows.length : Int) := by
    simp only [List.length_cons]; push_cast; omega
  unfold LoadData
  simp only [hn, hidx]
  rw [if_neg (by omega)]

/-- C18: for a record matrix with the header `header` and at least one data row, all
rows as long as the header, and a bound on the inner loop greater than the length of
the header: if two non-blank header cells are equal, `LoadData` returns the
duplicated-names error for such a cell; otherwise the placeholder loop stops for every
blank cell, `LoadData` returns, and the column names are the header with the blank
cells replaced from left to right by `V` followed by the numbers `ns`, which increase
from left to right, are not used in the header, and leave out no smaller number that is
unused; the names are pairwise distinct, none is empty, every non-blank cell is kept at
its position, every returned frame carries these names, and a frame is returned when
`newCol` accepts every such name. -/
theorem LoadData_header (newCol : String → List cell → Except Err column)
    (Strings : List String → List cell) (rounds : Nat) (header : List String)
    (rows : List (List String)) (hrows : rows ≠ [])
    (hrect : ∀ row ∈ rows, row.length = header.length) (hrounds : header.length < rounds) :
    (¬ (header.filter (fun v => decide (v ≠ ""))).Nodup →
      ∃ v, v ≠ "" ∧ 2 ≤ header.count v ∧
        LoadData newCol Strings rounds (header :: rows) =
          some (.error (.error ("Duplicated column names: " ++ v)))) ∧
    ((header.filter (fun v => decide (v ≠ ""))).Nodup →
      ∃ ns, LoadData.colnames rounds header = some (.ok (withPlaceholders header ns)) ∧
        ns.length = header.count "" ∧ ns.Pairwise (fun a b => a < b) ∧
        (∀ n ∈ ns, "V" ++ toString n ∉ header) ∧
        (∀ n ∈ ns, ∀ k, k < n → "V" ++ toString k ∈ header ∨ k ∈ ns) ∧
        (withPlaceholders header ns).Nodup ∧
        (∀ v ∈ withPlaceholders header ns, v ≠ "") ∧
        (∀ (i : Nat) (v : String), header[i]? = some v → v ≠ "" →
          (withPlaceholders header ns)[i]? = some v) ∧
        (∀ i : Nat, header[i]? = some "" →
          ∃ n ∈ ns, (withPlaceholders header ns)[i]? = some ("V" ++ toString n)) ∧
        (∃ res, LoadData newCol Strings rounds (header :: rows) = some res) ∧
        (∀ r, LoadData newCol Strings rounds (header :: rows) = some (.ok r) →
          r.colNames = withPlaceholders header ns ∧ r.nCols = header.length ∧
          r.nRows = rows.length) ∧
        ((∀ name ∈ withPlaceholders header ns, ∀ ss, ∃ col, newCol name (Strings ss) = .ok col) →
          ∃ r, LoadData newCol Strings rounds (header :: rows) = some (.ok r))) := by
  have heval := LoadData_eval newCol Strings rounds header rows hrows
  constructor
  · intro hnd
    obtain ⟨v, hv, hc, he⟩ := LoadData_colnames_dup rounds header hnd
    exact ⟨v, hv, hc, by rw [heval, he]⟩
  · intro hnd
    obtain ⟨ns, e1, e2, e3, e4, e5⟩ := LoadData_colnames_ok rounds header hnd hrounds
    rw [e1] at heval
    simp only at heval
    refine ⟨ns, e1, e2, e3, e4, e5, withPlaceholders_nodup header ns hnd e2 e3 e4,
      withPlaceholders_ne_blank header ns e2, withPlaceholders_keeps header ns,
      fun i hi => withPlaceholders_fills header ns i e2 hi, ?_, ?_, ?_⟩
    · rw [heval]
      cases LoadData.cols newCol Strings (header :: rows) (rows.length : Int) 0
        (withPlaceholders header ns) with
      | error e => exact ⟨_, rfl⟩
      | ok cols => exact ⟨_, rfl⟩
    · intro r hr
      rw [heval] at hr
      cases hc : LoadData.cols newCol Strings (header :: rows) (rows.length : Int) 0
        (withPlaceholders header ns) with
      | error e => rw [hc] at hr; simp at hr
      | ok cols =>
        rw [hc] at hr
        simp only [Option.some.injEq, Except.ok.injEq] at hr
        subst hr
        exact ⟨rfl, rfl, rfl⟩
    · intro hnew
      obtain ⟨cols, hcols⟩ := LoadData_cols_ok newCol Strings (header :: rows)
        (rows.length : Int) header.length
        (by
          intro row hrow
          rcases List.mem_cons.mp hrow with rfl | h
          · rfl
          · exact hrect row h)
        (by simp only [Int.toNat_ofNat, List.length_cons]; push_cast; omega)
        (withPlaceholders header ns) 0 (le_refl _)
        (by rw [withPlaceholders_length]; omega) hnew
      rw [heval, hcols]
      exact ⟨_, rfl⟩

/-- C18, at a header with two blank cells and a cell named `V0`: the blank cells
become `V1` and `V2`; with two cells named `x` the load fails. -/
theorem LoadData_header_witness :
    ([["1", "2", "3", "4"], ["5", "6", "7", "8"]] : List (List String)) ≠ [] ∧
    (∀ row ∈ ([["1", "2", "3", "4"], ["5", "6", "7", "8"]] : List (List String)),
      row.length = ["", "V0", "", "x"].length) ∧
    ["", "V0", "", "x"].length < 5 ∧
    LoadData.colnames 5 ["", "V0", "", "x"] = some (.ok ["V1", "V0", "V2", "x"]) ∧
    (∃ ns, LoadData.colnames 5 ["", "V0", "", "x"] =
        some (.ok (withPlaceholders ["", "V0", "", "x"] ns)) ∧
      ns.Pairwise (fun a b => a < b) ∧
      (withPlaceholders ["", "V0", "", "x"] ns).Nodup ∧
      ∃ res, LoadData (newColModel (fun _ => "String")) stringsModel 5 blankHeader =
        some res) ∧
    LoadData.colnames 5 ["x", "", "x"] =
      some (.error (.error "Duplicated column names: x")) := by
  refine ⟨by decide, by decide, by decide, by rfl, ?_, by rfl⟩
  obtain ⟨ns, h1, _, h3, _, _, h6, _, _, _, h10, _, _⟩ :=
    (LoadData_header (newColModel (fun _ => "String")) stringsModel 5 ["", "V0", "", "x"]
      [["1", "2", "3", "4"], ["5", "6", "7", "8"]] (by decide) (by decide) (by decide)).2
      (by decide)
  exact ⟨ns, h1, h3, h6, h10⟩

/-! ## `LoadAndParse`: the target after an error -/

/-- C19 fails on the code: when `LoadData` returns an error, `LoadAndParse` returns it
and leaves the target as it was; but when `LoadData` returns the frame `newDf`, the
target holds `newDf` from then on, and `LoadAndParse` still returns an error, with
the target changed to `newDf`, for a list of types of another length than the number
of columns, for a map of types whose first visited name is no column name, and for a
first column that `parseColumn` rejects. -/
theorem LoadAndParse_error_changes_target (newCol : String → List cell → Except Err column)
    (Strings : List String → List cell) (parseColumn : column → String → Except Err column)
    (visit : List (String × String) → List (String × String)) (rounds : Nat)
    (df : DataFrame) (records : List (List String)) :
    (∀ e, LoadData newCol Strings rounds records = some (.error e) →
      ∀ types, LoadAndParse newCol Strings parseColumn visit rounds df records types =
        some (df, .error e)) ∧
    (∀ newDf, LoadData newCol Strings rounds records = some (.ok newDf) →
      (∀ ts : List String, newDf.nCols ≠ (ts.length : Int) →
        LoadAndParse newCol Strings parseColumn visit rounds df records (.strings ts) =
          some (newDf, .error (.error "Number of columns different from number of types"))) ∧
      (∀ m k t rest, visit m = (k, t) :: rest → k ∉ newDf.colNames →
        LoadAndParse newCol Strings parseColumn visit rounds df records (.T m) =
          some (newDf, .error (.error "Index out of range"))) ∧
      (∀ (ts : List String) v vs t e, newDf.nCols = (ts.length : Int) →
        newDf.columns = v :: vs → ts[0]? = some t → parseColumn v t = .error e →
        LoadAndParse newCol Strings parseColumn visit rounds df records (.strings ts) =
          some (newDf, .error e))) := by
  constructor
  · intro e h types
    simp only [LoadAndParse, h]
  · intro newDf h
    refine ⟨?_, ?_, ?_⟩
    · intro ts hne
      simp only [LoadAndParse, h]
      rw [if_pos hne]
    · intro m k t rest hv hk
      have hfind : findName k newDf.colNames 0 = none :=
        (findName_none_iff k newDf.colNames 0).mpr hk
      simp only [LoadAndParse, h, hv, LoadAndParse.T, columnIndex, hfind]
    · intro ts v vs t e hlen hcols ht hp
      have hidx : index ts 0 = .ok t := index_natCast ts 0 t ht
      simp only [LoadAndParse, h]
      rw [if_neg (by simpa using hlen), hcols]
      simp only [LoadAndParse.strings, hidx, hp]

/-- C19 fails at the target `scenario` and the records `mixedRecords`: with one type
for two columns the error is returned and the target holds the loaded frame; with the
types `Int`, `Int` the first column is retyped, the second is rejected, and the target
is left with the types `Int`, `String`. -/
theorem LoadAndParse_error_changes_target_witness :
    ∃ newDf, LoadData (newColModel (fun _ => "String")) stringsModel 3 mixedRecords =
        some (.ok newDf) ∧
      newDf ≠ scenario ∧ newDf.nCols ≠ ((["Int"] : List String).length : Int) ∧
      LoadAndParse (newColModel (fun _ => "String")) stringsModel
          (parseColumnModel parsesModel) id 3 scenario mixedRecords (.strings ["Int"]) =
        some (newDf, .error (.error "Number of columns different from number of types")) ∧
      ∃ d, LoadAndParse (newColModel (fun _ => "String")) stringsModel
          (parseColumnModel parsesModel) id 3 scenario mixedRecords
          (.strings ["Int", "Int"]) =
        some (d, .error (.error "Can't parse column b as Int")) ∧
      d.colNames = ["a", "b"] ∧ d.colTypes = ["Int", "String"] ∧
      newDf.colTypes = ["String", "String"] :=
  ⟨_, rfl, by decide, by decide,
    (LoadAndParse_error_changes_target (newColModel (fun _ => "String")) stringsModel
      (parseColumnModel parsesModel) id 3 scenario mixedRecords).2 _ rfl |>.1 ["Int"]
      (by decide),
    _, rfl, rfl, rfl, rfl⟩

/-! ## `Rbind`: the row count past the range of `int` -/

set_option maxRecDepth 100000 in
/-- C7 as stated fails: `LoadData` returns from the records `[[], []]` a frame without
columns and with one row; bound with itself 62 times by `Rbind` it has `2^62` rows, and
`Rbind` of that frame with itself returns a frame with `nRows = -2^63`, which is not
the sum of the row counts. -/
theorem Rbind_rows_wrap :
    (∀ (newCol : String → List cell → Except Err column) (Strings : List String → List cell),
      LoadData newCol Strings 1 [[], []] = some (.ok emptyHeader)) ∧
    ∃ g, (∀ colAppend : column → List cell → Except Err column,
        Rbind.repeated colAppend 62 emptyHeader = .ok g) ∧
      g.nRows = 2 ^ 62 ∧ WellFormed g ∧ g.colNames.Nodup ∧
      ∃ r, (∀ colAppend : column → List cell → Except Err column,
          Rbind colAppend g g = .ok r) ∧
        r.nRows = -2 ^ 63 ∧ r.nRows ≠ g.nRows + g.nRows := by
  refine ⟨fun _ _ => by rfl, { emptyHeader with nRows := 2 ^ 62 }, fun _ => by rfl, by rfl,
    by decide, by decide, { emptyHeader with nRows := -2 ^ 63 }, fun _ => by rfl, by rfl,
    by decide⟩

/-! ## `RemoveDuplicated`: the signatures in the returned frame -/

/-- C12 as stated fails when `newCol` gives a column built from no elements an empty
type tag: the rows of `sameDigits` have the signatures `Int1Int23` and `Int12Int3`,
`RemoveDuplicated` keeps both, and in the returned frame both rows have the signature
`123`. -/
theorem RemoveDuplicated_rows_same_signature :
    WellFormed sameDigits ∧
    rowSignature 0 "" sameDigits.columns = .ok "Int1Int23" ∧
    rowSignature 1 "" sameDigits.columns = .ok "Int12Int3" ∧
    ∃ d, RemoveDuplicated (newColModel (fun _ => "")) id sameDigits = .ok d ∧ d.nRows = 2 ∧
      rowSignature 0 "" d.columns = .ok "123" ∧ rowSignature 1 "" d.columns = .ok "123" ∧
      specSignature d 0 = specSignature d 1 := by
  refine ⟨by decide, by rfl, by rfl, _, by rfl, by rfl, by rfl, by rfl, by rfl⟩

/-! ## `Cbind` on frames in memory -/

theorem getD_set_self {α : Type} (mem : List (List α)) (i : Nat) (v : List α)
    (h : i < mem.length) : (mem.set i v).getD i [] = v := by
  simp [List.getD_eq_getElem?_getD, List.getElem?_set_self, h]

theorem getD_set_other {α : Type} (mem : List (List α)) (i j : Nat) (v : List α)
    (h : j ≠ i) : (mem.set i v).getD j [] = mem.getD j [] := by
  simp [List.getD_eq_getElem?_getD, List.getElem?_set_ne (Ne.symm h)]

theorem getD_append_old {α : Type} (mem : List (List α)) (i : Nat) (v : List α)
    (h : i < mem.length) : (mem ++ [v]).getD i [] = mem.getD i [] := by
  simp [List.getD_eq_getElem?_getD, List.getElem?_append_left h]

theorem getD_append_new {α : Type} (mem : List (List α)) (v : List α) :
    (mem ++ [v]).getD mem.length [] = v := by
  simp [List.getD_eq_getElem?_getD]

theorem elems_length {α : Type} (mem : List (List α)) (s : sliceRef) (h : s.Valid mem) :
    (s.elems mem).length = s.len := by
  obtain ⟨_, h2, h3⟩ := h
  simp only [sliceRef.elems, List.length_take, List.length_drop]
  omega

theorem write_segment {α : Type} (arr xs : List α) (off len : Nat)
    (h : off + len + xs.length ≤ arr.length) :
    ((arr.take (off + len) ++ xs ++ arr.drop (off + len + xs.length)).drop off).take
        (len + xs.length) = (arr.drop off).take len ++ xs := by
  have h1 : arr.take (off + len) = arr.take off ++ (arr.drop off).take len := List.take_add _ _ _
  have hl : (arr.take off).length = off := by
    rw [List.length_take]; omega
  have hE : ((arr.drop off).take len).length = len := by
    rw [List.length_take, List.length_drop]; omega
  rw [h1, List.append_assoc, List.append_assoc, List.drop_left' hl, ← List.append_assoc]
  exact List.take_left' (by rw [List.length_append, hE])

theorem write_keeps {α : Type} (arr xs : List α) (off len : Nat)
    (h : off + len + xs.length ≤ arr.length) :
    ((arr.take (off + len) ++ xs ++ arr.drop (off + len + xs.length)).drop off).take len =
      (arr.drop off).take len := by
  have h1 : arr.take (off + len) = arr.take off ++ (arr.drop off).take len := List.take_add _ _ _
  have hl : (arr.take off).length = off := by
    rw [List.length_take]; omega
  have hE : ((arr.drop off).take len).length = len := by
    rw [List.length_take, List.length_drop]; omega
  rw [h1, List.append_assoc, List.append_assoc, List.drop_left' hl]
  exact List.take_left' hE

/-- The slice `append` returns holds the elements of `s` followed by `xs`. -/
theorem goAppend_elems {α : Type} [Inhabited α] (grow : Nat → Nat) (mem : List (List α))
    (s : sliceRef) (xs : List α) (h : s.Valid mem) :
    (goAppend grow mem s xs).2.elems (goAppend grow mem s xs).1 = s.elems mem ++ xs := by
  have hlen := elems_length mem s h
  obtain ⟨h1, h2, h3⟩ := h
  unfold goAppend
  by_cases hc : s.len + xs.length ≤ s.cap
  · simp only [hc, if_true, sliceRef.elems]
    rw [getD_set_self _ _ _ h1]
    exact write_segment _ xs s.off s.len (by omega)
  · simp only [hc, if_false, sliceRef.elems]
    rw [getD_append_new, List.drop_zero]
    exact List.take_left' (by rw [List.length_append]; simp only [sliceRef.elems] at hlen; omega)

/-- After `append(s, xs...)` the slice `s` itself holds what it held. -/
theorem goAppend_self {α : Type} [Inhabited α] (grow : Nat → Nat) (mem : List (List α))
    (s : sliceRef) (xs : List α) (h : s.Valid mem) :
    s.elems (goAppend grow mem s xs).1 = s.elems mem := by
  obtain ⟨h1, h2, h3⟩ := h
  unfold goAppend
  by_cases hc : s.len + xs.length ≤ s.cap
  · simp only [hc, if_true, sliceRef.elems]
    rw [getD_set_self _ _ _ h1]
    exact write_keeps _ xs s.off s.len (by omega)
  · simp only [hc, if_false, sliceRef.elems]
    rw [getD_append_old _ _ _ h1]

/-- After `append(s, xs...)` a slice `t` holds what it held, when `s` has no spare
capacity or `t` points into another array. -/
theorem goAppend_other {α : Type} [Inhabited α] (grow : Nat → Nat) (mem : List (List α))
    (s t : sliceRef) (xs : List α) (ht : t.array < mem.length)
    (hsep : s.cap = s.len ∨ t.array ≠ s.array) :
    t.elems (goAppend grow mem s xs).1 = t.elems mem := by
  unfold goAppend
  by_cases hc : s.len + xs.length ≤ s.cap
  · simp only [hc, if_true, sliceRef.elems]
    rcases hsep with hfull | hne
    · have hx : xs = [] := List.length_eq_zero.mp (by omega)
      subst hx
      simp only [List.append_nil, List.length_nil, Nat.add_zero, List.take_append_drop]
      by_cases hta : t.array = s.array
      · rw [hta]
        by_cases hs : s.array < mem.length
        · rw [getD_set_self _ _ _ hs]
        · simp [List.getD_eq_getElem?_getD, List.getElem?_eq_none (not_lt.mp hs),
            List.set_eq_of_length_le (not_lt.mp hs)]
      · rw [getD_set_other _ _ _ _ hta]
    · rw [getD_set_other _ _ _ _ hne]
  · simp only [hc, if_false, sliceRef.elems]
    rw [getD_append_old _ _ _ ht]

/-- On frames whose slices point into the memory, `Cbind` in memory returns what
`Cbind` on the frame values returns, with the same error otherwise, and it leaves
`dfA` holding what it held. -/
theorem Cbind_inMemory_value (grow : Nat → Nat) (mem : memory) (A B : frameRef)
    (hA : A.Valid mem) :
    (∀ e, Cbind (A.value mem) (B.value mem) = .error e →
      Cbind.inMemory grow mem A B = .error e) ∧
    (∀ r, Cbind (A.value mem) (B.value mem) = .ok r →
      ∃ mem' c, Cbind.inMemory grow mem A B = .ok (mem', c) ∧ c.value mem' = r ∧
        A.value mem' = A.value mem ∧
        (B.Valid mem → Separate A B → B.value mem' = B.value mem)) := by
  obtain ⟨hc, hn, ht⟩ := hA
  constructor
  · intro e h
    unfold Cbind at h
    unfold Cbind.inMemory
    simp only [frameRef.value] at h
    by_cases hr : A.nRows ≠ B.nRows
    · rw [if_pos hr] at h ⊢
      simp only [Except.error.injEq] at h ⊢
      exact h
    · rw [if_neg hr] at h ⊢
      cases hchk : Cbind.check (Cbind.nameMap [] (A.colNames.elems mem.colNames))
          (B.colNames.elems mem.colNames) with
      | error e' => rw [hchk] at h; simpa using h
      | ok un => rw [hchk] at h; exact absurd h (by simp)
  · intro r h
    unfold Cbind at h
    unfold Cbind.inMemory
    simp only [frameRef.value] at h
    by_cases hr : A.nRows ≠ B.nRows
    · rw [if_pos hr] at h
      exact absurd h (by simp)
    · rw [if_neg hr] at h ⊢
      cases hchk : Cbind.check (Cbind.nameMap [] (A.colNames.elems mem.colNames))
          (B.colNames.elems mem.colNames) with
      | error e' => rw [hchk] at h; exact absurd h (by simp)
      | ok un =>
        rw [hchk] at h
        simp only [Except.ok.injEq] at h
        refine ⟨_, _, rfl, ?_, ?_, ?_⟩
        · rw [← h]
          simp only [frameRef.value, goAppend_elems grow _ _ _ hc, goAppend_elems grow _ _ _ hn,
            goAppend_elems grow _ _ _ ht, List.length_append, elems_length _ _ hn]
          have hl : (goAppend grow mem.colNames A.colNames
              (B.colNames.elems mem.colNames)).2.len =
              A.colNames.len + (B.colNames.elems mem.colNames).length := by
            unfold goAppend
            split <;> rfl
          rw [hl]
        · simp only [frameRef.value, goAppend_self grow _ _ _ hc, goAppend_self grow _ _ _ hn,
            goAppend_self grow _ _ _ ht]
        · intro hB hsep
          obtain ⟨bc, bn, bt⟩ := hB
          obtain ⟨sc, sn, st⟩ := hsep
          simp only [frameRef.value, goAppend_other grow _ _ _ _ bc.1 sc,
            goAppend_other grow _ _ _ _ bn.1 sn, goAppend_other grow _ _ _ _ bt.1 st]

/-- C15 as stated fails: `A` and `B` are the column `0` and the columns `2, 3` of a
frame of four columns, taken by `SubsetColumns` by a range, so their slices share the
arrays of that frame; they are well formed, with distinct names, as many rows, and no
name in common.  `Cbind(A, B)` returns the frame of the columns `x, z, w`, as on frame
values, and writes the names of `B` into the shared array: afterwards `B.colNames`
reads `[w, w]`, the frame of four columns has the names `[x, z, w, w]`, and
`SubsetColumns` of the result by `B.colNames` returns the error of duplicated names. -/
theorem Cbind_overwrites_operand :
    SubsetColumns.rangeInMemory parent 0 1 = .ok firstOne ∧
    SubsetColumns.rangeInMemory parent 2 4 = .ok lastTwo ∧
    SubsetColumns (parent.value fourColumns) (.R 0 1) = .ok (firstOne.value fourColumns) ∧
    SubsetColumns (parent.value fourColumns) (.R 2 4) = .ok (lastTwo.value fourColumns) ∧
    firstOne.Valid fourColumns ∧ lastTwo.Valid fourColumns ∧ ¬ Separate firstOne lastTwo ∧
    WellFormed (firstOne.value fourColumns) ∧ WellFormed (lastTwo.value fourColumns) ∧
    (firstOne.value fourColumns).colNames = ["x"] ∧
    (lastTwo.value fourColumns).colNames = ["z", "w"] ∧
    (firstOne.value fourColumns).nRows = (lastTwo.value fourColumns).nRows ∧
    ∃ mem c, (∀ grow, Cbind.inMemory grow fourColumns firstOne lastTwo = .ok (mem, c)) ∧
      Cbind (firstOne.value fourColumns) (lastTwo.value fourColumns) = .ok (c.value mem) ∧
      (c.value mem).colNames = ["x", "z", "w"] ∧
      (firstOne.value mem).colNames = ["x"] ∧
      (lastTwo.value mem).colNames = ["w", "w"] ∧
      (parent.value mem).colNames = ["x", "z", "w", "w"] ∧
      SubsetColumns (c.value mem) (.strings (firstOne.value mem).colNames) =
        .ok (firstOne.value fourColumns) ∧
      SubsetColumns (c.value mem) (.strings (lastTwo.value mem).colNames) =
        .error (.error "Duplicated column names:[w]") := by
  refine ⟨rfl, rfl, by rfl, by rfl, by decide, by decide, by decide, by decide, by decide,
    by rfl, by rfl, by rfl,
    { columns :=
        [[ { cells := [⟨none, "1"⟩], colType := "String", colName := "x", numChars := 1 },
           { cells := [⟨none, "3"⟩], colType := "String", colName := "z", numChars := 1 },
           { cells := [⟨none, "4"⟩], colType := "String", colName := "w", numChars := 1 },
           { cells := [⟨none, "4"⟩], colType := "String", colName := "w", numChars := 1 } ]],
      colNames := [["x", "z", "w", "w"]],
      colTypes := [["String", "String", "String", "String"]] },
    { columns := { array := 0, off := 0, len := 3, cap := 4 },
      colNames := { array := 0, off := 0, len := 3, cap := 4 },
      colTypes := { array := 0, off := 0, len := 3, cap := 4 }, nCols := 3, nRows := 1 },
    fun _ => rfl, by rfl, by rfl, by rfl, by rfl, by rfl, by rfl, by rfl⟩

/-- C15, amended: for frames `A` and `B` in memory that are well formed, with at least
one column each, distinct column names each, equal row counts and no column name in
common, and such that, slice by slice, `A` has no spare capacity or `B` points into
another array: `Cbind` succeeds with a frame `c` and leaves `A` and `B` as they were,
`SubsetColumns` of `c` by the column names of `A` returns `A` (its names, types and
columns in its order), and by the column names of `B` returns `B`. -/
theorem Cbind_then_subset (grow : Nat → Nat) (mem : memory) (A B : frameRef)
    (hvA : A.Valid mem) (hvB : B.Valid mem) (hsep : Separate A B)
    (hA : WellFormed (A.value mem)) (hB : WellFormed (B.value mem))
    (hnA : (A.value mem).colNames.Nodup) (hnB : (B.value mem).colNames.Nodup)
    (hrows : (A.value mem).nRows = (B.value mem).nRows)
    (hdisj : ∀ v ∈ (B.value mem).colNames, v ∉ (A.value mem).colNames)
    (hA0 : (A.value mem).colNames ≠ []) (hB0 : (B.value mem).colNames ≠ []) :
    ∃ mem' c, Cbind.inMemory grow mem A B = .ok (mem', c) ∧
      A.value mem' = A.value mem ∧ B.value mem' = B.value mem ∧
      SubsetColumns (c.value mem') (.strings (A.value mem').colNames) = .ok (A.value mem) ∧
      SubsetColumns (c.value mem') (.strings (B.value mem').colNames) = .ok (B.value mem) := by
  obtain ⟨r, hr, hsA, hsB⟩ :=
    Cbind_then_subset_values (A.value mem) (B.value mem) hA hB hnA hnB hrows hdisj hA0 hB0
  obtain ⟨mem', c, hrun, hval, hkA, hkB⟩ := (Cbind_inMemory_value grow mem A B hvA).2 r hr
  have hkB' := hkB hvB hsep
  refine ⟨mem', c, hrun, hkA, hkB', ?_, ?_⟩
  · rw [hval, hkA]; exact hsA
  · rw [hval, hkB']; exact hsB

/-- C15 amended, at the columns `2, 3` and the column `0` of the frame of four columns:
the slices of the first have no spare capacity, so `Cbind` builds new arrays and both
frames come back. -/
theorem Cbind_then_subset_witness :
    SubsetColumns.rangeInMemory parent 2 4 = .ok lastTwo ∧
    SubsetColumns.rangeInMemory parent 0 1 = .ok firstOne ∧
    lastTwo.Valid fourColumns ∧ firstOne.Valid fourColumns ∧ Separate lastTwo firstOne ∧
    WellFormed (lastTwo.value fourColumns) ∧ WellFormed (firstOne.value fourColumns) ∧
    (lastTwo.value fourColumns).colNames = ["z", "w"] ∧
    (firstOne.value fourColumns).colNames = ["x"] ∧
    ∃ mem' c, Cbind.inMemory (fun n => n) fourColumns lastTwo firstOne = .ok (mem', c) ∧
      lastTwo.value mem' = lastTwo.value fourColumns ∧
      firstOne.value mem' = firstOne.value fourColumns ∧
      SubsetColumns (c.value mem') (.strings (lastTwo.value mem').colNames) =
        .ok (lastTwo.value fourColumns) ∧
      SubsetColumns (c.value mem') (.strings (firstOne.value mem').colNames) =
        .ok (firstOne.value fourColumns) :=
  ⟨rfl, rfl, by decide, by decide, by decide, by decide, by decide, by rfl, by rfl,
    Cbind_then_subset (fun n => n) fourColumns lastTwo firstOne
      (by decide) (by decide) (by decide) (by decide) (by decide) (by decide) (by decide)
      (by decide) (by decide) (by decide) (by decide)⟩

end df
